import Mathlib

/-!
Shallow embedding of the guarded NL-to-SQL safety pipeline
(`src/sql/validate.ts`, `src/sql/read-only-safety.ts`, `src/sql/tenant-enforce.ts`,
`src/sql/paginate.ts`, `src/sql/identifiers.ts`, `src/schema/introspect.ts`).

Pure data processing is translated directly; the external SQL parser
(`node-sql-parser`) is treated as an abstract function from strings to ASTs
(and back, for the serializer), exactly as the code treats it.
-/

deriving instance DecidableEq for Except

namespace OrgDb

/-! ## String helpers

JavaScript string operations used by the source: `trim`, `toLowerCase`,
`toUpperCase`, `replace(/"/g, '')`, `includes`.
-/

def isWs (c : Char) : Bool := c.isWhitespace

/-- Remove leading whitespace, as the front half of JS `String.trim`. -/
def trimLeft (l : List Char) : List Char := l.dropWhile isWs

/-- Remove trailing whitespace, as the back half of JS `String.trim`. -/
def trimRight (l : List Char) : List Char := ((l.reverse).dropWhile isWs).reverse

/-- Character-level model of JS `String.trim`. -/
def trimChars (l : List Char) : List Char := trimRight (trimLeft l)

def trimString (s : String) : String := ⟨trimChars s.data⟩

def lowerChars (l : List Char) : List Char := l.map Char.toLower

def lowerString (s : String) : String := ⟨lowerChars s.data⟩

def upperString (s : String) : String := ⟨s.data.map Char.toUpper⟩

/-- Model of `value.replace(/"/g, '')`: drop every double-quote character. -/
def stripQuotes (l : List Char) : List Char := l.filter (fun c => c ≠ '"')

/-- Source (`validate.ts`, `tenant-enforce.ts`, `introspect.ts`):
`const normalize = (value) => value.replace(/"/g, '').trim().toLowerCase()`. -/
def normalize (s : String) : String := ⟨lowerChars (trimChars (stripQuotes s.data))⟩

/-- Substring test on character lists (JS `String.includes` / regex literal). -/
def hasSubstr (pat : List Char) (l : List Char) : Bool :=
  match l with
  | [] => pat.isEmpty
  | _ :: rest => pat.isPrefixOf l || hasSubstr pat rest

def containsSubstr (s : String) (pat : String) : Bool := hasSubstr pat.data s.data

/-! ## identifiers.ts -/

/-- Source `stripOuterQuotes`: remove one matching pair of outer double quotes. -/
def stripOuterQuotesChars (l : List Char) : List Char :=
  if l.length ≥ 2 ∧ l.head? = some '"' ∧ l.getLast? = some '"'
  then (l.drop 1).dropLast else l

/-- Source `escape`: JS `raw.replace(/"/g, '""')`. -/
def escapeQuotes (l : List Char) : List Char :=
  l.flatMap (fun c => if c = '"' then ['"', '"'] else [c])

/-- Source `toAstIdentifier`: trim, strip outer quotes, double inner quotes,
wrap in double quotes. -/
def toAstIdentifier (s : String) : String :=
  ⟨'"' :: (escapeQuotes (stripOuterQuotesChars (trimChars s.data)) ++ ['"'])⟩

/-! ## read-only-safety.ts: the lexical guard -/

/-- JS regex word character class `\w` = `[A-Za-z0-9_]`. -/
def isWordChar (c : Char) : Bool :=
  ('a' ≤ c ∧ c ≤ 'z') || ('A' ≤ c ∧ c ≤ 'Z') || ('0' ≤ c ∧ c ≤ '9') || c = '_'

/-- Case-insensitive prefix match of a (lower-case) pattern against text. -/
def prefixMatchCI : List Char → List Char → Bool
  | [], _ => true
  | _ :: _, [] => false
  | k :: ks, c :: cs => c.toLower = k && prefixMatchCI ks cs

/-- A word boundary holds before a word character when the previous character
is absent or not a word character. -/
def boundaryBefore (prev : Option Char) : Bool :=
  match prev with
  | none => true
  | some p => !isWordChar p

/-- A word boundary holds after the match when the rest is empty or starts
with a non-word character. -/
def boundaryAfterAt (l : List Char) : Bool :=
  match l with
  | [] => true
  | c :: _ => !isWordChar c

/-- Scan for `\bkw\b` (case-insensitive), tracking the previous character. -/
def wordMatchAux (kw : List Char) (prev : Option Char) : List Char → Bool
  | [] => false
  | c :: cs =>
    (boundaryBefore prev && prefixMatchCI kw (c :: cs)
      && boundaryAfterAt ((c :: cs).drop kw.length))
    || wordMatchAux kw (some c) cs

def wordMatch (kw : String) (s : String) : Bool := wordMatchAux kw.data none s.data

/-- Keyword set of `disallowedKeywordPattern` in `read-only-safety.ts`. -/
def disallowedKeywords : List String :=
  ["insert", "update", "delete", "drop", "alter", "truncate", "create",
   "grant", "revoke", "exec", "execute", "copy", "call", "do", "merge",
   "replace", "upsert", "vacuum", "analyze", "reindex", "cluster",
   "discard", "checkpoint"]

def hasDisallowedKeyword (s : String) : Bool :=
  disallowedKeywords.any (fun kw => wordMatch kw s)

/-- Consume at least one whitespace character (regex unit for one `\s+`). -/
def skipWs1 : List Char → Option (List Char)
  | [] => none
  | c :: cs => if isWs c then some (cs.dropWhile isWs) else none

/-- Consume a case-insensitive word, returning the rest of the input. -/
def eatWordCI (kw : List Char) (l : List Char) : Option (List Char) :=
  if prefixMatchCI kw l then some (l.drop kw.length) else none

/-- Consume a sequence of words separated by single `\s+` gaps. -/
def eatWordSeqCI : List (List Char) → List Char → Option (List Char)
  | [], l => some l
  | [w], l => eatWordCI w l
  | w :: w' :: ws, l =>
    match eatWordCI w l with
    | none => none
    | some rest =>
      match skipWs1 rest with
      | none => none
      | some rest' => eatWordSeqCI (w' :: ws) rest'

/-- Tail of `rowLockPattern` after the `for\s+` part:
`(update|share|no\s+key\s+update|key\s+share)\b`. -/
def rowLockTail (l : List Char) : Bool :=
  [["update".data], ["share".data], ["no".data, "key".data, "update".data],
   ["key".data, "share".data]].any
    (fun seq =>
      match eatWordSeqCI seq l with
      | none => false
      | some rest => boundaryAfterAt rest)

/-- Scan for `rowLockPattern` = `\bfor\s+(update|share|no\s+key\s+update|key\s+share)\b`. -/
def rowLockAux (prev : Option Char) : List Char → Bool
  | [] => false
  | c :: cs =>
    (boundaryBefore prev &&
      (match eatWordCI "for".data (c :: cs) with
       | none => false
       | some rest =>
         match skipWs1 rest with
         | none => false
         | some rest' => rowLockTail rest'))
    || rowLockAux (some c) cs

def hasRowLock (s : String) : Bool := rowLockAux none s.data

/-- Function names of `sideEffectFunctionPattern` in `read-only-safety.ts`. -/
def sideEffectFnNames : List String :=
  ["nextval", "setval", "pg_advisory_lock", "pg_advisory_xact_lock", "pg_sleep"]

/-- Scan for `\b(name)\s*\(` for one side-effect function name. -/
def sideEffectAux (name : List Char) (prev : Option Char) : List Char → Bool
  | [] => false
  | c :: cs =>
    (boundaryBefore prev &&
      (match eatWordCI name (c :: cs) with
       | none => false
       | some rest =>
         match rest.dropWhile isWs with
         | [] => false
         | r :: _ => r = '('))
    || sideEffectAux name (some c) cs

def hasSideEffectFn (s : String) : Bool :=
  sideEffectFnNames.any (fun n => sideEffectAux n.data none s.data)

/-- Structured error codes thrown by the pipeline (`SqlValidationError.code`). -/
inductive SqlErrorCode where
  | SQL_SEMICOLON_NOT_ALLOWED
  | SQL_COMMENTS_NOT_ALLOWED
  | SQL_DISALLOWED_KEYWORD
  | SQL_ROW_LOCK_NOT_ALLOWED
  | SQL_SIDE_EFFECT_FUNCTION
  | SQL_PARSE_ERROR
  | SQL_MULTI_STATEMENT
  | SQL_NOT_SELECT
  | SQL_CTE_NOT_SUPPORTED
  | SQL_SELECT_INTO_NOT_ALLOWED
  | SQL_FROM_UNSUPPORTED
  | SQL_SUBQUERY_NOT_SUPPORTED
  | SQL_TABLE_MISSING
  | SQL_JOIN_UNSUPPORTED
  | SQL_TABLE_UNKNOWN
  | SQL_PARAMETER_NOT_ALLOWED
  | SQL_COLUMN_UNSUPPORTED
  | SQL_WILDCARD_NOT_ALLOWED
  | SQL_SENSITIVE_COLUMN
  | SQL_TABLE_ALIAS_UNKNOWN
  | SQL_COLUMN_UNKNOWN
  | SQL_COLUMN_NO_SOURCE
  | SQL_COLUMN_AMBIGUOUS
  | SQL_OFFSET_NOT_ALLOWED
  | SQL_LIMIT_NOT_NUMERIC
  | SQL_LIMIT_INVALID
  deriving DecidableEq, Repr

/-- Source `assertReadOnlySqlTokens`: the five checks, in source order. -/
def checkReadOnlySqlTokens (sql : String) : Except SqlErrorCode Unit :=
  if sql.data.contains ';' then .error .SQL_SEMICOLON_NOT_ALLOWED
  else if containsSubstr sql "--" || containsSubstr sql "/*" then
    .error .SQL_COMMENTS_NOT_ALLOWED
  else if hasDisallowedKeyword sql then .error .SQL_DISALLOWED_KEYWORD
  else if hasRowLock sql then .error .SQL_ROW_LOCK_NOT_ALLOWED
  else if hasSideEffectFn sql then .error .SQL_SIDE_EFFECT_FUNCTION
  else .ok ()

/-! ## JS `Map` and `Set` models

JS `Map.set` keeps the first-insertion position of a key and overwrites its
value; `Map.get` returns the stored value; `values()` iterates in insertion
order. JS `Set` deduplicates, keeping first insertion.
-/

def mapGet {β : Type} (m : List (String × β)) (k : String) : Option β :=
  (m.find? (fun p => p.1 = k)).map (fun p => p.2)

def mapSet {β : Type} (m : List (String × β)) (k : String) (v : β) :
    List (String × β) :=
  match m with
  | [] => [(k, v)]
  | p :: rest => if p.1 = k then (k, v) :: rest else p :: mapSet rest k v

def mapValues {β : Type} (m : List (String × β)) : List β := m.map (fun p => p.2)

def setAdd (s : List String) (x : String) : List String :=
  if s.contains x then s else s ++ [x]

/-- Deduplicate preserving first occurrence (JS `Array.from(new Set(xs))`). -/
def dedupeStrings (xs : List String) : List String := xs.foldl setAdd []

/-! ## AST model

`node-sql-parser` hands `validate.ts` a dynamic object; the pipeline inspects
only the shapes below (`type: 'select' | 'column_ref' | 'var' | 'binary_expr'`,
`from` items, `where`, `limit`, `columns`, `with`, `into`).
-/

/-- The `column` field of a `column_ref` node: either a bare string or the
wrapped `{ expr: { type, value } }` shape that `setColumnName` writes. -/
inductive ColField where
  | plain (s : String)
  | wrapped (typ : String) (value : String)
  deriving DecidableEq, Repr

/-- Source `extractColumnName`. -/
def extractColumnName : ColField → String
  | .plain s => s
  | .wrapped _ v => v

/-- Expression nodes the pipeline inspects or builds. `varParam` models a
`{ type: 'var', prefix, name }` placeholder node; `pfx` is its `prefix` field. -/
inductive Expr where
  | columnRef (table : Option String) (column : ColField)
  | varParam (pfx : String) (idx : Int)
  | binary (op : String) (l r : Expr)
  | numLit (n : Int)
  | strLit (s : String)
  deriving DecidableEq, Repr

/-- One `SELECT`-list item: an expression and an optional `AS` alias. -/
structure SelectColumn where
  expr : Expr
  asName : Option String
  deriving DecidableEq, Repr

/-- One `FROM`-list item. `subquery` models the presence of a `node.expr`
derived table; `joinKind` is the `join` descriptor string; `asName` the alias. -/
structure FromItem where
  subquery : Bool
  table : Option String
  db : Option String
  joinKind : Option String
  asName : Option String
  onCond : Option Expr
  deriving DecidableEq, Repr

/-- One value inside the AST `limit.value` array: `{ type, value }`. -/
structure LimitEntry where
  typ : String
  value : Int
  deriving DecidableEq, Repr

/-- The AST `limit` node: `{ seperator, value }` (source spells `seperator`). -/
structure LimitNode where
  seperator : String
  value : List LimitEntry
  deriving DecidableEq, Repr

/-- A parsed `SELECT` statement, restricted to the fields the pipeline reads
or writes. `withCte` / `intoPosition` model presence of `with` / `into.position`. -/
structure SelectAst where
  withCte : Bool
  intoPosition : Bool
  columns : List SelectColumn
  fromItems : Option (List FromItem)
  whereCond : Option Expr
  groupBy : List Expr
  having : Option Expr
  orderBy : List Expr
  limit : Option LimitNode
  deriving DecidableEq, Repr

/-- Result of the abstract external parser (`parser.astify`): a parse failure,
an array of statements, a non-`SELECT` statement, or a single `SELECT`. -/
inductive RawAst where
  | multi
  | nonSelect
  | one (ast : SelectAst)
  deriving DecidableEq, Repr

/-! ## Schema model (introspect.ts) -/

/-- Source `SchemaTable`. -/
structure SchemaTable where
  schemaName : String
  name : String
  key : String
  isView : Bool
  columns : List String
  columnsLower : List String
  columnsByLower : List (String × String)
  hasOrganizationId : Bool
  deriving DecidableEq, Repr

/-- Source `SchemaSnapshot` (the `dialect` tag is the constant `PostgreSQL`). -/
structure SchemaSnapshot where
  refreshedAtIso : String
  tables : List SchemaTable
  byKey : List (String × SchemaTable)
  byName : List (String × List SchemaTable)
  deriving DecidableEq, Repr

/-- Source `resolveTable`. -/
def resolveTable (snapshot : SchemaSnapshot) (tableName : String)
    (schemaName : Option String) : Option SchemaTable :=
  let normalizedTable := normalize tableName
  match schemaName with
  | some sn => mapGet snapshot.byKey (normalize sn ++ "." ++ normalizedTable)
  | none =>
    let candidates := (mapGet snapshot.byName normalizedTable).getD []
    match candidates with
    | [] => none
    | [t] => some t
    | _ :: _ :: _ =>
      candidates.find? (fun c => normalize c.schemaName = "public")

/-- Source `canonicalColumnName`. -/
def canonicalColumnName (table : SchemaTable) (normalizedColumnName : String) :
    Option String :=
  mapGet table.columnsByLower normalizedColumnName

/-- A row of the `information_schema.tables` query in `introspectSchema`. -/
structure TableRow where
  table_schema : String
  table_name : String
  table_type : String
  deriving DecidableEq, Repr

/-- A row of the `information_schema.columns` query in `introspectSchema`
(rows arrive ordered by schema, table, ordinal position). -/
structure ColumnRow where
  table_schema : String
  table_name : String
  column_name : String
  deriving DecidableEq, Repr

/-- Grouping pass of `introspectSchema`: build `columnsByTable`. -/
def buildColumnsByTable (rows : List ColumnRow) : List (String × List String) :=
  rows.foldl
    (fun acc row =>
      let key := normalize row.table_schema ++ "." ++ normalize row.table_name
      mapSet acc key ((mapGet acc key).getD [] ++ [row.column_name]))
    []

/-- Per-table construction inside `introspectSchema`. -/
def buildSchemaTable (columnsByTable : List (String × List String))
    (row : TableRow) : SchemaTable :=
  let key := normalize row.table_schema ++ "." ++ normalize row.table_name
  let columns := (mapGet columnsByTable key).getD []
  let columnsLower := (columns.map normalize).foldl setAdd []
  let columnsByLower := columns.foldl (fun m c => mapSet m (normalize c) c) []
  { schemaName := row.table_schema
    name := row.table_name
    key := key
    isView := upperString row.table_type = "VIEW"
    columns := columns
    columnsLower := columnsLower
    columnsByLower := columnsByLower
    hasOrganizationId := columnsLower.contains "organizationid" }

/-- Pure data-construction part of `introspectSchema`, applied to the rows the
two catalog queries return. -/
def buildSnapshot (tableRows : List TableRow) (columnRows : List ColumnRow)
    (refreshedAtIso : String) : SchemaSnapshot :=
  let columnsByTable := buildColumnsByTable columnRows
  let tables := tableRows.map (buildSchemaTable columnsByTable)
  let byKey := tables.foldl (fun m t => mapSet m t.key t) []
  let byName :=
    tables.foldl
      (fun m t =>
        let bare := normalize t.name
        mapSet m bare ((mapGet m bare).getD [] ++ [t]))
      []
  { refreshedAtIso := refreshedAtIso
    tables := tables
    byKey := byKey
    byName := byName }

/-! ## validate.ts -/

/-- Source `sensitiveColumnPattern`: the regex
`(password|token|secret|apikey|api_key|refresh|salt|hash|credential|ssn|aadhaar|pan)`
with the case-insensitive flag; a plain substring match of any alternative. -/
def sensitiveWords : List String :=
  ["password", "token", "secret", "apikey", "api_key", "refresh", "salt",
   "hash", "credential", "ssn", "aadhaar", "pan"]

def sensitiveMatch (s : String) : Bool :=
  sensitiveWords.any (fun w => containsSubstr s w)

/-- Source `setColumnName`: overwrite the node's `column` field with the
wrapped shape carrying the canonical identifier. -/
def setColumnName (columnName : String) : ColField :=
  .wrapped "default" (toAstIdentifier columnName)

/-- Source `ensureSupportedJoinType`. -/
def ensureSupportedJoinType (joinType : String) : Except SqlErrorCode Unit :=
  let normalizedJoin := upperString (trimString joinType)
  if containsSubstr normalizedJoin "RIGHT" || containsSubstr normalizedJoin "FULL"
      || containsSubstr normalizedJoin "CROSS"
      || containsSubstr normalizedJoin "NATURAL" then
    .error .SQL_JOIN_UNSUPPORTED
  else .ok ()

/-- Source `ReferencedTable`. -/
structure ReferencedTable where
  aliasName : String
  meta : SchemaTable
  joinType : Option String
  deriving DecidableEq, Repr

/-- Discriminator for `Except` results (used only in statements/proofs). -/
def exceptIsOk {ε α : Type} : Except ε α → Bool
  | .ok _ => true
  | .error _ => false

/-- Error-propagating map over a list (the behavior of the source's
sequential `for` loops and walks, which throw on the first failure). -/
def mapMExcept {α β : Type} (f : α → Except SqlErrorCode β) :
    List α → Except SqlErrorCode (List β)
  | [] => .ok []
  | a :: as =>
    match f a with
    | .error e => .error e
    | .ok b =>
      match mapMExcept f as with
      | .error e => .error e
      | .ok bs => .ok (b :: bs)

/-- Body of the `for (const item of from)` loop in `resolveReferencedTables`. -/
def resolveFromItem (snapshot : SchemaSnapshot) (node : FromItem) :
    Except SqlErrorCode ReferencedTable :=
  if node.subquery then .error .SQL_SUBQUERY_NOT_SUPPORTED
  else
    match node.table with
    | none => .error .SQL_TABLE_MISSING
    | some tableName =>
      match (match node.joinKind with
             | some j => ensureSupportedJoinType j
             | none => .ok ()) with
      | .error e => .error e
      | .ok _ =>
        match resolveTable snapshot tableName node.db with
        | none => .error .SQL_TABLE_UNKNOWN
        | some tableMeta =>
          let aliasVal :=
            match node.asName with
            | some a => if (trimString a).length > 0 then a else tableName
            | none => tableName
          .ok { aliasName := aliasVal, meta := tableMeta, joinType := node.joinKind }

/-- Source `resolveReferencedTables` (a `null` `from` yields no references). -/
def resolveReferencedTables (ast : SelectAst) (snapshot : SchemaSnapshot) :
    Except SqlErrorCode (List ReferencedTable) :=
  match ast.fromItems with
  | none => .ok []
  | some items => mapMExcept (resolveFromItem snapshot) items

/-- Context captured by the `validateColumns` closure before the AST walk. -/
structure ColumnCtx where
  selectAliases : List String
  aliasToTable : List (String × SchemaTable)
  tableNameToAliases : List (String × List String)
  referencedTables : List ReferencedTable
  deriving DecidableEq, Repr

/-- Build the three lookup structures of `validateColumns`. -/
def buildColumnCtx (ast : SelectAst) (referencedTables : List ReferencedTable) :
    ColumnCtx :=
  let selectAliases :=
    ast.columns.foldl
      (fun acc col =>
        match col.asName with
        | some a => setAdd acc (normalize a)
        | none => acc)
      []
  let aliasToTable :=
    referencedTables.foldl (fun m t => mapSet m (normalize t.aliasName) t.meta) []
  let tableNameToAliases :=
    referencedTables.foldl
      (fun m t =>
        let k := normalize t.meta.name
        mapSet m k ((mapGet m k).getD [] ++ [t.aliasName]))
      []
  { selectAliases := selectAliases
    aliasToTable := aliasToTable
    tableNameToAliases := tableNameToAliases
    referencedTables := referencedTables }

/-- The `column_ref` branch of the walk visitor in `validateColumns`:
wildcard check, sensitive-name check, then alias resolution and
column-ownership lookup, rewriting the column to canonical case. -/
def checkColumnRef (ctx : ColumnCtx) (tableField : Option String)
    (col : ColField) : Except SqlErrorCode ColField :=
  let rawColumnName := extractColumnName col
  if rawColumnName = "*" then .error .SQL_WILDCARD_NOT_ALLOWED
  else
    let columnName := normalize rawColumnName
    if sensitiveMatch columnName then .error .SQL_SENSITIVE_COLUMN
    else
      match tableField with
      | some tbl =>
        let tableToken := normalize tbl
        let tableMeta :=
          match mapGet ctx.aliasToTable tableToken with
          | some m => some m
          | none =>
            match (mapGet ctx.tableNameToAliases tableToken).getD [] with
            | [a] => mapGet ctx.aliasToTable (normalize a)
            | _ => none
        match tableMeta with
        | none => .error .SQL_TABLE_ALIAS_UNKNOWN
        | some meta =>
          if !meta.columnsLower.contains columnName then .error .SQL_COLUMN_UNKNOWN
          else
            match canonicalColumnName meta columnName with
            | some canonical => .ok (setColumnName canonical)
            | none => .ok col
      | none =>
        if ctx.selectAliases.contains columnName then .ok col
        else if ctx.referencedTables.isEmpty then .error .SQL_COLUMN_NO_SOURCE
        else
          match ctx.referencedTables.filter
              (fun t => t.meta.columnsLower.contains columnName) with
          | [] => .error .SQL_COLUMN_UNKNOWN
          | [t] =>
            match canonicalColumnName t.meta columnName with
            | some canonical => .ok (setColumnName canonical)
            | none => .ok col
          | _ :: _ :: _ => .error .SQL_COLUMN_AMBIGUOUS

/-- The generic `walk` of `validate.ts`, specialized to expressions: the
visitor rejects `var` nodes, validates and rewrites `column_ref` nodes, and
recurses into children. -/
def walkExpr (ctx : ColumnCtx) : Expr → Except SqlErrorCode Expr
  | .varParam _ _ => .error .SQL_PARAMETER_NOT_ALLOWED
  | .columnRef table col =>
    match checkColumnRef ctx table col with
    | .error e => .error e
    | .ok col' => .ok (.columnRef table col')
  | .binary op l r =>
    match walkExpr ctx l with
    | .error e => .error e
    | .ok l' =>
      match walkExpr ctx r with
      | .error e => .error e
      | .ok r' => .ok (.binary op l' r')
  | .numLit n => .ok (.numLit n)
  | .strLit s => .ok (.strLit s)

def walkOptExpr (ctx : ColumnCtx) : Option Expr → Except SqlErrorCode (Option Expr)
  | none => .ok none
  | some e =>
    match walkExpr ctx e with
    | .error er => .error er
    | .ok e' => .ok (some e')

def walkSelectColumn (ctx : ColumnCtx) (c : SelectColumn) :
    Except SqlErrorCode SelectColumn :=
  match walkExpr ctx c.expr with
  | .error e => .error e
  | .ok e' => .ok { c with expr := e' }

def walkFromItem (ctx : ColumnCtx) (f : FromItem) :
    Except SqlErrorCode FromItem :=
  match walkOptExpr ctx f.onCond with
  | .error e => .error e
  | .ok on' => .ok { f with onCond := on' }

/-- Source `validateColumns`: build the closure context, then walk the whole
statement, rejecting `var` nodes and canonicalizing `column_ref` nodes. The
`walk` helper visits the record fields in their construction order. -/
def walkFromClause (ctx : ColumnCtx) :
    Option (List FromItem) → Except SqlErrorCode (Option (List FromItem))
  | none => .ok none
  | some items =>
    match mapMExcept (walkFromItem ctx) items with
    | .error e => .error e
    | .ok items' => .ok (some items')

def validateColumns (ast : SelectAst) (referencedTables : List ReferencedTable) :
    Except SqlErrorCode SelectAst :=
  let ctx := buildColumnCtx ast referencedTables
  match mapMExcept (walkSelectColumn ctx) ast.columns with
  | .error e => .error e
  | .ok columns =>
    match walkFromClause ctx ast.fromItems with
    | .error e => .error e
    | .ok fromItems =>
      match walkOptExpr ctx ast.whereCond with
      | .error e => .error e
      | .ok whereCond =>
        match mapMExcept (walkExpr ctx) ast.groupBy with
        | .error e => .error e
        | .ok groupBy =>
          match walkOptExpr ctx ast.having with
          | .error e => .error e
          | .ok having =>
            match mapMExcept (walkExpr ctx) ast.orderBy with
            | .error e => .error e
            | .ok orderBy =>
              .ok { ast with
                columns := columns
                fromItems := fromItems
                whereCond := whereCond
                groupBy := groupBy
                having := having
                orderBy := orderBy }

/-! ## tenant-enforce.ts -/

/-- Source `TenantTarget`. -/
structure TenantTarget where
  aliasName : String
  columnName : String
  joinType : Option String
  deriving DecidableEq, Repr

/-- Source `columnRef` builder in `tenant-enforce.ts`. -/
def tenantColumnRef (tableAlias : String) (columnName : String) : Expr :=
  .columnRef (some tableAlias) (.wrapped "default" (toAstIdentifier columnName))

/-- Source `orgParamExpression`. -/
def orgParamExpression (paramIndex : Int) : Expr := .varParam "$" paramIndex

def eqExpr (l r : Expr) : Expr := .binary "=" l r

def andExpr (l r : Expr) : Expr := .binary "AND" l r

/-- Source `resolveAlias` in `tenant-enforce.ts`. -/
def resolveAliasF (fromNode : FromItem) : Option String :=
  match fromNode.asName with
  | some a => if (trimString a).length > 0 then some a else fromNode.table
  | none => fromNode.table

/-- Loop of `applyTenantFilter` that builds `fromByAlias`, walking the
`from` nodes in order and carrying the running node index. -/
def buildFromByAliasFrom (items : List FromItem) (idx : Nat)
    (acc : List (String × Nat)) : List (String × Nat) :=
  match items with
  | [] => acc
  | f :: rest =>
    buildFromByAliasFrom rest (idx + 1)
      (match resolveAliasF f with
       | some a => mapSet acc (normalize a) idx
       | none => acc)

/-- The `fromByAlias` map, storing the index of the `from` node each
normalized alias refers to (later duplicates overwrite, as `Map.set` does). -/
def buildFromByAlias (items : List FromItem) : List (String × Nat) :=
  buildFromByAliasFrom items 0 []

/-- Source `attachToJoinOn`, applied to the `from` node at one index. -/
def attachToJoinOnAt (items : List FromItem) (i : Nat) (condition : Expr) :
    List FromItem :=
  match items.get? i with
  | none => items
  | some f =>
    items.set i
      { f with
        onCond :=
          match f.onCond with
          | some existing => some (andExpr existing condition)
          | none => some condition }

/-- Source target dedup: `new Map(targets.map(t => [t.alias.toLowerCase(), t])).values()`. -/
def dedupeTargets (targets : List TenantTarget) : List TenantTarget :=
  mapValues (targets.foldl (fun m t => mapSet m (lowerString t.aliasName) t) [])

/-- One iteration of the `for (const target of dedupedTargets)` loop, carrying
the current `from` list and the accumulated `whereConditions`. -/
def tenantStep (byAlias : List (String × Nat)) (paramIndex : Int)
    (acc : List FromItem × List Expr) (target : TenantTarget) :
    List FromItem × List Expr :=
  let condition := eqExpr (tenantColumnRef target.aliasName target.columnName)
    (orgParamExpression paramIndex)
  match target.joinType with
  | some _ =>
    match mapGet byAlias (normalize target.aliasName) with
    | some i => (attachToJoinOnAt acc.1 i condition, acc.2)
    | none => (acc.1, acc.2 ++ [condition])
  | none => (acc.1, acc.2 ++ [condition])

/-- Source `applyTenantFilter` (the JS function mutates the AST and returns a
boolean the caller ignores; here the updated AST is returned). -/
def applyTenantFilter (ast : SelectAst) (tenantTargets : List TenantTarget)
    (paramIndex : Int) : SelectAst :=
  if tenantTargets.isEmpty then ast
  else
    let fromNodes := ast.fromItems.getD []
    let byAlias := buildFromByAlias fromNodes
    let deduped := dedupeTargets tenantTargets
    let (fromNodes', whereConditions) :=
      deduped.foldl (tenantStep byAlias paramIndex) (fromNodes, [])
    let ast' :=
      { ast with
        fromItems :=
          match ast.fromItems with
          | some _ => some fromNodes'
          | none => none }
    match whereConditions with
    | [] => ast'
    | c :: cs =>
      let combined := cs.foldl andExpr c
      { ast' with
        whereCond :=
          match ast'.whereCond with
          | some existing => some (andExpr existing combined)
          | none => some combined }

/-! ## paginate.ts -/

structure PaginationRewriteResult where
  displayLimit : Int
  fetchLimit : Int
  deriving DecidableEq, Repr

/-- The model-limit extraction block of `applyPagination` (`paginate.ts`
lines 35-46): a present first `limit` value must be a positive numeric
literal. -/
def readModelLimit : Option LimitNode → Except SqlErrorCode (Option Int)
  | some ln =>
    match ln.value.head? with
    | some entry =>
      if entry.typ ≠ "number" then .error .SQL_LIMIT_NOT_NUMERIC
      else if entry.value ≤ 0 then .error .SQL_LIMIT_INVALID
      else .ok (some entry.value)
    | none => .ok none
  | none => .ok none

/-- Source `applyPagination` (mutates `ast.limit`; returned here). -/
def applyPagination (ast : SelectAst) (page pageSize hardCap : Int) :
    Except SqlErrorCode (PaginationRewriteResult × SelectAst) :=
  let limitNode := ast.limit
  if (match limitNode with
      | some ln => ln.seperator == "offset" && ln.value.length > 1
      | none => false) then
    .error .SQL_OFFSET_NOT_ALLOWED
  else
    match readModelLimit limitNode with
    | .error e => .error e
    | .ok modelLimit =>
      let displayLimit := min (min (modelLimit.getD pageSize) pageSize) hardCap
      if displayLimit ≤ 0 then .error .SQL_LIMIT_INVALID
      else
        let offset := (page - 1) * displayLimit
        let fetchLimit := displayLimit + 1
        .ok ({ displayLimit := displayLimit, fetchLimit := fetchLimit },
          { ast with
            limit := some
              { seperator := "offset"
                value := [{ typ := "number", value := fetchLimit },
                          { typ := "number", value := offset }] } })

/-! ## Pipeline (validate.ts `validateAndRewriteSql`) -/

/-- Output of the AST-level stages of `validateAndRewriteSql`, before the
serializer runs; `ast` is the rewritten statement handed to `parser.sqlify`. -/
structure CoreOutput where
  ast : SelectAst
  params : List String
  displayLimit : Int
  fetchLimit : Int
  referencedTables : List String
  deriving DecidableEq, Repr

/-- Source `toReferencedTableNames`. -/
def toReferencedTableNames (tables : List ReferencedTable) : List String :=
  dedupeStrings (tables.map (fun t => t.meta.schemaName ++ "." ++ t.meta.name))

/-- The tenant-target list built in `validateAndRewriteSql` (lines 313-319). -/
def tenantTargetsOf (referencedTables : List ReferencedTable) : List TenantTarget :=
  (referencedTables.filter (fun t => t.meta.hasOrganizationId)).map
    (fun t =>
      { aliasName := t.aliasName
        columnName := (canonicalColumnName t.meta "organizationid").getD "organizationId"
        joinType := t.joinType })

/-- AST-level stages of `validateAndRewriteSql`: reference resolution, column
validation, tenant filtering, pagination. -/
def validateAndRewriteAst (ast : SelectAst) (snapshot : SchemaSnapshot)
    (orgId : String) (page pageSize hardCap : Int) :
    Except SqlErrorCode CoreOutput :=
  match resolveReferencedTables ast snapshot with
  | .error e => .error e
  | .ok referencedTables =>
    match validateColumns ast referencedTables with
    | .error e => .error e
    | .ok ast2 =>
      let tenantTargets := tenantTargetsOf referencedTables
      let (ast3, params) :=
        if tenantTargets.length > 0 then
          (applyTenantFilter ast2 tenantTargets 1, [orgId])
        else (ast2, [])
      match applyPagination ast3 page pageSize hardCap with
      | .error e => .error e
      | .ok (pagination, ast4) =>
        .ok
          { ast := ast4
            params := params
            displayLimit := pagination.displayLimit
            fetchLimit := pagination.fetchLimit
            referencedTables := toReferencedTableNames referencedTables }

/-- Source `parseSelectAst`, over the abstract external parser `astify`
(`none` models a parser exception). -/
def parseSelectAst (astify : String → Option RawAst) (sql : String) :
    Except SqlErrorCode SelectAst :=
  match astify sql with
  | none => .error .SQL_PARSE_ERROR
  | some .multi => .error .SQL_MULTI_STATEMENT
  | some .nonSelect => .error .SQL_NOT_SELECT
  | some (.one selectAst) =>
    if selectAst.withCte then .error .SQL_CTE_NOT_SUPPORTED
    else if selectAst.intoPosition then .error .SQL_SELECT_INTO_NOT_ALLOWED
    else .ok selectAst

/-- Source `RewriteOutput`. -/
structure RewriteOutput where
  sql : String
  params : List String
  displayLimit : Int
  fetchLimit : Int
  referencedTables : List String
  deriving DecidableEq, Repr

/-- Source `RewriteInput` (the snapshot is passed separately below). -/
structure RewriteInput where
  sql : String
  orgId : String
  page : Int
  pageSize : Int
  hardCap : Int
  deriving DecidableEq, Repr

/-- Source `validateAndRewriteSql`, parameterized by the external parser pair
(`parser.astify`, `parser.sqlify`). -/
def validateAndRewriteSql (astify : String → Option RawAst)
    (sqlify : SelectAst → String) (input : RewriteInput)
    (snapshot : SchemaSnapshot) : Except SqlErrorCode RewriteOutput :=
  let rawSql := trimString input.sql
  match checkReadOnlySqlTokens rawSql with
  | .error e => .error e
  | .ok _ =>
    match parseSelectAst astify rawSql with
    | .error e => .error e
    | .ok ast =>
      match validateAndRewriteAst ast snapshot input.orgId input.page
        input.pageSize input.hardCap with
      | .error e => .error e
      | .ok out =>
        let rewrittenSql := sqlify out.ast
        match checkReadOnlySqlTokens rewrittenSql with
        | .error e => .error e
        | .ok _ =>
          .ok
            { sql := rewrittenSql
              params := out.params
              displayLimit := out.displayLimit
              fetchLimit := out.fetchLimit
              referencedTables := out.referencedTables }

/-! ## Derived notions used by the statements -/

/-- Split an expression into its `AND`-conjuncts, as the injector's `and`
builder nests them. -/
def conjuncts : Expr → List Expr
  | .binary op l r =>
    if op = "AND" then conjuncts l ++ conjuncts r else [.binary op l r]
  | e => [e]

def optConjuncts : Option Expr → List Expr
  | none => []
  | some e => conjuncts e

/-- The injected tenant predicate `alias.column = $n` for one target, exactly
as `applyTenantFilter` builds it. -/
def tenantPredicate (target : TenantTarget) (paramIndex : Int) : Expr :=
  eqExpr (tenantColumnRef target.aliasName target.columnName)
    (orgParamExpression paramIndex)

/-! ## Concrete fixtures (the schema of spec section 8 plus a tenant-less table) -/

def fixtureTableRows : List TableRow :=
  [⟨"public", "users", "BASE TABLE"⟩, ⟨"public", "payments", "BASE TABLE"⟩,
   ⟨"public", "items", "BASE TABLE"⟩]

def fixtureColumnRows : List ColumnRow :=
  [⟨"public", "users", "id"⟩, ⟨"public", "users", "name"⟩,
   ⟨"public", "users", "organizationId"⟩, ⟨"public", "users", "password"⟩,
   ⟨"public", "payments", "id"⟩, ⟨"public", "payments", "userId"⟩,
   ⟨"public", "payments", "amount"⟩, ⟨"public", "payments", "organizationId"⟩,
   ⟨"public", "items", "id"⟩, ⟨"public", "items", "label"⟩]

def snap0 : SchemaSnapshot :=
  buildSnapshot fixtureTableRows fixtureColumnRows "2024-01-01T00:00:00Z"

/-- Shorthand for an unrewritten column reference node. -/
def colRef (t : Option String) (c : String) : Expr := .columnRef t (.plain c)

/-- AST of `SELECT u.id, u.name FROM users u ORDER BY u.id`. -/
def astUsers : SelectAst :=
  { withCte := false, intoPosition := false
    columns := [⟨colRef (some "u") "id", none⟩, ⟨colRef (some "u") "name", none⟩]
    fromItems := some [⟨false, some "users", none, none, some "u", none⟩]
    whereCond := none, groupBy := [], having := none
    orderBy := [colRef (some "u") "id"], limit := none }

/-- AST of `SELECT u.id, p.amount FROM users u INNER JOIN payments p ON p.userId = u.id`. -/
def astJoinInner : SelectAst :=
  { withCte := false, intoPosition := false
    columns := [⟨colRef (some "u") "id", none⟩, ⟨colRef (some "p") "amount", none⟩]
    fromItems := some
      [⟨false, some "users", none, none, some "u", none⟩,
       ⟨false, some "payments", none, some "INNER JOIN", some "p",
        some (eqExpr (colRef (some "p") "userId") (colRef (some "u") "id"))⟩]
    whereCond := none, groupBy := [], having := none, orderBy := [], limit := none }

/-- AST of `SELECT u.id, p.amount FROM users u LEFT JOIN payments p ON p.userId = u.id`. -/
def astJoinLeft : SelectAst :=
  { astJoinInner with
    fromItems := some
      [⟨false, some "users", none, none, some "u", none⟩,
       ⟨false, some "payments", none, some "LEFT JOIN", some "p",
        some (eqExpr (colRef (some "p") "userId") (colRef (some "u") "id"))⟩] }

/-- AST of `SELECT id FROM items` (a table with no tenant key). -/
def astItems : SelectAst :=
  { withCte := false, intoPosition := false
    columns := [⟨colRef none "id", none⟩]
    fromItems := some [⟨false, some "items", none, none, none, none⟩]
    whereCond := none, groupBy := [], having := none, orderBy := [], limit := none }

/-- AST of `SELECT 1` (no `FROM` clause). -/
def astSelectOne : SelectAst :=
  { withCte := false, intoPosition := false
    columns := [⟨.numLit 1, none⟩]
    fromItems := none
    whereCond := none, groupBy := [], having := none, orderBy := [], limit := none }

/-! ## C5: pagination arithmetic and LIMIT overwrite -/

/-- C5. For every candidate whose `LIMIT` clause carries no offset component
and whose model-supplied limit (when present) is a positive numeric literal:
`displayLimit = min(modelLimit ?? pageSize, pageSize, hardCap)`,
`fetchLimit = displayLimit + 1`, `offset = (page - 1) * displayLimit`, and the
AST's `LIMIT` clause is overwritten with `LIMIT fetchLimit OFFSET offset`;
when the computed `displayLimit` is not positive, `applyPagination` rejects
with `SQL_LIMIT_INVALID`. -/
theorem C5_pagination_arithmetic (ast : SelectAst) (page pageSize hardCap : Int)
    (hoff : ∀ ln, ast.limit = some ln →
      ¬(ln.seperator = "offset" ∧ 1 < ln.value.length))
    (hnum : ∀ ln e, ast.limit = some ln → ln.value.head? = some e →
      e.typ = "number" ∧ 0 < e.value) :
    applyPagination ast page pageSize hardCap =
      (let modelLimit : Option Int :=
        ast.limit.bind (fun ln => ln.value.head?.map (fun e => e.value));
       let displayLimit := min (min (modelLimit.getD pageSize) pageSize) hardCap;
       if 0 < displayLimit then
         .ok (⟨displayLimit, displayLimit + 1⟩,
           { ast with limit := some ⟨"offset",
               [⟨"number", displayLimit + 1⟩,
                ⟨"number", (page - 1) * displayLimit⟩]⟩ })
       else .error .SQL_LIMIT_INVALID) := by
  cases hl : ast.limit with
  | none =>
    simp only [applyPagination, readModelLimit, hl, Option.none_bind,
      Option.getD_none]
    rw [if_neg Bool.false_ne_true]
    by_cases hpos : 0 < min (min pageSize pageSize) hardCap
    · rw [if_neg (not_le.mpr hpos), if_pos hpos]
    · rw [if_pos (not_lt.mp hpos), if_neg hpos]
  | some ln =>
    have hoff' := hoff ln hl
    have hcond : (ln.seperator == "offset" && decide (1 < ln.value.length)) = false := by
      by_cases hsep : ln.seperator = "offset"
      · by_cases hlen : 1 < ln.value.length
        · exact absurd ⟨hsep, hlen⟩ hoff'
        · simp [hlen]
      · simp [hsep]
    cases hv : ln.value with
    | nil =>
      simp only [applyPagination, readModelLimit, hl, hv, List.length_nil,
        List.head?_nil, Option.some_bind, Option.map_none', Option.getD_none]
      rw [if_neg (by simp : ¬((ln.seperator == "offset" && decide (1 < (0 : Nat))) = true))]
      by_cases hpos : 0 < min (min pageSize pageSize) hardCap
      · rw [if_neg (not_le.mpr hpos), if_pos hpos]
      · rw [if_pos (not_lt.mp hpos), if_neg hpos]
    | cons e rest =>
      have he := hnum ln e hl (by rw [hv]; rfl)
      rw [hv] at hcond
      simp only [applyPagination, readModelLimit, hl, hv, List.head?_cons,
        Option.some_bind, Option.map_some', Option.getD_some]
      rw [if_neg (by simp only [hcond]; exact Bool.false_ne_true)]
      rw [if_neg (by simp [he.1]), if_neg (not_le.mpr he.2)]
      simp only [Option.getD_some]
      by_cases hpos : 0 < min (min e.value pageSize) hardCap
      · rw [if_neg (not_le.mpr hpos), if_pos hpos]
      · rw [if_pos (not_lt.mp hpos), if_neg hpos]

/-- AST of `SELECT u.id, u.name FROM users u ORDER BY u.id LIMIT 1`. -/
def astUsersLimit1 : SelectAst :=
  { astUsers with limit := some ⟨"", [⟨"number", 1⟩]⟩ }

/-- Witness for C5: the spec's boundary scenario (model `LIMIT 1`,
`pageSize = 100`) yields `displayLimit = 1`, `fetchLimit = 2`, `OFFSET 0`. -/
theorem C5_pagination_arithmetic_witness :
    applyPagination astUsersLimit1 1 100 100 =
      .ok (⟨1, 2⟩, { astUsersLimit1 with
        limit := some ⟨"offset", [⟨"number", 2⟩, ⟨"number", 0⟩]⟩ }) :=
  (C5_pagination_arithmetic astUsersLimit1 1 100 100
    (by
      intro ln hln
      have h : (⟨"", [⟨"number", (1 : Int)⟩]⟩ : LimitNode) = ln := by
        injection hln
      subst h
      decide)
    (by
      intro ln e hln he
      have h : (⟨"", [⟨"number", (1 : Int)⟩]⟩ : LimitNode) = ln := by
        injection hln
      subst h
      have h2 : (⟨"number", (1 : Int)⟩ : LimitEntry) = e := by
        injection he
      subst h2
      decide)).trans (by decide)

/-! ## C2: the tenant parameter is appended exactly once, or not at all -/

theorem tenantTargetsOf_length_pos (refs : List ReferencedTable) :
    0 < (tenantTargetsOf refs).length ↔
      refs.any (fun t => t.meta.hasOrganizationId) = true := by
  simp [tenantTargetsOf, List.length_pos, List.filter_eq_nil_iff, List.any_eq_true]

theorem core_params_eq (ast : SelectAst) (snapshot : SchemaSnapshot)
    (orgId : String) (page pageSize hardCap : Int) (refs : List ReferencedTable)
    (out : CoreOutput)
    (href : resolveReferencedTables ast snapshot = .ok refs)
    (hok : validateAndRewriteAst ast snapshot orgId page pageSize hardCap = .ok out) :
    out.params =
      (if refs.any (fun t => t.meta.hasOrganizationId) then [orgId] else []) := by
  unfold validateAndRewriteAst at hok
  rw [href] at hok
  dsimp only at hok
  cases hvc : validateColumns ast refs with
  | error e => rw [hvc] at hok; cases hok
  | ok ast2 =>
    rw [hvc] at hok
    dsimp only at hok
    by_cases ht : 0 < (tenantTargetsOf refs).length
    · rw [if_pos ((tenantTargetsOf_length_pos refs).mp ht)]
      rw [if_pos ht] at hok
      dsimp only at hok
      cases hp : applyPagination (applyTenantFilter ast2 (tenantTargetsOf refs) 1)
          page pageSize hardCap with
      | error e => rw [hp] at hok; cases hok
      | ok pr =>
        rw [hp] at hok
        dsimp only at hok
        cases hok
        rfl
    · rw [if_neg (fun h => ht ((tenantTargetsOf_length_pos refs).mpr h))]
      rw [if_neg ht] at hok
      dsimp only at hok
      cases hp : applyPagination ast2 page pageSize hardCap with
      | error e => rw [hp] at hok; cases hok
      | ok pr =>
        rw [hp] at hok
        dsimp only at hok
        cases hok
        rfl

/-- The `users` table as built from the fixture rows. -/
def usersTable : SchemaTable :=
  buildSchemaTable (buildColumnsByTable fixtureColumnRows)
    ⟨"public", "users", "BASE TABLE"⟩

/-- C2. For every accepted candidate, the output parameter list is exactly
`[orgId]` when some referenced table carries the tenant key (no matter how
many targets received a predicate), and `[]` when none does. -/
theorem C2_params_exactly_once (ast : SelectAst) (snapshot : SchemaSnapshot)
    (orgId : String) (page pageSize hardCap : Int) (refs : List ReferencedTable)
    (out : CoreOutput)
    (href : resolveReferencedTables ast snapshot = .ok refs)
    (hok : validateAndRewriteAst ast snapshot orgId page pageSize hardCap = .ok out) :
    out.params =
      (if refs.any (fun t => t.meta.hasOrganizationId) then [orgId] else []) :=
  core_params_eq ast snapshot orgId page pageSize hardCap refs out href hok

/-- Witness for C2 at a tenant-bearing query (`SELECT u.id, u.name FROM users u`). -/
theorem C2_params_exactly_once_witness :
    (validateAndRewriteAst astUsers snap0 "org_1" 1 2 100).map
      (fun o => o.params) = .ok ["org_1"] := by
  cases hok : validateAndRewriteAst astUsers snap0 "org_1" 1 2 100 with
  | error e =>
    have hne : exceptIsOk (validateAndRewriteAst astUsers snap0 "org_1" 1 2 100) = true := by
      decide
    rw [hok] at hne
    cases hne
  | ok out =>
    have h := C2_params_exactly_once astUsers snap0 "org_1" 1 2 100
      [⟨"u", usersTable, none⟩] out (by decide) hok
    show Except.ok out.params = .ok ["org_1"]
    have h2 : (if ([⟨"u", usersTable, none⟩] : List ReferencedTable).any
        (fun t => t.meta.hasOrganizationId) then ["org_1"]
        else ([] : List String)) = ["org_1"] := by decide
    rw [h, h2]

/-! ## C3: the emitted SQL passes the lexical guard -/

theorem checkReadOnlySqlTokens_ok_facts (s : String)
    (h : checkReadOnlySqlTokens s = .ok ()) :
    s.data.contains ';' = false ∧ containsSubstr s "--" = false ∧
    containsSubstr s "/*" = false ∧ hasDisallowedKeyword s = false := by
  unfold checkReadOnlySqlTokens at h
  split_ifs at h with h1 h2 h3 h4 h5
  rw [Bool.not_eq_true] at h1 h3
  rw [Bool.or_eq_true, not_or, Bool.not_eq_true, Bool.not_eq_true] at h2
  exact ⟨h1, h2.1, h2.2, h3⟩

/-- C3. For every accepted candidate, the emitted rewritten SQL string
contains no `;`, no `--`, no `/*`, and no disallowed keyword of the guard's
set, because `assertReadOnlySqlTokens` is re-applied to the serializer's
output before the result is returned. -/
theorem C3_output_passes_guard (astify : String → Option RawAst)
    (sqlify : SelectAst → String) (input : RewriteInput)
    (snapshot : SchemaSnapshot) (out : RewriteOutput)
    (hok : validateAndRewriteSql astify sqlify input snapshot = .ok out) :
    out.sql.data.contains ';' = false ∧ containsSubstr out.sql "--" = false ∧
    containsSubstr out.sql "/*" = false ∧ hasDisallowedKeyword out.sql = false := by
  unfold validateAndRewriteSql at hok
  dsimp only at hok
  cases h1 : checkReadOnlySqlTokens (trimString input.sql) with
  | error e => rw [h1] at hok; cases hok
  | ok u1 =>
    rw [h1] at hok
    dsimp only at hok
    cases h2 : parseSelectAst astify (trimString input.sql) with
    | error e => rw [h2] at hok; cases hok
    | ok ast =>
      rw [h2] at hok
      dsimp only at hok
      cases h3 : validateAndRewriteAst ast snapshot input.orgId input.page
          input.pageSize input.hardCap with
      | error e => rw [h3] at hok; cases hok
      | ok core =>
        rw [h3] at hok
        dsimp only at hok
        cases h4 : checkReadOnlySqlTokens (sqlify core.ast) with
        | error e => rw [h4] at hok; cases hok
        | ok u4 =>
          rw [h4] at hok
          dsimp only at hok
          cases hok
          exact checkReadOnlySqlTokens_ok_facts _ (by cases u4; exact h4)

/-! Concrete parser pair: `demoAstify`/`demoSqlify` model `node-sql-parser`
on the single query of the spec's first end-to-end scenario. -/

def demoInputSql : String := "SELECT u.id, u.name FROM users u ORDER BY u.id"

def demoOutputSql : String :=
  "SELECT \"u\".\"id\", \"u\".\"name\" FROM \"users\" AS \"u\" WHERE \"u\".\"organizationId\" = $1 ORDER BY \"u\".\"id\" ASC LIMIT 3 OFFSET 0"

/-- The rewritten AST the pipeline produces for `demoInputSql`. -/
def astUsersRewritten : SelectAst :=
  match validateAndRewriteAst astUsers snap0 "org_1" 1 2 100 with
  | .ok o => o.ast
  | .error _ => astUsers

def demoAstify : String → Option RawAst := fun s =>
  if s = demoInputSql then some (.one astUsers)
  else if s = demoOutputSql then some (.one astUsersRewritten)
  else none

def demoSqlify : SelectAst → String := fun a =>
  if a = astUsers then demoInputSql else demoOutputSql

def demoInput : RewriteInput :=
  { sql := demoInputSql, orgId := "org_1", page := 1, pageSize := 2, hardCap := 100 }

def demoOut : RewriteOutput :=
  { sql := demoOutputSql, params := ["org_1"], displayLimit := 2, fetchLimit := 3
    referencedTables := ["public.users"] }

/-- Witness for C3: the first end-to-end scenario is accepted and its output
satisfies the guard facts. -/
theorem C3_output_passes_guard_witness :
    validateAndRewriteSql demoAstify demoSqlify demoInput snap0 = .ok demoOut ∧
    (demoOut.sql.data.contains ';' = false ∧
     containsSubstr demoOut.sql "--" = false ∧
     containsSubstr demoOut.sql "/*" = false ∧
     hasDisallowedKeyword demoOut.sql = false) :=
  ⟨by decide,
   C3_output_passes_guard demoAstify demoSqlify demoInput snap0 demoOut (by decide)⟩

/-! ## C10: a SELECT without FROM is accepted -/

/-- C10. A candidate whose parsed `SELECT` has no `FROM` clause is handled
with an empty referenced-table list: whenever such a statement is accepted,
no tenant parameter and no referenced table is reported and pagination
rewriting is still applied; and the concrete `SELECT 1` is accepted with
empty parameter and table lists and a rewritten `LIMIT`/`OFFSET` clause. -/
theorem C10_no_from_clause :
    (∀ (ast : SelectAst) (snapshot : SchemaSnapshot) (orgId : String)
       (page pageSize hardCap : Int) (out : CoreOutput),
      ast.fromItems = none →
      validateAndRewriteAst ast snapshot orgId page pageSize hardCap = .ok out →
      out.params = [] ∧ out.referencedTables = [] ∧
      ∃ ast2, validateColumns ast [] = .ok ast2 ∧
        applyPagination ast2 page pageSize hardCap =
          .ok (⟨out.displayLimit, out.fetchLimit⟩, out.ast)) ∧
    validateAndRewriteAst astSelectOne snap0 "org_1" 1 25 100 =
      .ok { ast := { astSelectOne with
              limit := some ⟨"offset", [⟨"number", 26⟩, ⟨"number", 0⟩]⟩ }
            params := [], displayLimit := 25, fetchLimit := 26,
            referencedTables := [] } := by
  constructor
  · intro ast snapshot orgId page pageSize hardCap out hfrom hok
    unfold validateAndRewriteAst at hok
    rw [show resolveReferencedTables ast snapshot = .ok [] by
      unfold resolveReferencedTables; rw [hfrom]] at hok
    dsimp only at hok
    cases hvc : validateColumns ast [] with
    | error e => rw [hvc] at hok; cases hok
    | ok ast2 =>
      rw [hvc] at hok
      dsimp only [tenantTargetsOf, List.filter_nil, List.map_nil,
        List.length_nil] at hok
      rw [if_neg (by omega)] at hok
      dsimp only at hok
      cases hp : applyPagination ast2 page pageSize hardCap with
      | error e => rw [hp] at hok; cases hok
      | ok pr =>
        rw [hp] at hok
        dsimp only at hok
        cases hok
        exact ⟨rfl, rfl, ast2, rfl, by rw [hp]⟩
  · decide

/-- Witness for C10: `SELECT 1` is accepted, reports no parameter and no
referenced table. -/
theorem C10_no_from_clause_witness :
    astSelectOne.fromItems = none ∧
    (validateAndRewriteAst astSelectOne snap0 "org_1" 1 25 100).map
      (fun o => (o.params, o.referencedTables)) = .ok ([], []) := by
  refine ⟨rfl, ?_⟩
  have h := C10_no_from_clause.1 astSelectOne snap0 "org_1" 1 25 100 _ rfl
    C10_no_from_clause.2
  rw [C10_no_from_clause.2]
  exact congrArg Except.ok (Prod.ext h.1 h.2.1)

/-! ## C8: table resolution -/

/-- C8. `resolveTable`: with a schema, the lower-cased composite key
`schema.table` is looked up exactly; without one, a unique bare-name match is
returned, several matches prefer the `public` schema, and with no `public`
match among several the lookup returns nothing. -/
theorem C8_resolveTable_spec (snapshot : SchemaSnapshot) (name : String) :
    (∀ sn, resolveTable snapshot name (some sn) =
      mapGet snapshot.byKey (normalize sn ++ "." ++ normalize name)) ∧
    ((mapGet snapshot.byName (normalize name)).getD [] = [] →
      resolveTable snapshot name none = none) ∧
    (∀ t, (mapGet snapshot.byName (normalize name)).getD [] = [t] →
      resolveTable snapshot name none = some t) ∧
    (2 ≤ ((mapGet snapshot.byName (normalize name)).getD []).length →
      ((∃ c ∈ (mapGet snapshot.byName (normalize name)).getD [],
          normalize c.schemaName = "public") →
        ∃ c, resolveTable snapshot name none = some c ∧
          c ∈ (mapGet snapshot.byName (normalize name)).getD [] ∧
          normalize c.schemaName = "public") ∧
      ((∀ c ∈ (mapGet snapshot.byName (normalize name)).getD [],
          normalize c.schemaName ≠ "public") →
        resolveTable snapshot name none = none)) := by
  have hbase : resolveTable snapshot name none =
      (match (mapGet snapshot.byName (normalize name)).getD [] with
       | [] => none
       | [t] => some t
       | _ :: _ :: _ =>
         ((mapGet snapshot.byName (normalize name)).getD []).find?
           (fun c => normalize c.schemaName = "public")) := by
    unfold resolveTable
    rfl
  refine ⟨fun sn => rfl, ?_, ?_, ?_⟩
  · intro hnil
    rw [hbase, hnil]
  · intro t hone
    rw [hbase, hone]
  · intro hlen
    constructor
    · intro ⟨c, hmem, hpub⟩
      have hsome : (((mapGet snapshot.byName (normalize name)).getD []).find?
          (fun c => normalize c.schemaName = "public")).isSome := by
        rw [List.find?_isSome]
        exact ⟨c, hmem, by simpa using hpub⟩
      cases hfind : ((mapGet snapshot.byName (normalize name)).getD []).find?
          (fun c => normalize c.schemaName = "public") with
      | none => rw [hfind] at hsome; cases hsome
      | some c' =>
        refine ⟨c', ?_, List.mem_of_find?_eq_some hfind, ?_⟩
        · rw [hbase]
          cases hc : (mapGet snapshot.byName (normalize name)).getD [] with
          | nil => rw [hc] at hlen; simp at hlen
          | cons a rest =>
            cases rest with
            | nil => rw [hc] at hlen; simp at hlen
            | cons b rest' =>
              rw [hc] at hfind
              exact hfind
        · simpa using List.find?_some hfind
    · intro hnone
      rw [hbase]
      cases hc : (mapGet snapshot.byName (normalize name)).getD [] with
      | nil => rfl
      | cons a rest =>
        cases rest with
        | nil => rw [hc] at hlen; simp at hlen
        | cons b rest' =>
          show List.find? (fun c => decide (normalize c.schemaName = "public"))
            (a :: b :: rest') = none
          rw [List.find?_eq_none]
          intro x hx
          have := hnone x (by rw [hc]; exact hx)
          simpa using this

/-- Ambiguous fixture: two schemas both declare a `users` table. -/
def snapAmbig : SchemaSnapshot :=
  buildSnapshot
    [⟨"aux", "users", "BASE TABLE"⟩, ⟨"public", "users", "BASE TABLE"⟩]
    [⟨"aux", "users", "id"⟩, ⟨"public", "users", "id"⟩]
    "2024-01-01T00:00:00Z"

/-- Witness for C8: on the ambiguous snapshot the bare lookup prefers the
table whose schema is `public`. -/
theorem C8_resolveTable_spec_witness :
    ∃ c, resolveTable snapAmbig "users" none = some c ∧
      c ∈ (mapGet snapAmbig.byName (normalize "users")).getD [] ∧
      normalize c.schemaName = "public" :=
  ((C8_resolveTable_spec snapAmbig "users").2.2.2 (by decide)).1 (by decide)

/-! ## C9: sensitive columns are rejected before alias resolution -/

/-- An expression contains a column reference whose lower-cased unqualified
name matches the sensitive pattern. -/
def exprHasSensitive : Expr → Bool
  | .columnRef _ col => sensitiveMatch (normalize (extractColumnName col))
  | .binary _ l r => exprHasSensitive l || exprHasSensitive r
  | _ => false

def optExprHasSensitive : Option Expr → Bool
  | none => false
  | some e => exprHasSensitive e

/-- The statement contains a sensitive column reference somewhere the walk
visits. -/
def astHasSensitiveColumn (ast : SelectAst) : Bool :=
  ast.columns.any (fun c => exprHasSensitive c.expr) ||
  (ast.fromItems.getD []).any (fun f => optExprHasSensitive f.onCond) ||
  optExprHasSensitive ast.whereCond ||
  ast.groupBy.any exprHasSensitive ||
  optExprHasSensitive ast.having ||
  ast.orderBy.any exprHasSensitive

theorem checkColumnRef_sensitive (ctx : ColumnCtx) (tableField : Option String)
    (col : ColField)
    (hsens : sensitiveMatch (normalize (extractColumnName col)) = true) :
    checkColumnRef ctx tableField col = .error .SQL_SENSITIVE_COLUMN := by
  unfold checkColumnRef
  by_cases hstar : extractColumnName col = "*"
  · rw [hstar] at hsens
    exact absurd hsens (by decide)
  · rw [if_neg hstar, if_pos hsens]

theorem walkExpr_ok_no_sensitive (ctx : ColumnCtx) (e e' : Expr)
    (h : walkExpr ctx e = .ok e') : exprHasSensitive e = false := by
  induction e generalizing e' with
  | columnRef table col =>
    by_cases hs : sensitiveMatch (normalize (extractColumnName col)) = true
    · rw [walkExpr, checkColumnRef_sensitive ctx table col hs] at h
      cases h
    · simpa [exprHasSensitive] using hs
  | varParam p i => rw [walkExpr] at h; cases h
  | binary op l r ihl ihr =>
    rw [walkExpr] at h
    cases hl : walkExpr ctx l with
    | error e1 => rw [hl] at h; cases h
    | ok l' =>
      rw [hl] at h
      cases hr : walkExpr ctx r with
      | error e1 => rw [hr] at h; cases h
      | ok r' =>
        simp [exprHasSensitive, ihl l' hl, ihr r' hr]
  | numLit n => rfl
  | strLit s => rfl

theorem walkOptExpr_ok_no_sensitive (ctx : ColumnCtx) (oe : Option Expr)
    (o' : Option Expr) (h : walkOptExpr ctx oe = .ok o') :
    optExprHasSensitive oe = false := by
  cases oe with
  | none => rfl
  | some e =>
    rw [walkOptExpr] at h
    cases he : walkExpr ctx e with
    | error e1 => rw [he] at h; cases h
    | ok e' => exact walkExpr_ok_no_sensitive ctx e e' he

theorem mapMExcept_ok_forall {α β : Type} (f : α → Except SqlErrorCode β)
    (l : List α) (bs : List β) (h : mapMExcept f l = .ok bs) :
    ∀ a ∈ l, ∃ b, f a = .ok b := by
  induction l generalizing bs with
  | nil => intro a ha; cases ha
  | cons x xs ih =>
    intro a ha
    rw [mapMExcept] at h
    cases hx : f x with
    | error e => rw [hx] at h; cases h
    | ok b =>
      rw [hx] at h
      cases hxs : mapMExcept f xs with
      | error e => rw [hxs] at h; cases h
      | ok bs' =>
        rcases List.mem_cons.mp ha with rfl | ha'
        · exact ⟨b, hx⟩
        · exact ih bs' hxs a ha'

theorem walkSelectColumn_ok_expr (ctx : ColumnCtx) (c : SelectColumn)
    (c' : SelectColumn) (h : walkSelectColumn ctx c = .ok c') :
    ∃ e', walkExpr ctx c.expr = .ok e' := by
  unfold walkSelectColumn at h
  cases he : walkExpr ctx c.expr with
  | error e => rw [he] at h; cases h
  | ok e' => exact ⟨e', rfl⟩

theorem walkFromItem_ok_on (ctx : ColumnCtx) (f : FromItem) (f' : FromItem)
    (h : walkFromItem ctx f = .ok f') :
    ∃ o', walkOptExpr ctx f.onCond = .ok o' := by
  unfold walkFromItem at h
  cases ho : walkOptExpr ctx f.onCond with
  | error e => rw [ho] at h; cases h
  | ok o' => exact ⟨o', rfl⟩

theorem walkFromClause_ok_items (ctx : ColumnCtx) (oi : Option (List FromItem))
    (oi' : Option (List FromItem)) (h : walkFromClause ctx oi = .ok oi') :
    ∀ f ∈ oi.getD [], ∃ f', walkFromItem ctx f = .ok f' := by
  cases oi with
  | none => intro f hf; cases hf
  | some items =>
    rw [walkFromClause] at h
    cases hm : mapMExcept (walkFromItem ctx) items with
    | error e => rw [hm] at h; cases h
    | ok its =>
      intro f hf
      exact mapMExcept_ok_forall _ _ _ hm f hf

/-- C9. The sensitive-column check fires on the lower-cased unqualified name
of a `column_ref` node before any alias resolution or column-ownership
lookup (the per-node visitor rejects with `SQL_SENSITIVE_COLUMN` for every
context whatsoever), and a statement containing such a node is never
accepted by `validateColumns`. -/
theorem C9_sensitive_column_rejected :
    (∀ (ctx : ColumnCtx) (tableField : Option String) (col : ColField),
      sensitiveMatch (normalize (extractColumnName col)) = true →
      checkColumnRef ctx tableField col = .error .SQL_SENSITIVE_COLUMN) ∧
    (∀ (ast : SelectAst) (refs : List ReferencedTable) (out : SelectAst),
      astHasSensitiveColumn ast = true →
      validateColumns ast refs ≠ .ok out) := by
  refine ⟨checkColumnRef_sensitive, ?_⟩
  intro ast refs out hsens hok
  unfold validateColumns at hok
  dsimp only at hok
  cases h1 : mapMExcept (walkSelectColumn (buildColumnCtx ast refs)) ast.columns with
  | error e => rw [h1] at hok; cases hok
  | ok cols =>
    rw [h1] at hok
    dsimp only at hok
    cases h2 : walkFromClause (buildColumnCtx ast refs) ast.fromItems with
    | error e => rw [h2] at hok; cases hok
    | ok items' =>
      rw [h2] at hok
      dsimp only at hok
      cases h3 : walkOptExpr (buildColumnCtx ast refs) ast.whereCond with
      | error e => rw [h3] at hok; cases hok
      | ok w' =>
        rw [h3] at hok
        dsimp only at hok
        cases h4 : mapMExcept (walkExpr (buildColumnCtx ast refs)) ast.groupBy with
        | error e => rw [h4] at hok; cases hok
        | ok g' =>
          rw [h4] at hok
          dsimp only at hok
          cases h5 : walkOptExpr (buildColumnCtx ast refs) ast.having with
          | error e => rw [h5] at hok; cases hok
          | ok hv' =>
            rw [h5] at hok
            dsimp only at hok
            cases h6 : mapMExcept (walkExpr (buildColumnCtx ast refs)) ast.orderBy with
            | error e => rw [h6] at hok; cases hok
            | ok ob' =>
              unfold astHasSensitiveColumn at hsens
              rcases Bool.or_eq_true_iff.mp hsens with hs | hs6
              rcases Bool.or_eq_true_iff.mp hs with hs | hs5
              rcases Bool.or_eq_true_iff.mp hs with hs | hs4
              rcases Bool.or_eq_true_iff.mp hs with hs | hs3
              rcases Bool.or_eq_true_iff.mp hs with hs1 | hs2
              · obtain ⟨c, hc, hcs⟩ := List.any_eq_true.mp hs1
                obtain ⟨b, hb⟩ := mapMExcept_ok_forall _ _ _ h1 c hc
                obtain ⟨e', he'⟩ := walkSelectColumn_ok_expr _ _ _ hb
                rw [walkExpr_ok_no_sensitive _ _ _ he'] at hcs
                cases hcs
              · obtain ⟨f, hf, hfs⟩ := List.any_eq_true.mp hs2
                obtain ⟨f', hb⟩ := walkFromClause_ok_items _ _ _ h2 f hf
                obtain ⟨o', ho'⟩ := walkFromItem_ok_on _ _ _ hb
                rw [walkOptExpr_ok_no_sensitive _ _ _ ho'] at hfs
                cases hfs
              · rw [walkOptExpr_ok_no_sensitive _ _ _ h3] at hs3
                cases hs3
              · obtain ⟨g, hg, hgs⟩ := List.any_eq_true.mp hs4
                obtain ⟨b, hb⟩ := mapMExcept_ok_forall _ _ _ h4 g hg
                rw [walkExpr_ok_no_sensitive _ _ _ hb] at hgs
                cases hgs
              · rw [walkOptExpr_ok_no_sensitive _ _ _ h5] at hs5
                cases hs5
              · obtain ⟨g, hg, hgs⟩ := List.any_eq_true.mp hs6
                obtain ⟨b, hb⟩ := mapMExcept_ok_forall _ _ _ h6 g hg
                rw [walkExpr_ok_no_sensitive _ _ _ hb] at hgs
                cases hgs

/-- AST of `SELECT u.password FROM users u` (spec scenario 5). -/
def astPassword : SelectAst :=
  { withCte := false, intoPosition := false
    columns := [⟨colRef (some "u") "password", none⟩]
    fromItems := some [⟨false, some "users", none, none, some "u", none⟩]
    whereCond := none, groupBy := [], having := none, orderBy := [], limit := none }

/-- Witness for C9: `u.password` is rejected per node (even with a resolvable
alias), and the statement is never accepted. -/
theorem C9_sensitive_column_rejected_witness :
    checkColumnRef (buildColumnCtx astPassword [⟨"u", usersTable, none⟩])
      (some "u") (.plain "password") = .error .SQL_SENSITIVE_COLUMN ∧
    validateColumns astPassword [⟨"u", usersTable, none⟩] ≠ .ok astPassword :=
  ⟨C9_sensitive_column_rejected.1 _ _ _ (by decide),
   C9_sensitive_column_rejected.2 _ _ _ (by decide)⟩

/-! ## C6: one positional parameter — only when a tenant table is referenced -/

/-- Counterexample to C6 as stated: `SELECT id FROM items` (a table without
the tenant key) is accepted by the core, yet its parameter list is empty
rather than the single tenant identifier. -/
theorem C6_single_parameter_counterexample :
    exceptIsOk (validateAndRewriteAst astItems snap0 "org_1" 1 25 100) = true ∧
    (validateAndRewriteAst astItems snap0 "org_1" 1 25 100).map
      (fun o => o.params) = .ok [] ∧
    (validateAndRewriteAst astItems snap0 "org_1" 1 25 100).map
      (fun o => o.params) ≠ .ok ["org_1"] := by
  refine ⟨by decide, by decide, by decide⟩

/-- C6 (amended). For every candidate the full pipeline accepts, the
`RewriteOutput` carries exactly one positional parameter — the caller's
tenant identifier — when some referenced table has the tenant key, and no
parameter at all when none does. -/
theorem C6_single_parameter_amended (astify : String → Option RawAst)
    (sqlify : SelectAst → String) (input : RewriteInput)
    (snapshot : SchemaSnapshot) (out : RewriteOutput) (a : SelectAst)
    (refs : List ReferencedTable)
    (hparse : parseSelectAst astify (trimString input.sql) = .ok a)
    (href : resolveReferencedTables a snapshot = .ok refs)
    (hok : validateAndRewriteSql astify sqlify input snapshot = .ok out) :
    out.params =
      (if refs.any (fun t => t.meta.hasOrganizationId)
       then [input.orgId] else []) := by
  unfold validateAndRewriteSql at hok
  dsimp only at hok
  cases h1 : checkReadOnlySqlTokens (trimString input.sql) with
  | error e => rw [h1] at hok; cases hok
  | ok u1 =>
    rw [h1] at hok
    dsimp only at hok
    rw [hparse] at hok
    dsimp only at hok
    cases h3 : validateAndRewriteAst a snapshot input.orgId input.page
        input.pageSize input.hardCap with
    | error e => rw [h3] at hok; cases hok
    | ok core =>
      rw [h3] at hok
      dsimp only at hok
      cases h4 : checkReadOnlySqlTokens (sqlify core.ast) with
      | error e => rw [h4] at hok; cases hok
      | ok u4 =>
        rw [h4] at hok
        dsimp only at hok
        cases hok
        exact core_params_eq a snapshot input.orgId input.page input.pageSize
          input.hardCap refs core href h3

/-- Witness for C6 (amended) on the accepted end-to-end scenario. -/
theorem C6_single_parameter_amended_witness :
    demoOut.params = ["org_1"] :=
  (C6_single_parameter_amended demoAstify demoSqlify demoInput snap0 demoOut
    astUsers [⟨"u", usersTable, none⟩] (by decide) (by decide)
    (by decide)).trans (by decide)

/-! ## C7: the SchemaTable invariant of the introspector -/

theorem mapGet_mapSet_self {β : Type} (m : List (String × β)) (k : String)
    (v : β) : mapGet (mapSet m k v) k = some v := by
  induction m with
  | nil => simp [mapSet, mapGet]
  | cons p rest ih =>
    by_cases h : p.1 = k
    · simp [mapSet, h, mapGet]
    · simp only [mapSet, if_neg h]
      rw [mapGet, List.find?_cons_of_neg _ (by simpa using h)]
      exact ih

theorem mapGet_mapSet_ne {β : Type} (m : List (String × β)) (k c : String)
    (v : β) (h : k ≠ c) : mapGet (mapSet m k v) c = mapGet m c := by
  induction m with
  | nil => simp [mapSet, mapGet, List.find?_cons_of_neg, h]
  | cons p rest ih =>
    by_cases hp : p.1 = k
    · simp only [mapSet, if_pos hp]
      rw [mapGet, List.find?_cons_of_neg _ (by simpa using h), mapGet,
        List.find?_cons_of_neg _ (by simp [hp]; exact h)]
    · simp only [mapSet, if_neg hp]
      by_cases hc : p.1 = c
      · rw [mapGet, List.find?_cons_of_pos _ (by simpa using hc), mapGet,
          List.find?_cons_of_pos _ (by simpa using hc)]
      · rw [mapGet, List.find?_cons_of_neg _ (by simpa using hc), mapGet,
          List.find?_cons_of_neg _ (by simpa using hc)]
        exact ih

theorem mapSet_of_key_absent {β : Type} (m : List (String × β)) (k : String)
    (v : β) (h : ∀ p ∈ m, p.1 ≠ k) : mapSet m k v = m ++ [(k, v)] := by
  induction m with
  | nil => rfl
  | cons p rest ih =>
    simp only [mapSet, if_neg (h p (List.mem_cons_self p rest)), List.cons_append,
      List.cons.injEq, true_and]
    exact ih (fun q hq => h q (List.mem_cons_of_mem p hq))

theorem setAdd_mem (s : List String) (x c : String) :
    c ∈ setAdd s x ↔ c ∈ s ∨ c = x := by
  unfold setAdd
  by_cases h : s.contains x
  · rw [if_pos h]
    constructor
    · exact fun hc => Or.inl hc
    · rintro (hc | rfl)
      · exact hc
      · exact List.mem_of_elem_eq_true h
  · rw [if_neg h]
    simp

theorem foldl_setAdd_mem (l : List String) (acc : List String) (c : String) :
    c ∈ l.foldl setAdd acc ↔ c ∈ acc ∨ c ∈ l := by
  induction l generalizing acc with
  | nil => simp
  | cons x xs ih =>
    rw [List.foldl_cons, ih, setAdd_mem]
    constructor
    · rintro ((hc | rfl) | hc)
      · exact Or.inl hc
      · exact Or.inr (List.mem_cons_self _ _)
      · exact Or.inr (List.mem_cons_of_mem _ hc)
    · rintro (hc | hc)
      · exact Or.inl (Or.inl hc)
      · rcases List.mem_cons.mp hc with rfl | hc'
        · exact Or.inl (Or.inr rfl)
        · exact Or.inr hc'

theorem foldl_mapSet_get_isSome (cols : List String)
    (acc : List (String × String)) (c : String) :
    (mapGet (cols.foldl (fun m x => mapSet m (normalize x) x) acc) c).isSome
      ↔ (mapGet acc c).isSome ∨ c ∈ cols.map normalize := by
  induction cols generalizing acc with
  | nil => simp
  | cons x xs ih =>
    rw [List.foldl_cons, ih]
    by_cases hk : normalize x = c
    · rw [← hk]
      simp [mapGet_mapSet_self]
    · rw [mapGet_mapSet_ne _ _ _ _ hk]
      simp only [List.map_cons, List.mem_cons]
      constructor
      · rintro (hs | hs)
        · exact Or.inl hs
        · exact Or.inr (Or.inr hs)
      · rintro (hs | (hs | hs))
        · exact Or.inl hs
        · exact absurd hs.symm hk
        · exact Or.inr hs

theorem foldl_mapSet_values (cols : List String) (acc : List (String × String))
    (hdisj : ∀ c ∈ cols, ∀ p ∈ acc, p.1 ≠ normalize c)
    (hnd : (cols.map normalize).Nodup) :
    mapValues (cols.foldl (fun m x => mapSet m (normalize x) x) acc) =
      mapValues acc ++ cols := by
  induction cols generalizing acc with
  | nil => simp
  | cons x xs ih =>
    rw [List.foldl_cons,
      mapSet_of_key_absent acc (normalize x) x
        (fun p hp => hdisj x (List.mem_cons_self _ _) p hp),
      ih]
    · simp [mapValues]
    · intro c hc p hp
      rcases List.mem_append.mp hp with hp' | hp'
      · exact hdisj c (List.mem_cons_of_mem _ hc) p hp'
      · rcases List.mem_singleton.mp hp' with rfl
        intro hcontra
        rw [List.map_cons, List.nodup_cons] at hnd
        refine hnd.1 ?_
        rw [show normalize x = normalize c from hcontra]
        exact List.mem_map_of_mem normalize hc
    · rw [List.map_cons, List.nodup_cons] at hnd
      exact hnd.2

/-- Collision fixture: one table declaring both `"Id"` and `"ID"`. -/
def snapCollide : SchemaSnapshot :=
  buildSnapshot [⟨"public", "t", "BASE TABLE"⟩]
    [⟨"public", "t", "Id"⟩, ⟨"public", "t", "ID"⟩] "2024-01-01T00:00:00Z"

def collideTable : SchemaTable :=
  buildSchemaTable
    (buildColumnsByTable [⟨"public", "t", "Id"⟩, ⟨"public", "t", "ID"⟩])
    ⟨"public", "t", "BASE TABLE"⟩

/-- Counterexample to C7 as stated: the introspector builds a table whose
ordered column list (`["Id", "ID"]`) is not a permutation of the mapping's
values (`["ID"]`), because the two names collide after lower-casing. -/
theorem C7_invariant_counterexample :
    collideTable ∈ snapCollide.tables ∧
    ¬ collideTable.columns.Perm (mapValues collideTable.columnsByLower) :=
  ⟨by decide, fun h => absurd h.length_eq (by decide)⟩

/-- C7 (amended). Every `SchemaTable` built by the introspector satisfies:
the lower-cased column set and the lower-cased-to-original-case mapping agree
on membership; and whenever the lower-cased column names are pairwise
distinct (no case collisions), the ordered column list has the same multiset
of entries as the mapping's values. -/
theorem C7_schema_table_invariant (tableRows : List TableRow)
    (columnRows : List ColumnRow) (stamp : String) :
    ∀ t ∈ (buildSnapshot tableRows columnRows stamp).tables,
      (∀ c, c ∈ t.columnsLower ↔ (mapGet t.columnsByLower c).isSome) ∧
      ((t.columns.map normalize).Nodup →
        t.columns.Perm (mapValues t.columnsByLower)) := by
  have hcols : ∀ (cols : List String),
      (∀ c, c ∈ (cols.map normalize).foldl setAdd [] ↔
        (mapGet (cols.foldl (fun m x => mapSet m (normalize x) x) []) c).isSome) ∧
      ((cols.map normalize).Nodup →
        cols.Perm (mapValues (cols.foldl (fun m x => mapSet m (normalize x) x) []))) := by
    intro cols
    constructor
    · intro c
      rw [foldl_setAdd_mem, foldl_mapSet_get_isSome]
      simp [mapGet]
    · intro hnd
      rw [foldl_mapSet_values cols []
        (fun c _hc p hp => absurd hp (List.not_mem_nil p)) hnd]
      simp [mapValues]
  intro t ht
  obtain ⟨row, _hrow, rfl⟩ := List.mem_map.mp ht
  exact ⟨fun c => (hcols _).1 c, fun hnd => (hcols _).2 hnd⟩

/-- Witness for C7 (amended) on the collision-free fixture table. -/
theorem C7_schema_table_invariant_witness :
    ("organizationid" ∈ usersTable.columnsLower ↔
      (mapGet usersTable.columnsByLower "organizationid").isSome) ∧
    usersTable.columns.Perm (mapValues usersTable.columnsByLower) := by
  have h := C7_schema_table_invariant fixtureTableRows fixtureColumnRows
    "2024-01-01T00:00:00Z" usersTable (by decide)
  exact ⟨h.1 "organizationid", h.2 (by decide)⟩

/-! ## C1: tenant-predicate placement -/

theorem mapGet_mapSet_cases {β : Type} (m : List (String × β)) (k c : String)
    (v w : β) (h : mapGet (mapSet m k v) c = some w) :
    (k = c ∧ w = v) ∨ mapGet m c = some w := by
  by_cases hk : k = c
  · subst hk
    rw [mapGet_mapSet_self] at h
    exact Or.inl ⟨rfl, (Option.some_inj.mp h).symm⟩
  · rw [mapGet_mapSet_ne _ _ _ _ hk] at h
    exact Or.inr h

theorem buildFromByAliasFrom_lt :
    ∀ (items : List FromItem) (idx : Nat) (acc : List (String × Nat)) (bound : Nat),
      (∀ k i, mapGet acc k = some i → i < bound) →
      idx + items.length ≤ bound →
      ∀ k i, mapGet (buildFromByAliasFrom items idx acc) k = some i → i < bound := by
  intro items
  induction items with
  | nil => intro idx acc bound hacc _; exact hacc
  | cons f rest ih =>
    intro idx acc bound hacc hidx k i h
    rw [buildFromByAliasFrom] at h
    refine ih (idx + 1) _ bound ?_ (by simp at hidx ⊢; omega) k i h
    intro k' i' h'
    cases hra : resolveAliasF f with
    | none => rw [hra] at h'; exact hacc k' i' h'
    | some a =>
      rw [hra] at h'
      rcases mapGet_mapSet_cases _ _ _ _ _ h' with ⟨_, rfl⟩ | h''
      · simp at hidx
        omega
      · exact hacc k' i' h''

theorem buildFromByAlias_lt (items : List FromItem) (k : String) (i : Nat)
    (h : mapGet (buildFromByAlias items) k = some i) : i < items.length :=
  buildFromByAliasFrom_lt items 0 [] items.length
    (fun _ _ h' => by cases h') (by omega) k i h

theorem conjuncts_andExpr (a b : Expr) :
    conjuncts (andExpr a b) = conjuncts a ++ conjuncts b := by
  rw [andExpr, conjuncts]
  simp

theorem conjuncts_tenantPredicate (t : TenantTarget) (paramIndex : Int) :
    conjuncts (tenantPredicate t paramIndex) = [tenantPredicate t paramIndex] := by
  rw [tenantPredicate, eqExpr, conjuncts]
  simp

theorem tenantStep_fst_length (byAlias : List (String × Nat)) (paramIndex : Int)
    (acc : List FromItem × List Expr) (t : TenantTarget) :
    (tenantStep byAlias paramIndex acc t).1.length = acc.1.length := by
  rw [tenantStep]
  cases t.joinType with
  | none => rfl
  | some j =>
    cases h : mapGet byAlias (normalize t.aliasName) with
    | none => rfl
    | some i =>
      show (attachToJoinOnAt acc.1 i _).length = _
      rw [attachToJoinOnAt]
      cases hg : acc.1.get? i with
      | none => rfl
      | some f => simp

/-- One `tenantStep` only extends `ON` conjunct lists and the
`whereConditions` accumulator. -/
theorem tenantStep_mono (byAlias : List (String × Nat)) (paramIndex : Int)
    (acc : List FromItem × List Expr) (t : TenantTarget) :
    (∀ (i : Nat) (f : FromItem), acc.1[i]? = some f →
      ∃ (f' : FromItem), (tenantStep byAlias paramIndex acc t).1[i]? = some f' ∧
        ∀ e, e ∈ optConjuncts f.onCond → e ∈ optConjuncts f'.onCond) ∧
    (∀ e, e ∈ acc.2 → e ∈ (tenantStep byAlias paramIndex acc t).2) := by
  rw [tenantStep]
  cases t.joinType with
  | none =>
    exact ⟨fun i f h => ⟨f, h, fun e he => he⟩,
      fun e he => List.mem_append_left _ he⟩
  | some j =>
    cases h : mapGet byAlias (normalize t.aliasName) with
    | none =>
      exact ⟨fun i f h => ⟨f, h, fun e he => he⟩,
        fun e he => List.mem_append_left _ he⟩
    | some jdx =>
      refine ⟨?_, fun e he => he⟩
      intro i f hf
      show ∃ (f' : FromItem), (attachToJoinOnAt acc.1 jdx _)[i]? = some f' ∧ _
      rw [attachToJoinOnAt]
      cases hg : acc.1.get? jdx with
      | none => exact ⟨f, hf, fun e he => he⟩
      | some fj =>
        dsimp only
        by_cases hij : jdx = i
        · subst hij
          have hlt : jdx < acc.1.length := (List.get?_eq_some.mp hg).1
          have hff : fj = f := by
            rw [← List.get?_eq_getElem?, hg] at hf
            exact Option.some_inj.mp hf
          subst hff
          cases ho : fj.onCond with
          | none =>
            refine ⟨{ fj with onCond := some (eqExpr
              (tenantColumnRef t.aliasName t.columnName)
              (orgParamExpression paramIndex)) }, ?_, ?_⟩
            · dsimp only
              rw [List.getElem?_set_eq_of_lt _ hlt]
            · intro e he
              simp [optConjuncts] at he
          | some o =>
            refine ⟨{ fj with onCond := some (andExpr o (eqExpr
              (tenantColumnRef t.aliasName t.columnName)
              (orgParamExpression paramIndex))) }, ?_, ?_⟩
            · dsimp only
              rw [List.getElem?_set_eq_of_lt _ hlt]
            · intro e he
              show e ∈ optConjuncts (some (andExpr o _))
              rw [optConjuncts, conjuncts_andExpr]
              exact List.mem_append_left _ he
        · refine ⟨f, ?_, fun e he => he⟩
          rw [List.getElem?_set_ne hij]
          exact hf

theorem tenantFold_mono (byAlias : List (String × Nat)) (paramIndex : Int)
    (l : List TenantTarget) :
    ∀ (its : List FromItem) (wcs : List Expr),
      (∀ (i : Nat) (f : FromItem), its[i]? = some f →
        ∃ (f' : FromItem),
          (l.foldl (tenantStep byAlias paramIndex) (its, wcs)).1[i]? = some f' ∧
          ∀ e, e ∈ optConjuncts f.onCond → e ∈ optConjuncts f'.onCond) ∧
      (∀ e, e ∈ wcs → e ∈ (l.foldl (tenantStep byAlias paramIndex) (its, wcs)).2) := by
  induction l with
  | nil =>
    intro its wcs
    exact ⟨fun i f h => ⟨f, h, fun e he => he⟩, fun e he => he⟩
  | cons t rest ih =>
    intro its wcs
    rw [List.foldl_cons]
    constructor
    · intro i f hf
      obtain ⟨f1, hf1, hsub1⟩ :=
        (tenantStep_mono byAlias paramIndex (its, wcs) t).1 i f hf
      obtain ⟨f2, hf2, hsub2⟩ :=
        (ih (tenantStep byAlias paramIndex (its, wcs) t).1
          (tenantStep byAlias paramIndex (its, wcs) t).2).1 i f1 hf1
      exact ⟨f2, hf2, fun e he => hsub2 e (hsub1 e he)⟩
    · intro e he
      exact (ih (tenantStep byAlias paramIndex (its, wcs) t).1
          (tenantStep byAlias paramIndex (its, wcs) t).2).2 e
        ((tenantStep_mono byAlias paramIndex (its, wcs) t).2 e he)

theorem tenantFold_fst_length (byAlias : List (String × Nat)) (paramIndex : Int)
    (l : List TenantTarget) :
    ∀ (its : List FromItem) (wcs : List Expr),
      (l.foldl (tenantStep byAlias paramIndex) (its, wcs)).1.length = its.length := by
  induction l with
  | nil => intro its wcs; rfl
  | cons t rest ih =>
    intro its wcs
    rw [List.foldl_cons]
    rw [ih (tenantStep byAlias paramIndex (its, wcs) t).1
      (tenantStep byAlias paramIndex (its, wcs) t).2]
    exact tenantStep_fst_length byAlias paramIndex (its, wcs) t

/-- After `tenantStep` for target `t`, `t`'s predicate sits where the step
put it: the addressed join's `ON` conjuncts, else the `WHERE` accumulator. -/
theorem tenantStep_places (byAlias : List (String × Nat)) (paramIndex : Int)
    (its : List FromItem) (wcs : List Expr) (t : TenantTarget)
    (hidx : ∀ k i, mapGet byAlias k = some i → i < its.length) :
    (∀ i, t.joinType.isSome = true →
      mapGet byAlias (normalize t.aliasName) = some i →
      ∃ (f : FromItem), (tenantStep byAlias paramIndex (its, wcs) t).1[i]? = some f ∧
        tenantPredicate t paramIndex ∈ optConjuncts f.onCond) ∧
    ((t.joinType = none ∨ mapGet byAlias (normalize t.aliasName) = none) →
      tenantPredicate t paramIndex ∈ (tenantStep byAlias paramIndex (its, wcs) t).2) := by
  constructor
  · intro i hjoin hmap
    obtain ⟨j, hj⟩ := Option.isSome_iff_exists.mp hjoin
    rw [tenantStep, hj, hmap]
    dsimp only
    have hlt : i < its.length := hidx _ _ hmap
    obtain ⟨fi, hfi⟩ := Option.isSome_iff_exists.mp
      (by rw [List.get?_eq_getElem?, List.getElem?_eq_getElem hlt]; rfl :
        (its.get? i).isSome = true)
    rw [attachToJoinOnAt, hfi]
    cases ho : fi.onCond with
    | none =>
      refine ⟨{ fi with onCond := some (eqExpr
        (tenantColumnRef t.aliasName t.columnName)
        (orgParamExpression paramIndex)) }, ?_, ?_⟩
      · dsimp only
        rw [List.getElem?_set_eq_of_lt _ hlt, ho]
      · show tenantPredicate t paramIndex ∈
          conjuncts (eqExpr (tenantColumnRef t.aliasName t.columnName)
            (orgParamExpression paramIndex))
        rw [show eqExpr (tenantColumnRef t.aliasName t.columnName)
            (orgParamExpression paramIndex) = tenantPredicate t paramIndex from rfl,
          conjuncts_tenantPredicate]
        exact List.mem_singleton.mpr rfl
    | some o =>
      refine ⟨{ fi with onCond := some (andExpr o (eqExpr
        (tenantColumnRef t.aliasName t.columnName)
        (orgParamExpression paramIndex))) }, ?_, ?_⟩
      · dsimp only
        rw [List.getElem?_set_eq_of_lt _ hlt, ho]
      · show tenantPredicate t paramIndex ∈ conjuncts (andExpr o _)
        rw [conjuncts_andExpr]
        refine List.mem_append_right _ ?_
        rw [show eqExpr (tenantColumnRef t.aliasName t.columnName)
            (orgParamExpression paramIndex) = tenantPredicate t paramIndex from rfl,
          conjuncts_tenantPredicate]
        exact List.mem_singleton.mpr rfl
  · intro hcase
    rw [tenantStep]
    rcases hcase with hnone | hmapnone
    · rw [hnone]
      exact List.mem_append_right _ (List.mem_singleton.mpr rfl)
    · cases hj : t.joinType with
      | none => exact List.mem_append_right _ (List.mem_singleton.mpr rfl)
      | some j =>
        rw [hmapnone]
        exact List.mem_append_right _ (List.mem_singleton.mpr rfl)

theorem tenantFold_places (byAlias : List (String × Nat)) (paramIndex : Int)
    (deduped : List TenantTarget) :
    ∀ (its : List FromItem) (wcs : List Expr),
      (∀ k i, mapGet byAlias k = some i → i < its.length) →
      ∀ t ∈ deduped,
        (∀ i, t.joinType.isSome = true →
          mapGet byAlias (normalize t.aliasName) = some i →
          ∃ (f : FromItem),
            (deduped.foldl (tenantStep byAlias paramIndex) (its, wcs)).1[i]? = some f ∧
            tenantPredicate t paramIndex ∈ optConjuncts f.onCond) ∧
        ((t.joinType = none ∨ mapGet byAlias (normalize t.aliasName) = none) →
          tenantPredicate t paramIndex ∈
            (deduped.foldl (tenantStep byAlias paramIndex) (its, wcs)).2) := by
  induction deduped with
  | nil => intro its wcs _ t ht; cases ht
  | cons t0 rest ih =>
    intro its wcs hidx t ht
    rw [List.foldl_cons]
    rcases List.mem_cons.mp ht with rfl | ht'
    · constructor
      · intro i hjoin hmap
        obtain ⟨f1, hf1, hin1⟩ :=
          (tenantStep_places byAlias paramIndex its wcs t hidx).1 i hjoin hmap
        obtain ⟨f2, hf2, hsub⟩ :=
          (tenantFold_mono byAlias paramIndex rest
            (tenantStep byAlias paramIndex (its, wcs) t).1
            (tenantStep byAlias paramIndex (its, wcs) t).2).1 i f1 hf1
        exact ⟨f2, hf2, hsub _ hin1⟩
      · intro hcase
        exact (tenantFold_mono byAlias paramIndex rest
            (tenantStep byAlias paramIndex (its, wcs) t).1
            (tenantStep byAlias paramIndex (its, wcs) t).2).2 _
          ((tenantStep_places byAlias paramIndex its wcs t hidx).2 hcase)
    · refine ih (tenantStep byAlias paramIndex (its, wcs) t0).1
        (tenantStep byAlias paramIndex (its, wcs) t0).2 ?_ t ht'
      intro k i h
      rw [tenantStep_fst_length]
      exact hidx k i h

theorem mem_conjuncts_combine (c : Expr) (cs : List Expr) (w : Expr)
    (hw : w ∈ conjuncts c ∨ ∃ x ∈ cs, w ∈ conjuncts x) :
    w ∈ conjuncts (cs.foldl andExpr c) := by
  induction cs generalizing c with
  | nil =>
    rcases hw with hw | ⟨x, hx, _⟩
    · exact hw
    · cases hx
  | cons d ds ih =>
    rw [List.foldl_cons]
    refine ih (andExpr c d) ?_
    rw [conjuncts_andExpr]
    rcases hw with hw | ⟨x, hx, hwx⟩
    · exact Or.inl (List.mem_append_left _ hw)
    · rcases List.mem_cons.mp hx with rfl | hx'
      · exact Or.inl (List.mem_append_right _ hwx)
      · exact Or.inr ⟨x, hx', hwx⟩

/-- Counterexample to C1 as stated: for the accepted candidate
`SELECT u.id, p.amount FROM users u INNER JOIN payments p ON p.userId = u.id`
the tenant predicate for the inner-joined table `p` is NOT added to the
top-level `WHERE` (as the claim requires for non-LEFT joins); it is attached
to the join's `ON` clause instead. -/
theorem C1_tenant_placement_counterexample :
    exceptIsOk (validateAndRewriteAst astJoinInner snap0 "org_1" 1 10 100) = true ∧
    (validateAndRewriteAst astJoinInner snap0 "org_1" 1 10 100).map
      (fun o => decide (tenantPredicate ⟨"p", "organizationId", some "INNER JOIN"⟩ 1
        ∈ optConjuncts o.ast.whereCond)) = .ok false ∧
    (validateAndRewriteAst astJoinInner snap0 "org_1" 1 10 100).map
      (fun o =>
        match (o.ast.fromItems.getD [])[1]? with
        | some f => decide (tenantPredicate ⟨"p", "organizationId", some "INNER JOIN"⟩ 1
            ∈ optConjuncts f.onCond)
        | none => false) = .ok true := by
  refine ⟨by decide, by decide, by decide⟩

/-- Placement behavior of `applyTenantFilter` for each deduplicated target
(shared helper). -/
theorem applyTenantFilter_places (ast : SelectAst)
    (targets : List TenantTarget) (paramIndex : Int) (t : TenantTarget)
    (hne : targets ≠ []) (hmem : t ∈ dedupeTargets targets) :
    (∀ i, t.joinType.isSome = true →
      mapGet (buildFromByAlias (ast.fromItems.getD []))
        (normalize t.aliasName) = some i →
      ∃ (f : FromItem),
        ((applyTenantFilter ast targets paramIndex).fromItems.getD [])[i]? = some f ∧
        tenantPredicate t paramIndex ∈ optConjuncts f.onCond) ∧
    ((t.joinType = none ∨
      mapGet (buildFromByAlias (ast.fromItems.getD []))
        (normalize t.aliasName) = none) →
      tenantPredicate t paramIndex ∈
        optConjuncts (applyTenantFilter ast targets paramIndex).whereCond) := by
  have hplace := tenantFold_places (buildFromByAlias (ast.fromItems.getD []))
    paramIndex (dedupeTargets targets) (ast.fromItems.getD []) []
    (buildFromByAlias_lt (ast.fromItems.getD [])) t hmem
  unfold applyTenantFilter
  rw [if_neg (by simpa [List.isEmpty_iff] using hne)]
  dsimp only
  constructor
  · intro i hjoin hmap
    obtain ⟨f, hf, hin⟩ := hplace.1 i hjoin hmap
    refine ⟨f, ?_, hin⟩
    cases hfi : ast.fromItems with
    | none =>
      rw [hfi] at hmap
      simp only [Option.getD_none] at hmap
      exact Option.noConfusion
        (show (none : Option Nat) = some i from hmap)
    | some items0 =>
      rw [hfi] at hf
      cases hwcs : ((dedupeTargets targets).foldl
          (tenantStep (buildFromByAlias ((some items0 : Option (List FromItem)).getD []))
            paramIndex) ((some items0 : Option (List FromItem)).getD [], [])).2 with
      | nil =>
        dsimp only
        exact hf
      | cons c cs =>
        dsimp only
        exact hf
  · intro hcase
    have hin := hplace.2 hcase
    cases hwcs : ((dedupeTargets targets).foldl
        (tenantStep (buildFromByAlias (ast.fromItems.getD [])) paramIndex)
        (ast.fromItems.getD [], [])).2 with
    | nil =>
      rw [hwcs] at hin
      cases hin
    | cons c cs =>
      rw [hwcs] at hin
      dsimp only
      cases hw : ast.whereCond with
      | none =>
        show tenantPredicate t paramIndex ∈ conjuncts (cs.foldl andExpr c)
        exact mem_conjuncts_combine c cs _ (by
          rcases List.mem_cons.mp hin with rfl | hin'
          · exact Or.inl (by
              rw [conjuncts_tenantPredicate]
              exact List.mem_singleton.mpr rfl)
          · exact Or.inr ⟨_, hin', by
              rw [conjuncts_tenantPredicate]
              exact List.mem_singleton.mpr rfl⟩)
      | some w0 =>
        show tenantPredicate t paramIndex ∈
          conjuncts (andExpr w0 (cs.foldl andExpr c))
        rw [conjuncts_andExpr]
        refine List.mem_append_right _ ?_
        exact mem_conjuncts_combine c cs _ (by
          rcases List.mem_cons.mp hin with rfl | hin'
          · exact Or.inl (by
              rw [conjuncts_tenantPredicate]
              exact List.mem_singleton.mpr rfl)
          · exact Or.inr ⟨_, hin', by
              rw [conjuncts_tenantPredicate]
              exact List.mem_singleton.mpr rfl⟩)

/-- C1 (amended). For every deduplicated tenant target of `applyTenantFilter`:
if the target was brought in by ANY join (`LEFT` or `INNER` alike) and its
alias resolves in the `fromByAlias` index, the predicate
`alias.tenantColumn = $n` is attached to that join's `ON` clause with `AND`;
only the leading `FROM` table (null join type) — or a target whose alias
matches no `from` node — has its predicate added to the top-level `WHERE`,
combined with any existing `WHERE` via `AND`. -/
theorem C1_tenant_placement_amended (ast : SelectAst)
    (targets : List TenantTarget) (paramIndex : Int) (t : TenantTarget)
    (hne : targets ≠ []) (hmem : t ∈ dedupeTargets targets) :
    (∀ i, t.joinType.isSome = true →
      mapGet (buildFromByAlias (ast.fromItems.getD []))
        (normalize t.aliasName) = some i →
      ∃ (f : FromItem),
        ((applyTenantFilter ast targets paramIndex).fromItems.getD [])[i]? = some f ∧
        tenantPredicate t paramIndex ∈ optConjuncts f.onCond) ∧
    ((t.joinType = none ∨
      mapGet (buildFromByAlias (ast.fromItems.getD []))
        (normalize t.aliasName) = none) →
      tenantPredicate t paramIndex ∈
        optConjuncts (applyTenantFilter ast targets paramIndex).whereCond) :=
  applyTenantFilter_places ast targets paramIndex t hne hmem

/-- The tenant targets the pipeline derives for the LEFT-join scenario. -/
def leftJoinTargets : List TenantTarget :=
  [⟨"u", "organizationId", none⟩, ⟨"p", "organizationId", some "LEFT JOIN"⟩]

/-- Witness for C1 (amended) on the LEFT-join scenario: `p`'s predicate goes
to the join's `ON`, `u`'s (leading table) to the `WHERE`. -/
theorem C1_tenant_placement_amended_witness :
    (∃ (f : FromItem),
      ((applyTenantFilter astJoinLeft leftJoinTargets 1).fromItems.getD [])[1]? =
        some f ∧
      tenantPredicate ⟨"p", "organizationId", some "LEFT JOIN"⟩ 1 ∈
        optConjuncts f.onCond) ∧
    tenantPredicate ⟨"u", "organizationId", none⟩ 1 ∈
      optConjuncts (applyTenantFilter astJoinLeft leftJoinTargets 1).whereCond :=
  ⟨(C1_tenant_placement_amended astJoinLeft leftJoinTargets 1
      ⟨"p", "organizationId", some "LEFT JOIN"⟩ (by decide) (by decide)).1
      1 (by decide) (by decide),
   (C1_tenant_placement_amended astJoinLeft leftJoinTargets 1
      ⟨"u", "organizationId", none⟩ (by decide) (by decide)).2 (Or.inl rfl)⟩

/-! ## C4: re-running the pipeline on its own output

Infrastructure: positional-parameter scan, stability of walks, and
idempotence of the column validator.
-/

/-- An expression contains a positional-parameter (`var`) node. -/
def exprHasVar : Expr → Bool
  | .varParam _ _ => true
  | .binary _ l r => exprHasVar l || exprHasVar r
  | _ => false

theorem walkExpr_ok_no_var (ctx : ColumnCtx) (e e' : Expr)
    (h : walkExpr ctx e = .ok e') : exprHasVar e = false := by
  induction e generalizing e' with
  | columnRef table col => rfl
  | varParam p i => rw [walkExpr] at h; cases h
  | binary op l r ihl ihr =>
    rw [walkExpr] at h
    cases hl : walkExpr ctx l with
    | error e1 => rw [hl] at h; cases h
    | ok l' =>
      rw [hl] at h
      cases hr : walkExpr ctx r with
      | error e1 => rw [hr] at h; cases h
      | ok r' => simp [exprHasVar, ihl l' hl, ihr r' hr]
  | numLit n => rfl
  | strLit s => rfl

theorem hasVar_of_mem_conjuncts (d e : Expr) (hmem : e ∈ conjuncts d)
    (hvar : exprHasVar e = true) : exprHasVar d = true := by
  induction d with
  | binary op l r ihl ihr =>
    by_cases hop : op = "AND"
    · subst hop
      rw [conjuncts] at hmem
      rw [if_pos rfl] at hmem
      rcases List.mem_append.mp hmem with hm | hm
      · simp [exprHasVar, ihl hm]
      · simp [exprHasVar, ihr hm]
    · rw [conjuncts, if_neg hop] at hmem
      rcases List.mem_singleton.mp hmem with rfl
      exact hvar
  | columnRef table col =>
    rcases List.mem_singleton.mp (show e ∈ [Expr.columnRef table col] from hmem)
      with rfl
    exact hvar
  | varParam p i => rfl
  | numLit n =>
    rcases List.mem_singleton.mp (show e ∈ [Expr.numLit n] from hmem) with rfl
    exact hvar
  | strLit s =>
    rcases List.mem_singleton.mp (show e ∈ [Expr.strLit s] from hmem) with rfl
    exact hvar

/-- A walk over an `AND` chain whose left part fails with the parameter
error fails with the parameter error. -/
theorem walkExpr_and_left_err (ctx : ColumnCtx) (l r : Expr)
    (h : walkExpr ctx l = .error .SQL_PARAMETER_NOT_ALLOWED) :
    walkExpr ctx (andExpr l r) = .error .SQL_PARAMETER_NOT_ALLOWED := by
  rw [andExpr, walkExpr, h]

theorem walkExpr_and_right_err (ctx : ColumnCtx) (l l' r : Expr)
    (hl : walkExpr ctx l = .ok l')
    (h : walkExpr ctx r = .error .SQL_PARAMETER_NOT_ALLOWED) :
    walkExpr ctx (andExpr l r) = .error .SQL_PARAMETER_NOT_ALLOWED := by
  rw [andExpr, walkExpr, hl, h]

/-- If every element is mapped to itself, the error-propagating map is the
identity. -/
theorem mapMExcept_of_all_ok {α : Type} (f : α → Except SqlErrorCode α)
    (l : List α) (h : ∀ x ∈ l, f x = .ok x) : mapMExcept f l = .ok l := by
  induction l with
  | nil => rfl
  | cons x xs ih =>
    rw [mapMExcept, h x (List.mem_cons_self _ _),
      ih (fun y hy => h y (List.mem_cons_of_mem _ hy))]

/-- If every element maps to itself or to a fixed error, the map returns the
whole list or that error. -/
theorem mapMExcept_stable {α : Type} (f : α → Except SqlErrorCode α)
    (c : SqlErrorCode) (l : List α)
    (h : ∀ x ∈ l, f x = .ok x ∨ f x = .error c) :
    mapMExcept f l = .ok l ∨ mapMExcept f l = .error c := by
  induction l with
  | nil => exact Or.inl rfl
  | cons x xs ih =>
    rcases h x (List.mem_cons_self _ _) with hx | hx
    · rcases ih (fun y hy => h y (List.mem_cons_of_mem _ hy)) with hxs | hxs
      · exact Or.inl (by rw [mapMExcept, hx, hxs])
      · exact Or.inr (by rw [mapMExcept, hx, hxs])
    · exact Or.inr (by rw [mapMExcept, hx])

/-! Quoting an identifier does not change its normalized form. -/

theorem isWs_ne_quote (c : Char) (h : isWs c = true) : c ≠ '"' := by
  intro hc
  rw [hc] at h
  exact absurd h (by decide)

theorem stripQuotes_append (a b : List Char) :
    stripQuotes (a ++ b) = stripQuotes a ++ stripQuotes b := by
  unfold stripQuotes
  exact List.filter_append _ _

theorem stripQuotes_all_ws (q : List Char) (h : ∀ c ∈ q, isWs c = true) :
    stripQuotes q = q := by
  unfold stripQuotes
  rw [List.filter_eq_self]
  intro c hc
  simpa using isWs_ne_quote c (h c hc)

theorem stripQuotes_reverse (l : List Char) :
    stripQuotes l.reverse = (stripQuotes l).reverse :=
  List.filter_reverse _ _

theorem dropWhile_ws_append (p y : List Char) (h : ∀ c ∈ p, isWs c = true) :
    (p ++ y).dropWhile isWs = y.dropWhile isWs := by
  induction p with
  | nil => rfl
  | cons c cs ih =>
    rw [List.cons_append, List.dropWhile_cons_of_pos
      (h c (List.mem_cons_self _ _))]
    exact ih (fun d hd => h d (List.mem_cons_of_mem _ hd))

theorem trimLeft_ws_append (p y : List Char) (h : ∀ c ∈ p, isWs c = true) :
    trimLeft (p ++ y) = trimLeft y :=
  dropWhile_ws_append p y h

theorem trimRight_ws_append (b q : List Char) (h : ∀ c ∈ q, isWs c = true) :
    trimRight (b ++ q) = trimRight b := by
  unfold trimRight
  rw [List.reverse_append]
  rw [dropWhile_ws_append q.reverse b.reverse
    (fun c hc => h c (List.mem_reverse.mp hc))]

theorem trimRight_decomp (y : List Char) :
    ∃ q, (∀ c ∈ q, isWs c = true) ∧ y = trimRight y ++ q := by
  refine ⟨((y.reverse).takeWhile isWs).reverse, ?_, ?_⟩
  · intro c hc
    exact List.mem_takeWhile_imp (List.mem_reverse.mp hc)
  · rw [trimRight]
    show y = (List.dropWhile isWs y.reverse).reverse ++
      (List.takeWhile isWs y.reverse).reverse
    rw [← List.reverse_append, List.takeWhile_append_dropWhile,
      List.reverse_reverse]

theorem trimLeft_decomp (y : List Char) :
    ∃ p, (∀ c ∈ p, isWs c = true) ∧ y = p ++ trimLeft y := by
  refine ⟨y.takeWhile isWs, ?_, ?_⟩
  · intro c hc
    exact List.mem_takeWhile_imp hc
  · rw [trimLeft, List.takeWhile_append_dropWhile]

theorem trimLeft_eq_nil_all_ws (a : List Char) (h : trimLeft a = []) :
    ∀ c ∈ a, isWs c = true := by
  intro c hc
  exact List.dropWhile_eq_nil_iff.mp h c hc

/-- Appending trailing whitespace does not change the two-sided trim. -/
theorem trim_append_ws (a q : List Char) (hq : ∀ c ∈ q, isWs c = true) :
    trimRight (trimLeft (a ++ q)) = trimRight (trimLeft a) := by
  cases ha : trimLeft a with
  | nil =>
    have haws : ∀ c ∈ a, isWs c = true := trimLeft_eq_nil_all_ws a ha
    rw [show trimLeft (a ++ q) = trimLeft q from trimLeft_ws_append a q haws]
    rw [show trimLeft q = ([] : List Char) from
      List.dropWhile_eq_nil_iff.mpr (fun c hc => hq c hc)]
  | cons c rest =>
    have hne : (trimLeft a).isEmpty = false := by rw [ha]; rfl
    rw [show trimLeft (a ++ q) = trimLeft a ++ q by
        unfold trimLeft
        rw [List.dropWhile_append]
        rw [show (a.dropWhile isWs).isEmpty = false from hne]
        simp]
    rw [trimRight_ws_append _ q hq, ha]

/-- Stripping quotes commutes with trimming, up to a final trim. -/
theorem trim_stripQuotes_trim (x : List Char) :
    trimRight (trimLeft (stripQuotes (trimRight (trimLeft x)))) =
      trimRight (trimLeft (stripQuotes x)) := by
  obtain ⟨p, hp, hx⟩ := trimLeft_decomp x
  obtain ⟨q, hq, hy⟩ := trimRight_decomp (trimLeft x)
  have h1 : stripQuotes x = p ++ stripQuotes (trimLeft x) := by
    conv_lhs => rw [hx]
    rw [stripQuotes_append, stripQuotes_all_ws p hp]
  have h2 : stripQuotes (trimLeft x) =
      stripQuotes (trimRight (trimLeft x)) ++ q := by
    conv_lhs => rw [hy]
    rw [stripQuotes_append, stripQuotes_all_ws q hq]
  rw [h1, trimLeft_ws_append p _ hp, h2, trim_append_ws _ q hq]

theorem stripQuotes_escapeQuotes (y : List Char) :
    stripQuotes (escapeQuotes y) = stripQuotes y := by
  induction y with
  | nil => rfl
  | cons c cs ih =>
    have hesc : escapeQuotes (c :: cs) =
        (if c = '"' then ['"', '"'] else [c]) ++ escapeQuotes cs := by
      unfold escapeQuotes
      rw [List.flatMap_cons]
    rw [hesc, stripQuotes_append, ih]
    by_cases hc : c = '"'
    · subst hc
      rw [if_pos rfl]
      rw [show stripQuotes ['"', '"'] = [] from rfl]
      rw [show stripQuotes ('"' :: cs) = stripQuotes cs from by
        unfold stripQuotes
        rw [List.filter_cons_of_neg]
        simp]
      rfl
    · rw [if_neg hc]
      rw [show stripQuotes [c] = [c] from by
        unfold stripQuotes
        rw [List.filter_cons_of_pos (by simpa using hc)]
        rfl]
      rw [show stripQuotes (c :: cs) = c :: stripQuotes cs from by
        unfold stripQuotes
        rw [List.filter_cons_of_pos (by simpa using hc)]]
      rfl

theorem stripQuotes_stripOuterQuotes (z : List Char) :
    stripQuotes (stripOuterQuotesChars z) = stripQuotes z := by
  unfold stripOuterQuotesChars
  split
  · next hcond =>
    obtain ⟨hlen, hhead, hlast⟩ := hcond
    cases z with
    | nil => cases hhead
    | cons c t =>
      have hc : c = '"' := by
        rw [List.head?_cons] at hhead
        exact Option.some_inj.mp hhead
      subst hc
      have ht : t ≠ [] := by
        intro h
        subst h
        simp at hlen
      have h1 : ('"' :: t).getLast (List.cons_ne_nil _ _) = '"' := by
        rw [List.getLast?_eq_getLast ('"' :: t) (List.cons_ne_nil _ _)] at hlast
        exact Option.some_inj.mp hlast
      have h2 : t.getLast ht = '"' := by
        rw [List.getLast_cons ht] at h1
        exact h1
      conv_rhs => rw [show t = t.dropLast ++ [t.getLast ht] from
        (List.dropLast_append_getLast ht).symm]
      rw [show ('"' :: (t.dropLast ++ [t.getLast ht])) =
        ['"'] ++ t.dropLast ++ [t.getLast ht] by simp]
      rw [stripQuotes_append, stripQuotes_append]
      rw [show stripQuotes ['"'] = [] from rfl]
      rw [h2, show stripQuotes ['"'] = [] from rfl]
      rw [show (('"' :: t).drop 1).dropLast = t.dropLast by simp]
      simp
  · rfl

/-- Wrapping an identifier in canonical quotes (`toAstIdentifier`) leaves its
normalized form unchanged. -/
theorem normalize_toAstIdentifier (s : String) :
    normalize (toAstIdentifier s) = normalize s := by
  apply congrArg String.mk
  show lowerChars (trimChars (stripQuotes
      ('"' :: (escapeQuotes (stripOuterQuotesChars (trimChars s.data)) ++ ['"'])))) =
    lowerChars (trimChars (stripQuotes s.data))
  rw [show ('"' :: (escapeQuotes (stripOuterQuotesChars (trimChars s.data)) ++ ['"'])) =
    ['"'] ++ escapeQuotes (stripOuterQuotesChars (trimChars s.data)) ++ ['"'] by simp]
  rw [stripQuotes_append, stripQuotes_append]
  rw [show stripQuotes ['"'] = [] from rfl]
  rw [List.nil_append, List.append_nil, stripQuotes_escapeQuotes,
    stripQuotes_stripOuterQuotes]
  show lowerChars (trimRight (trimLeft (stripQuotes (trimRight (trimLeft s.data))))) =
    lowerChars (trimRight (trimLeft (stripQuotes s.data)))
  rw [trim_stripQuotes_trim]

/-! Well-formedness of schema metadata, as the introspector guarantees it. -/

/-- A `SchemaTable` is well formed when its lower-cased mapping keys are the
normalized forms of their values, its set and mapping agree on membership,
and `hasOrganizationId` reflects membership of the tenant column. -/
def tableWF (t : SchemaTable) : Bool :=
  t.columnsByLower.all (fun p => normalize p.2 == p.1) &&
  t.columnsLower.all (fun c => (mapGet t.columnsByLower c).isSome) &&
  t.columnsByLower.all (fun p => t.columnsLower.contains p.1) &&
  (t.hasOrganizationId == t.columnsLower.contains "organizationid")

/-- A snapshot is well formed when every table reachable through its two
indices is well formed. -/
def snapshotWF (snap : SchemaSnapshot) : Bool :=
  snap.byKey.all (fun p => tableWF p.2) &&
  snap.byName.all (fun p => p.2.all tableWF)

theorem mapGet_some_mem {β : Type} (m : List (String × β)) (k : String) (v : β)
    (h : mapGet m k = some v) : (k, v) ∈ m := by
  unfold mapGet at h
  cases hf : m.find? (fun p => p.1 = k) with
  | none => rw [hf] at h; cases h
  | some p =>
    rw [hf] at h
    have h1 : p.1 = k := by simpa using List.find?_some hf
    have h2 : p.2 = v := Option.some_inj.mp h
    have hmem := List.mem_of_find?_eq_some hf
    rw [← h1, ← h2]
    exact hmem

theorem tableWF_parts (t : SchemaTable) (hwf : tableWF t = true) :
    (∀ k v, mapGet t.columnsByLower k = some v → normalize v = k) ∧
    (∀ c, c ∈ t.columnsLower → (mapGet t.columnsByLower c).isSome = true) ∧
    t.hasOrganizationId = t.columnsLower.contains "organizationid" := by
  rw [tableWF] at hwf
  simp only [Bool.and_eq_true] at hwf
  obtain ⟨⟨⟨hA, hB⟩, _hC⟩, hD⟩ := hwf
  refine ⟨?_, ?_, ?_⟩
  · intro k v h
    have := List.all_eq_true.mp hA (k, v) (mapGet_some_mem _ _ _ h)
    simpa using this
  · intro c hc
    have := List.all_eq_true.mp hB c hc
    simpa using this
  · exact eq_of_beq hD

theorem resolveTable_wf (snap : SchemaSnapshot) (hwf : snapshotWF snap = true)
    (n : String) (sc : Option String) (t : SchemaTable)
    (h : resolveTable snap n sc = some t) : tableWF t = true := by
  rw [snapshotWF] at hwf
  simp only [Bool.and_eq_true] at hwf
  obtain ⟨hKey, hName⟩ := hwf
  unfold resolveTable at h
  cases sc with
  | some s =>
    dsimp only at h
    have hmem := mapGet_some_mem _ _ _ h
    simpa using List.all_eq_true.mp hKey _ hmem
  | none =>
    dsimp only at h
    cases hbn : mapGet snap.byName (normalize n) with
    | none =>
      rw [hbn] at h
      cases h
    | some lst =>
      rw [hbn] at h
      have hall : lst.all tableWF = true := by
        simpa using List.all_eq_true.mp hName _ (mapGet_some_mem _ _ _ hbn)
      have hliftmem : ∀ t' ∈ lst, tableWF t' = true := fun t' ht' =>
        List.all_eq_true.mp hall t' ht'
      cases lst with
      | nil => cases h
      | cons a rest =>
        cases rest with
        | nil =>
          exact hliftmem t (by
            rw [show t = a from (Option.some_inj.mp h).symm]
            exact List.mem_cons_self _ _)
        | cons b rest' =>
          exact hliftmem t (List.mem_of_find?_eq_some h)

theorem mapMExcept_ok_mem {α β : Type} (f : α → Except SqlErrorCode β)
    (l : List α) (bs : List β) (h : mapMExcept f l = .ok bs) :
    ∀ b ∈ bs, ∃ a ∈ l, f a = .ok b := by
  induction l generalizing bs with
  | nil =>
    cases h
    intro b hb
    cases hb
  | cons x xs ih =>
    rw [mapMExcept] at h
    cases hx : f x with
    | error e => rw [hx] at h; cases h
    | ok b0 =>
      rw [hx] at h
      cases hxs : mapMExcept f xs with
      | error e => rw [hxs] at h; cases h
      | ok bs' =>
        rw [hxs] at h
        cases h
        intro b hb
        rcases List.mem_cons.mp hb with rfl | hb'
        · exact ⟨x, List.mem_cons_self _ _, hx⟩
        · obtain ⟨a, ha, hfa⟩ := ih bs' hxs b hb'
          exact ⟨a, List.mem_cons_of_mem _ ha, hfa⟩

theorem resolveFromItem_meta_wf (snap : SchemaSnapshot) (node : FromItem)
    (r : ReferencedTable) (hwf : snapshotWF snap = true)
    (h : resolveFromItem snap node = .ok r) : tableWF r.meta = true := by
  unfold resolveFromItem at h
  split at h
  · cases h
  · cases hn : node.table with
    | none => rw [hn] at h; cases h
    | some tn =>
      rw [hn] at h
      dsimp only at h
      cases hj : (match node.joinKind with
        | some j => ensureSupportedJoinType j
        | none => Except.ok ()) with
      | error e => rw [hj] at h; cases h
      | ok u =>
        rw [hj] at h
        dsimp only at h
        cases hr : resolveTable snap tn node.db with
        | none => rw [hr] at h; cases h
        | some meta =>
          rw [hr] at h
          dsimp only at h
          cases h
          exact resolveTable_wf snap hwf tn node.db meta hr

theorem refs_wf (ast : SelectAst) (snap : SchemaSnapshot)
    (refs : List ReferencedTable) (hwf : snapshotWF snap = true)
    (h : resolveReferencedTables ast snap = .ok refs) :
    ∀ r ∈ refs, tableWF r.meta = true := by
  intro r hr
  unfold resolveReferencedTables at h
  cases hfi : ast.fromItems with
  | none =>
    rw [hfi] at h
    cases h
    cases hr
  | some items =>
    rw [hfi] at h
    obtain ⟨a, _ha, hfa⟩ := mapMExcept_ok_mem _ _ _ h r hr
    exact resolveFromItem_meta_wf snap a r hwf hfa

/-! Idempotence of the column validator. -/

theorem toAstIdentifier_ne_star (s : String) : toAstIdentifier s ≠ "*" := by
  intro h
  have hd : (toAstIdentifier s).data = "*".data := congrArg String.data h
  rw [show (toAstIdentifier s).data =
    '"' :: (escapeQuotes (stripOuterQuotesChars (trimChars s.data)) ++ ['"'])
    from rfl] at hd
  cases hd

theorem aliasToTable_values (refs : List ReferencedTable) :
    ∀ (acc : List (String × SchemaTable)) (k : String) (v : SchemaTable),
      mapGet (refs.foldl (fun m t => mapSet m (normalize t.aliasName) t.meta) acc) k
        = some v →
      mapGet acc k = some v ∨ ∃ r ∈ refs, v = r.meta := by
  induction refs with
  | nil => intro acc k v h; exact Or.inl h
  | cons r rest ih =>
    intro acc k v h
    rw [List.foldl_cons] at h
    rcases ih _ k v h with h' | ⟨r', hr', rfl⟩
    · rcases mapGet_mapSet_cases _ _ _ _ _ h' with ⟨_, rfl⟩ | h''
      · exact Or.inr ⟨r, List.mem_cons_self _ _, rfl⟩
      · exact Or.inl h''
    · exact Or.inr ⟨r', List.mem_cons_of_mem _ hr', rfl⟩

/-- Applying the per-node column check to its own output returns the output
unchanged, provided the schema metadata in scope is well formed. -/
theorem checkColumnRef_idem (ctx : ColumnCtx)
    (hwfA : ∀ k m, mapGet ctx.aliasToTable k = some m → tableWF m = true)
    (hwfR : ∀ r ∈ ctx.referencedTables, tableWF r.meta = true)
    (tbl : Option String) (col col' : ColField)
    (h : checkColumnRef ctx tbl col = .ok col') :
    checkColumnRef ctx tbl col' = .ok col' := by
  unfold checkColumnRef at h
  by_cases hstar : extractColumnName col = "*"
  · rw [if_pos hstar] at h
    cases h
  · rw [if_neg hstar] at h
    by_cases hsens : sensitiveMatch (normalize (extractColumnName col)) = true
    · rw [if_pos hsens] at h
      cases h
    · rw [if_neg hsens] at h
      rw [Bool.not_eq_true] at hsens
      cases tbl with
      | some tbl0 =>
        dsimp only at h
        cases hmeta : (match mapGet ctx.aliasToTable (normalize tbl0) with
          | some m => some m
          | none =>
            match (mapGet ctx.tableNameToAliases (normalize tbl0)).getD [] with
            | [a] => mapGet ctx.aliasToTable (normalize a)
            | _ => none) with
        | none => rw [hmeta] at h; cases h
        | some meta =>
          rw [hmeta] at h
          dsimp only at h
          have hwfM : tableWF meta = true := by
            cases hm0 : mapGet ctx.aliasToTable (normalize tbl0) with
            | some m =>
              rw [hm0] at hmeta
              exact hwfA _ _ (by rw [hm0, Option.some_inj.mp hmeta])
            | none =>
              rw [hm0] at hmeta
              dsimp only at hmeta
              cases ha : (mapGet ctx.tableNameToAliases (normalize tbl0)).getD [] with
              | nil => rw [ha] at hmeta; cases hmeta
              | cons a rest =>
                cases rest with
                | nil =>
                  rw [ha] at hmeta
                  exact hwfA _ _ hmeta
                | cons b rest' => rw [ha] at hmeta; cases hmeta
          by_cases hmem : meta.columnsLower.contains (normalize (extractColumnName col)) = true
          · rw [if_neg (by rw [hmem]; decide)] at h
            cases hcan : canonicalColumnName meta (normalize (extractColumnName col)) with
            | none =>
              rw [hcan] at h
              cases h
              unfold checkColumnRef
              rw [if_neg hstar, if_neg (by rw [hsens]; exact Bool.false_ne_true)]
              dsimp only
              rw [hmeta]
              dsimp only
              rw [if_neg (by rw [hmem]; decide), hcan]
            | some v =>
              rw [hcan] at h
              cases h
              have hnv : normalize v = normalize (extractColumnName col) :=
                (tableWF_parts meta hwfM).1 _ _ hcan
              have hext : extractColumnName (setColumnName v) = toAstIdentifier v := rfl
              unfold checkColumnRef
              rw [hext]
              rw [if_neg (toAstIdentifier_ne_star v)]
              rw [normalize_toAstIdentifier, hnv]
              rw [if_neg (by rw [hsens]; exact Bool.false_ne_true)]
              dsimp only
              rw [hmeta]
              dsimp only
              rw [if_neg (by rw [hmem]; decide), hcan]
          · rw [Bool.not_eq_true] at hmem
            rw [if_pos (by rw [hmem]; rfl)] at h
            cases h
      | none =>
        dsimp only at h
        by_cases halias : ctx.selectAliases.contains (normalize (extractColumnName col)) = true
        · rw [if_pos halias] at h
          cases h
          unfold checkColumnRef
          rw [if_neg hstar, if_neg (by rw [hsens]; exact Bool.false_ne_true)]
          dsimp only
          rw [if_pos halias]
        · rw [if_neg (by rw [Bool.not_eq_true] at halias; rw [halias]; exact Bool.false_ne_true)] at h
          by_cases hempty : ctx.referencedTables.isEmpty = true
          · rw [if_pos hempty] at h
            cases h
          · rw [if_neg (by rw [Bool.not_eq_true] at hempty; rw [hempty]; exact Bool.false_ne_true)] at h
            cases hcand : ctx.referencedTables.filter
                (fun t => t.meta.columnsLower.contains (normalize (extractColumnName col))) with
            | nil => rw [hcand] at h; cases h
            | cons t0 rest =>
              cases rest with
              | cons t1 rest' => rw [hcand] at h; cases h
              | nil =>
                rw [hcand] at h
                dsimp only at h
                have ht0mem : t0 ∈ ctx.referencedTables := by
                  have : t0 ∈ ctx.referencedTables.filter
                      (fun t => t.meta.columnsLower.contains (normalize (extractColumnName col))) := by
                    rw [hcand]
                    exact List.mem_cons_self _ _
                  exact List.mem_of_mem_filter this
                have hwfT : tableWF t0.meta = true := hwfR t0 ht0mem
                cases hcan : canonicalColumnName t0.meta (normalize (extractColumnName col)) with
                | none =>
                  rw [hcan] at h
                  cases h
                  unfold checkColumnRef
                  rw [if_neg hstar, if_neg (by rw [hsens]; exact Bool.false_ne_true)]
                  dsimp only
                  rw [if_neg (by rw [Bool.not_eq_true] at halias; rw [halias]; exact Bool.false_ne_true)]
                  rw [if_neg (by rw [Bool.not_eq_true] at hempty; rw [hempty]; exact Bool.false_ne_true)]
                  rw [hcand]
                  dsimp only
                  rw [hcan]
                | some v =>
                  rw [hcan] at h
                  cases h
                  have hnv : normalize v = normalize (extractColumnName col) :=
                    (tableWF_parts t0.meta hwfT).1 _ _ hcan
                  unfold checkColumnRef
                  rw [show extractColumnName (setColumnName v) = toAstIdentifier v from rfl]
                  rw [if_neg (toAstIdentifier_ne_star v)]
                  rw [normalize_toAstIdentifier, hnv]
                  rw [if_neg (by rw [hsens]; exact Bool.false_ne_true)]
                  dsimp only
                  rw [if_neg (by rw [Bool.not_eq_true] at halias; rw [halias]; exact Bool.false_ne_true)]
                  rw [if_neg (by rw [Bool.not_eq_true] at hempty; rw [hempty]; exact Bool.false_ne_true)]
                  rw [hcand]
                  dsimp only
                  rw [hcan]

theorem mapMExcept_idem {α : Type} (f : α → Except SqlErrorCode α)
    (hid : ∀ x y, f x = .ok y → f y = .ok y) (l bs : List α)
    (h : mapMExcept f l = .ok bs) : mapMExcept f bs = .ok bs :=
  mapMExcept_of_all_ok f bs (fun b hb => by
    obtain ⟨a, _, ha⟩ := mapMExcept_ok_mem f l bs h b hb
    exact hid a b ha)

theorem walkExpr_idem (ctx : ColumnCtx)
    (hwfA : ∀ k m, mapGet ctx.aliasToTable k = some m → tableWF m = true)
    (hwfR : ∀ r ∈ ctx.referencedTables, tableWF r.meta = true) :
    ∀ (e e' : Expr), walkExpr ctx e = .ok e' → walkExpr ctx e' = .ok e' := by
  intro e
  induction e with
  | varParam p i => intro e' h; cases h
  | columnRef table col =>
    intro e' h
    rw [walkExpr] at h
    cases hc : checkColumnRef ctx table col with
    | error er => rw [hc] at h; cases h
    | ok col' =>
      rw [hc] at h
      dsimp only at h
      injection h with h
      subst h
      rw [walkExpr, checkColumnRef_idem ctx hwfA hwfR table col col' hc]
  | binary op l r ihl ihr =>
    intro e' h
    rw [walkExpr] at h
    cases hl : walkExpr ctx l with
    | error er => rw [hl] at h; cases h
    | ok l' =>
      rw [hl] at h
      dsimp only at h
      cases hr : walkExpr ctx r with
      | error er => rw [hr] at h; cases h
      | ok r' =>
        rw [hr] at h
        dsimp only at h
        injection h with h
        subst h
        rw [walkExpr, ihl l' hl]
        dsimp only
        rw [ihr r' hr]
  | numLit n => intro e' h; rw [walkExpr] at h; injection h with h; subst h; rfl
  | strLit s => intro e' h; rw [walkExpr] at h; injection h with h; subst h; rfl

theorem walkOptExpr_idem (ctx : ColumnCtx)
    (hwfA : ∀ k m, mapGet ctx.aliasToTable k = some m → tableWF m = true)
    (hwfR : ∀ r ∈ ctx.referencedTables, tableWF r.meta = true)
    (o o' : Option Expr) (h : walkOptExpr ctx o = .ok o') :
    walkOptExpr ctx o' = .ok o' := by
  cases o with
  | none => rw [walkOptExpr] at h; injection h with h; subst h; rfl
  | some e =>
    rw [walkOptExpr] at h
    cases he : walkExpr ctx e with
    | error er => rw [he] at h; cases h
    | ok e' =>
      rw [he] at h
      dsimp only at h
      injection h with h
      subst h
      rw [walkOptExpr, walkExpr_idem ctx hwfA hwfR e e' he]

theorem walkSelectColumn_idem (ctx : ColumnCtx)
    (hwfA : ∀ k m, mapGet ctx.aliasToTable k = some m → tableWF m = true)
    (hwfR : ∀ r ∈ ctx.referencedTables, tableWF r.meta = true)
    (c c' : SelectColumn) (h : walkSelectColumn ctx c = .ok c') :
    walkSelectColumn ctx c' = .ok c' := by
  rw [walkSelectColumn] at h
  cases he : walkExpr ctx c.expr with
  | error er => rw [he] at h; cases h
  | ok e' =>
    rw [he] at h
    dsimp only at h
    injection h with h
    subst h
    rw [walkSelectColumn]
    dsimp only
    rw [walkExpr_idem ctx hwfA hwfR _ e' he]

theorem walkFromItem_idem (ctx : ColumnCtx)
    (hwfA : ∀ k m, mapGet ctx.aliasToTable k = some m → tableWF m = true)
    (hwfR : ∀ r ∈ ctx.referencedTables, tableWF r.meta = true)
    (f f' : FromItem) (h : walkFromItem ctx f = .ok f') :
    walkFromItem ctx f' = .ok f' := by
  rw [walkFromItem] at h
  cases ho : walkOptExpr ctx f.onCond with
  | error er => rw [ho] at h; cases h
  | ok on' =>
    rw [ho] at h
    dsimp only at h
    injection h with h
    subst h
    rw [walkFromItem]
    dsimp only
    rw [walkOptExpr_idem ctx hwfA hwfR _ on' ho]

theorem walkFromClause_idem (ctx : ColumnCtx)
    (hwfA : ∀ k m, mapGet ctx.aliasToTable k = some m → tableWF m = true)
    (hwfR : ∀ r ∈ ctx.referencedTables, tableWF r.meta = true)
    (o o' : Option (List FromItem)) (h : walkFromClause ctx o = .ok o') :
    walkFromClause ctx o' = .ok o' := by
  cases o with
  | none => rw [walkFromClause] at h; injection h with h; subst h; rfl
  | some items =>
    rw [walkFromClause] at h
    cases hi : mapMExcept (walkFromItem ctx) items with
    | error er => rw [hi] at h; cases h
    | ok items' =>
      rw [hi] at h
      dsimp only at h
      injection h with h
      subst h
      rw [walkFromClause,
        mapMExcept_idem _ (walkFromItem_idem ctx hwfA hwfR) items items' hi]

theorem walkSelectColumn_asName (ctx : ColumnCtx) (c c' : SelectColumn)
    (h : walkSelectColumn ctx c = .ok c') : c'.asName = c.asName := by
  rw [walkSelectColumn] at h
  cases he : walkExpr ctx c.expr with
  | error er => rw [he] at h; cases h
  | ok e' =>
    rw [he] at h
    dsimp only at h
    injection h with h
    subst h
    rfl

theorem mapMExcept_walk_asName (ctx : ColumnCtx) :
    ∀ (cols cols' : List SelectColumn),
      mapMExcept (walkSelectColumn ctx) cols = .ok cols' →
      cols'.map (fun c => c.asName) = cols.map (fun c => c.asName) := by
  intro cols
  induction cols with
  | nil => intro cols' h; cases h; rfl
  | cons c cs ih =>
    intro cols' h
    rw [mapMExcept] at h
    cases hc : walkSelectColumn ctx c with
    | error er => rw [hc] at h; cases h
    | ok c' =>
      rw [hc] at h
      dsimp only at h
      cases hcs : mapMExcept (walkSelectColumn ctx) cs with
      | error er => rw [hcs] at h; cases h
      | ok cs' =>
        rw [hcs] at h
        dsimp only at h
        injection h with h
        subst h
        rw [List.map_cons, List.map_cons, walkSelectColumn_asName ctx c c' hc,
          ih cs' hcs]

theorem selectAliases_congr :
    ∀ (cols cols' : List SelectColumn),
      cols.map (fun c => c.asName) = cols'.map (fun c => c.asName) →
      ∀ (acc : List String),
        cols.foldl
          (fun acc col =>
            match col.asName with
            | some a => setAdd acc (normalize a)
            | none => acc) acc =
        cols'.foldl
          (fun acc col =>
            match col.asName with
            | some a => setAdd acc (normalize a)
            | none => acc) acc := by
  intro cols
  induction cols with
  | nil =>
    intro cols' h acc
    cases cols' with
    | nil => rfl
    | cons d ds => cases h
  | cons c cs ih =>
    intro cols' h acc
    cases cols' with
    | nil => cases h
    | cons d ds =>
      rw [List.map_cons, List.map_cons] at h
      injection h with h1 h2
      rw [List.foldl_cons, List.foldl_cons, h1]
      exact ih ds h2 _

theorem buildColumnCtx_congr (ast ast' : SelectAst)
    (refs : List ReferencedTable)
    (h : ast'.columns.map (fun c => c.asName) = ast.columns.map (fun c => c.asName)) :
    buildColumnCtx ast' refs = buildColumnCtx ast refs := by
  unfold buildColumnCtx
  dsimp only
  rw [selectAliases_congr ast'.columns ast.columns h]

theorem ctx_aliasToTable_wf (ast : SelectAst) (refs : List ReferencedTable)
    (hR : ∀ r ∈ refs, tableWF r.meta = true) :
    ∀ k m, mapGet (buildColumnCtx ast refs).aliasToTable k = some m →
      tableWF m = true := by
  intro k m h
  have h' : mapGet (refs.foldl (fun m t => mapSet m (normalize t.aliasName) t.meta) []) k
      = some m := h
  rcases aliasToTable_values refs [] k m h' with h0 | ⟨r, hr, rfl⟩
  · cases h0
  · exact hR r hr

/-- `validateColumns` applied to its own output succeeds and returns the
output unchanged, provided every referenced table is well formed. -/
theorem validateColumns_idem (ast ast' : SelectAst) (refs : List ReferencedTable)
    (hR : ∀ r ∈ refs, tableWF r.meta = true)
    (h : validateColumns ast refs = .ok ast') :
    validateColumns ast' refs = .ok ast' := by
  have hwfA := ctx_aliasToTable_wf ast refs hR
  have hwfR : ∀ r ∈ (buildColumnCtx ast refs).referencedTables, tableWF r.meta = true := hR
  unfold validateColumns at h
  dsimp only at h
  cases h1 : mapMExcept (walkSelectColumn (buildColumnCtx ast refs)) ast.columns with
  | error e => rw [h1] at h; cases h
  | ok columns =>
  rw [h1] at h
  dsimp only at h
  cases h2 : walkFromClause (buildColumnCtx ast refs) ast.fromItems with
  | error e => rw [h2] at h; cases h
  | ok fromItems =>
  rw [h2] at h
  dsimp only at h
  cases h3 : walkOptExpr (buildColumnCtx ast refs) ast.whereCond with
  | error e => rw [h3] at h; cases h
  | ok whereCond =>
  rw [h3] at h
  dsimp only at h
  cases h4 : mapMExcept (walkExpr (buildColumnCtx ast refs)) ast.groupBy with
  | error e => rw [h4] at h; cases h
  | ok groupBy =>
  rw [h4] at h
  dsimp only at h
  cases h5 : walkOptExpr (buildColumnCtx ast refs) ast.having with
  | error e => rw [h5] at h; cases h
  | ok having =>
  rw [h5] at h
  dsimp only at h
  cases h6 : mapMExcept (walkExpr (buildColumnCtx ast refs)) ast.orderBy with
  | error e => rw [h6] at h; cases h
  | ok orderBy =>
  rw [h6] at h
  dsimp only at h
  injection h with h
  subst h
  have hctx : buildColumnCtx { ast with
      columns := columns, fromItems := fromItems, whereCond := whereCond,
      groupBy := groupBy, having := having, orderBy := orderBy } refs
      = buildColumnCtx ast refs :=
    buildColumnCtx_congr ast _ refs (mapMExcept_walk_asName _ _ _ h1)
  unfold validateColumns
  dsimp only
  rw [hctx]
  rw [mapMExcept_idem _ (walkSelectColumn_idem _ hwfA hwfR) _ _ h1]
  dsimp only
  rw [walkFromClause_idem _ hwfA hwfR _ _ h2]
  dsimp only
  rw [walkOptExpr_idem _ hwfA hwfR _ _ h3]
  dsimp only
  rw [mapMExcept_idem _ (walkExpr_idem _ hwfA hwfR) _ _ h4]
  dsimp only
  rw [walkOptExpr_idem _ hwfA hwfR _ _ h5]
  dsimp only
  rw [mapMExcept_idem _ (walkExpr_idem _ hwfA hwfR) _ _ h6]

/-! Lookup and value lemmas for the association-list maps, used for the
tenant targets of the re-run pipeline. -/

theorem mapValues_mapSet_sub {β : Type} (m : List (String × β)) (k : String)
    (v : β) : ∀ x ∈ mapValues (mapSet m k v), x = v ∨ x ∈ mapValues m := by
  induction m with
  | nil =>
    intro x hx
    rcases List.mem_singleton.mp hx with rfl
    exact Or.inl rfl
  | cons p rest ih =>
    intro x hx
    rw [mapSet] at hx
    by_cases hk : p.1 = k
    · rw [if_pos hk] at hx
      rcases List.mem_cons.mp hx with rfl | hx'
      · exact Or.inl rfl
      · exact Or.inr (List.mem_cons_of_mem _ hx')
    · rw [if_neg hk] at hx
      rcases List.mem_cons.mp hx with rfl | hx'
      · exact Or.inr (List.mem_cons_self _ _)
      · rcases ih x hx' with h | h
        · exact Or.inl h
        · exact Or.inr (List.mem_cons_of_mem _ h)

theorem dedupeTargets_sub (ts : List TenantTarget) :
    ∀ t ∈ dedupeTargets ts, t ∈ ts := by
  have main : ∀ (l : List TenantTarget) (acc : List (String × TenantTarget))
      (x : TenantTarget),
      x ∈ mapValues (l.foldl (fun m t => mapSet m (lowerString t.aliasName) t) acc) →
      x ∈ mapValues acc ∨ x ∈ l := by
    intro l
    induction l with
    | nil => intro acc x hx; exact Or.inl hx
    | cons t rest ih =>
      intro acc x hx
      rw [List.foldl_cons] at hx
      rcases ih _ x hx with hx' | hx'
      · rcases mapValues_mapSet_sub acc _ t x hx' with rfl | h
        · exact Or.inr (List.mem_cons_self _ _)
        · exact Or.inl h
      · exact Or.inr (List.mem_cons_of_mem _ hx')
  intro t ht
  rcases main ts [] t ht with h | h
  · cases h
  · exact h

theorem mapSet_ne_nil {β : Type} (m : List (String × β)) (k : String) (v : β) :
    mapSet m k v ≠ [] := by
  cases m with
  | nil => exact List.cons_ne_nil _ _
  | cons p rest =>
    rw [mapSet]
    by_cases hk : p.1 = k
    · rw [if_pos hk]; exact List.cons_ne_nil _ _
    · rw [if_neg hk]; exact List.cons_ne_nil _ _

theorem dedupeTargets_ne_nil (ts : List TenantTarget) (h : ts ≠ []) :
    dedupeTargets ts ≠ [] := by
  have main : ∀ (l : List TenantTarget) (acc : List (String × TenantTarget)),
      acc ≠ [] →
      l.foldl (fun m t => mapSet m (lowerString t.aliasName) t) acc ≠ [] := by
    intro l
    induction l with
    | nil => intro acc ha; exact ha
    | cons t rest ih =>
      intro acc ha
      rw [List.foldl_cons]
      exact ih _ (mapSet_ne_nil _ _ _)
  cases ts with
  | nil => exact absurd rfl h
  | cons t rest =>
    rw [dedupeTargets, List.foldl_cons]
    intro hv
    exact main rest _ (mapSet_ne_nil [] _ _)
      (List.map_eq_nil_iff.mp hv)

theorem mapGet_foldl_mapSet_of_not_mem {α β : Type} (key : α → String)
    (val : α → β) (l : List α) :
    ∀ (acc : List (String × β)) (k : String), (∀ a ∈ l, key a ≠ k) →
      mapGet (l.foldl (fun m t => mapSet m (key t) (val t)) acc) k = mapGet acc k := by
  induction l with
  | nil => intro acc k _; rfl
  | cons x xs ih =>
    intro acc k hk
    rw [List.foldl_cons, ih _ k (fun a ha => hk a (List.mem_cons_of_mem _ ha)),
      mapGet_mapSet_ne _ _ _ _ (hk x (List.mem_cons_self _ _))]

theorem mapGet_foldl_mapSet_nodup {α β : Type} (key : α → String) (val : α → β) :
    ∀ (l : List α) (acc : List (String × β)) (r : α), (l.map key).Nodup → r ∈ l →
      mapGet (l.foldl (fun m t => mapSet m (key t) (val t)) acc) (key r)
        = some (val r) := by
  intro l
  induction l with
  | nil => intro acc r _ hr; cases hr
  | cons x xs ih =>
    intro acc r hnd hr
    rw [List.map_cons, List.nodup_cons] at hnd
    rcases List.mem_cons.mp hr with rfl | hr'
    · rw [List.foldl_cons,
        mapGet_foldl_mapSet_of_not_mem key val xs _ _
          (fun a ha hak => hnd.1 (by rw [← hak]; exact List.mem_map_of_mem key ha)),
        mapGet_mapSet_self]
    · rw [List.foldl_cons]
      exact ih _ r hnd.2 hr'

/-! Reference resolution only looks at the join metadata of a `from` node,
never at its `ON` condition; the walk and the tenant injector only rewrite
`ON` conditions. -/

def fromShape (f : FromItem) :
    Bool × Option String × Option String × Option String × Option String :=
  (f.subquery, f.table, f.db, f.joinKind, f.asName)

theorem resolveFromItem_shape (snap : SchemaSnapshot) (f g : FromItem)
    (h : fromShape f = fromShape g) :
    resolveFromItem snap f = resolveFromItem snap g := by
  rw [fromShape, fromShape, Prod.mk.injEq, Prod.mk.injEq, Prod.mk.injEq,
    Prod.mk.injEq] at h
  obtain ⟨h1, h2, h3, h4, h5⟩ := h
  rw [resolveFromItem, resolveFromItem, h1, h2, h3, h4, h5]

theorem mapMExcept_resolve_congr (snap : SchemaSnapshot) :
    ∀ (items items' : List FromItem),
      items'.map fromShape = items.map fromShape →
      mapMExcept (resolveFromItem snap) items'
        = mapMExcept (resolveFromItem snap) items := by
  intro items
  induction items with
  | nil =>
    intro items' h
    cases items' with
    | nil => rfl
    | cons g gs => cases h
  | cons f fs ih =>
    intro items' h
    cases items' with
    | nil => cases h
    | cons g gs =>
      rw [List.map_cons, List.map_cons] at h
      injection h with h1 h2
      rw [mapMExcept, mapMExcept, resolveFromItem_shape snap g f h1, ih gs h2]

theorem walkFromItem_shape (ctx : ColumnCtx) (f f' : FromItem)
    (h : walkFromItem ctx f = .ok f') : fromShape f' = fromShape f := by
  rw [walkFromItem] at h
  cases ho : walkOptExpr ctx f.onCond with
  | error e => rw [ho] at h; cases h
  | ok on' =>
    rw [ho] at h
    dsimp only at h
    injection h with h
    subst h
    rfl

theorem mapMExcept_walkFromItem_shape (ctx : ColumnCtx) :
    ∀ (items items' : List FromItem),
      mapMExcept (walkFromItem ctx) items = .ok items' →
      items'.map fromShape = items.map fromShape := by
  intro items
  induction items with
  | nil => intro items' h; cases h; rfl
  | cons f fs ih =>
    intro items' h
    rw [mapMExcept] at h
    cases hf : walkFromItem ctx f with
    | error e => rw [hf] at h; cases h
    | ok f' =>
      rw [hf] at h
      dsimp only at h
      cases hfs : mapMExcept (walkFromItem ctx) fs with
      | error e => rw [hfs] at h; cases h
      | ok fs' =>
        rw [hfs] at h
        dsimp only at h
        injection h with h
        subst h
        rw [List.map_cons, List.map_cons, walkFromItem_shape ctx f f' hf, ih fs' hfs]

theorem attachToJoinOnAt_shape (items : List FromItem) (i : Nat) (c : Expr) :
    (attachToJoinOnAt items i c).map fromShape = items.map fromShape := by
  rw [attachToJoinOnAt]
  cases hg : items.get? i with
  | none => rfl
  | some f =>
    dsimp only
    rw [List.map_set]
    apply List.ext_getElem?
    intro n
    by_cases hn : i = n
    · subst hn
      have hlt : i < items.length := (List.get?_eq_some.mp hg).1
      rw [List.getElem?_set_eq_of_lt _ (by simpa using hlt)]
      rw [List.getElem?_map, ← List.get?_eq_getElem?, hg]
      rfl
    · rw [List.getElem?_set_ne hn]

theorem tenantStep_shape (byAlias : List (String × Nat)) (paramIndex : Int)
    (acc : List FromItem × List Expr) (t : TenantTarget) :
    (tenantStep byAlias paramIndex acc t).1.map fromShape
      = acc.1.map fromShape := by
  rw [tenantStep]
  cases t.joinType with
  | none => rfl
  | some j =>
    cases h : mapGet byAlias (normalize t.aliasName) with
    | none => rfl
    | some i => exact attachToJoinOnAt_shape acc.1 i _

theorem tenantFold_shape (byAlias : List (String × Nat)) (paramIndex : Int) :
    ∀ (l : List TenantTarget) (acc : List FromItem × List Expr),
      (l.foldl (tenantStep byAlias paramIndex) acc).1.map fromShape
        = acc.1.map fromShape := by
  intro l
  induction l with
  | nil => intro acc; rfl
  | cons t ts ih =>
    intro acc
    rw [List.foldl_cons, ih, tenantStep_shape]

/-! The shape of the rewritten `limit` node, and the `OFFSET` rejection. -/

theorem applyPagination_ok_shape (ast : SelectAst) (page pageSize hardCap : Int)
    (pg : PaginationRewriteResult) (ast' : SelectAst)
    (h : applyPagination ast page pageSize hardCap = .ok (pg, ast')) :
    ast' = { ast with limit := some (LimitNode.mk "offset"
      [LimitEntry.mk "number" pg.fetchLimit,
       LimitEntry.mk "number" ((page - 1) * pg.displayLimit)]) } := by
  unfold applyPagination at h
  dsimp only at h
  split at h
  · cases h
  · cases hm : readModelLimit ast.limit with
    | error e => rw [hm] at h; cases h
    | ok modelLimit =>
      rw [hm] at h
      dsimp only at h
      split at h
      · cases h
      · injection h with h
        injection h with hpg hast
        subst hpg
        subst hast
        rfl

theorem applyPagination_offset_err (ast : SelectAst) (page pageSize hardCap : Int)
    (L : LimitNode) (hl : ast.limit = some L) (hs : L.seperator = "offset")
    (hv : L.value.length > 1) :
    applyPagination ast page pageSize hardCap = .error .SQL_OFFSET_NOT_ALLOWED := by
  unfold applyPagination
  dsimp only
  rw [hl]
  dsimp only
  rw [if_pos (by rw [hs]; simp [hv])]

/-- The injected tenant predicate always fails the second column walk: its
column reference resolves, but its `$n` placeholder is a `var` node. -/
theorem walkExpr_tenantPred (ctx : ColumnCtx) (t : TenantTarget) (m : SchemaTable)
    (hlk : mapGet ctx.aliasToTable (normalize t.aliasName) = some m)
    (hsens : sensitiveMatch (normalize t.columnName) = false)
    (hcont : m.columnsLower.contains (normalize t.columnName) = true) :
    walkExpr ctx (tenantPredicate t 1) = .error .SQL_PARAMETER_NOT_ALLOWED := by
  have hc : ∃ c', checkColumnRef ctx (some t.aliasName)
      (.wrapped "default" (toAstIdentifier t.columnName)) = .ok c' := by
    unfold checkColumnRef
    rw [show extractColumnName (.wrapped "default" (toAstIdentifier t.columnName))
      = toAstIdentifier t.columnName from rfl]
    rw [if_neg (toAstIdentifier_ne_star _), normalize_toAstIdentifier]
    rw [if_neg (by rw [hsens]; exact Bool.false_ne_true)]
    dsimp only
    rw [hlk]
    dsimp only
    rw [if_neg (by rw [hcont]; decide)]
    cases hcan : canonicalColumnName m (normalize t.columnName) with
    | some v => exact ⟨_, rfl⟩
    | none => exact ⟨_, rfl⟩
  obtain ⟨c', hc⟩ := hc
  rw [tenantPredicate, eqExpr, tenantColumnRef, walkExpr, walkExpr, hc]
  dsimp only
  rw [show walkExpr ctx (orgParamExpression 1)
    = .error .SQL_PARAMETER_NOT_ALLOWED from rfl]

/-- `applyTenantFilter` on a nonempty target list, written as an explicit
function of the target fold. -/
theorem applyTenantFilter_spec (ast : SelectAst) (ts : List TenantTarget)
    (p : Int) (hne : ts.isEmpty = false) :
    ∃ (fn : List FromItem) (wcs : List Expr),
      (dedupeTargets ts).foldl
        (tenantStep (buildFromByAlias (ast.fromItems.getD [])) p)
        (ast.fromItems.getD [], []) = (fn, wcs) ∧
      applyTenantFilter ast ts p =
        { ast with
          fromItems := match ast.fromItems with
            | some _ => some fn
            | none => none
          whereCond := match wcs with
            | [] => ast.whereCond
            | c :: cs =>
              some (match ast.whereCond with
                | some ex => andExpr ex (cs.foldl andExpr c)
                | none => cs.foldl andExpr c) } := by
  cases hfw : (dedupeTargets ts).foldl
      (tenantStep (buildFromByAlias (ast.fromItems.getD [])) p)
      (ast.fromItems.getD [], []) with
  | mk fn wcs =>
    refine ⟨fn, wcs, rfl, ?_⟩
    rw [applyTenantFilter, if_neg (by rw [hne]; exact Bool.false_ne_true)]
    dsimp only
    rw [hfw]
    dsimp only
    cases wcs with
    | nil => dsimp only
    | cons c cs =>
      dsimp only
      cases hw : ast.whereCond <;> rfl

/-- The `from` list after the tenant fold, as `applyTenantFilter` stores it. -/
def tenantFromItems (fi : Option (List FromItem)) (fn : List FromItem) :
    Option (List FromItem) :=
  match fi with
  | some _ => some fn
  | none => none

/-- The `WHERE` condition after the tenant fold, as `applyTenantFilter`
combines it. -/
def tenantWhere (wc : Option Expr) (wcs : List Expr) : Option Expr :=
  match wcs with
  | [] => wc
  | c :: cs =>
    some (match wc with
      | some ex => andExpr ex (cs.foldl andExpr c)
      | none => cs.foldl andExpr c)

theorem tenantFromItems_none (fn : List FromItem) :
    tenantFromItems none fn = none := rfl

theorem tenantFromItems_some (its fn : List FromItem) :
    tenantFromItems (some its) fn = some fn := rfl

theorem tenantWhere_cons_none (c : Expr) (cs : List Expr) :
    tenantWhere none (c :: cs) = some (cs.foldl andExpr c) := rfl

theorem tenantWhere_cons_some (ex c : Expr) (cs : List Expr) :
    tenantWhere (some ex) (c :: cs) = some (andExpr ex (cs.foldl andExpr c)) := rfl

/-- `applyTenantFilter_spec` with the statement's fields spelled out, so the
rewritten record is in normal form. -/
theorem applyTenantFilter_fields_spec (w i : Bool) (cols : List SelectColumn)
    (fi : Option (List FromItem)) (wc : Option Expr) (gb : List Expr)
    (hv : Option Expr) (ob : List Expr) (lim : Option LimitNode)
    (ts : List TenantTarget) (p : Int) (hne : ts.isEmpty = false) :
    ∃ (fn : List FromItem) (wcs : List Expr),
      (dedupeTargets ts).foldl
        (tenantStep (buildFromByAlias (fi.getD [])) p) (fi.getD [], []) = (fn, wcs) ∧
      applyTenantFilter ⟨w, i, cols, fi, wc, gb, hv, ob, lim⟩ ts p =
        ⟨w, i, cols, tenantFromItems fi fn, tenantWhere wc wcs, gb, hv, ob, lim⟩ := by
  cases hfw : (dedupeTargets ts).foldl
      (tenantStep (buildFromByAlias (fi.getD []))   p) (fi.getD [], []) with
  | mk fn wcs =>
    refine ⟨fn, wcs, rfl, ?_⟩
    rw [applyTenantFilter, if_neg (by rw [hne]; exact Bool.false_ne_true)]
    dsimp only
    rw [hfw]
    dsimp only
    cases fi <;> cases wcs <;> cases wc <;> rfl

/-- `validateColumns` run again on its own output with a replaced `limit`
succeeds and changes nothing (the walk never reads or writes `limit`). -/
theorem validateColumns_limit (ast ast' : SelectAst) (refs : List ReferencedTable)
    (L : Option LimitNode)
    (hR : ∀ r ∈ refs, tableWF r.meta = true)
    (h : validateColumns ast refs = .ok ast') :
    validateColumns { ast' with limit := L } refs = .ok { ast' with limit := L } := by
  have hwfA := ctx_aliasToTable_wf ast refs hR
  have hwfR : ∀ r ∈ (buildColumnCtx ast refs).referencedTables, tableWF r.meta = true := hR
  unfold validateColumns at h
  dsimp only at h
  cases h1 : mapMExcept (walkSelectColumn (buildColumnCtx ast refs)) ast.columns with
  | error e => rw [h1] at h; cases h
  | ok columns =>
  rw [h1] at h
  dsimp only at h
  cases h2 : walkFromClause (buildColumnCtx ast refs) ast.fromItems with
  | error e => rw [h2] at h; cases h
  | ok fromItems =>
  rw [h2] at h
  dsimp only at h
  cases h3 : walkOptExpr (buildColumnCtx ast refs) ast.whereCond with
  | error e => rw [h3] at h; cases h
  | ok whereCond =>
  rw [h3] at h
  dsimp only at h
  cases h4 : mapMExcept (walkExpr (buildColumnCtx ast refs)) ast.groupBy with
  | error e => rw [h4] at h; cases h
  | ok groupBy =>
  rw [h4] at h
  dsimp only at h
  cases h5 : walkOptExpr (buildColumnCtx ast refs) ast.having with
  | error e => rw [h5] at h; cases h
  | ok having =>
  rw [h5] at h
  dsimp only at h
  cases h6 : mapMExcept (walkExpr (buildColumnCtx ast refs)) ast.orderBy with
  | error e => rw [h6] at h; cases h
  | ok orderBy =>
  rw [h6] at h
  dsimp only at h
  injection h with h
  subst h
  have hctx : buildColumnCtx { { ast with
      columns := columns, fromItems := fromItems, whereCond := whereCond,
      groupBy := groupBy, having := having, orderBy := orderBy } with
      limit := L } refs = buildColumnCtx ast refs :=
    buildColumnCtx_congr ast _ refs (mapMExcept_walk_asName _ _ _ h1)
  unfold validateColumns
  dsimp only
  rw [hctx]
  rw [mapMExcept_idem _ (walkSelectColumn_idem _ hwfA hwfR) _ _ h1]
  dsimp only
  rw [walkFromClause_idem _ hwfA hwfR _ _ h2]
  dsimp only
  rw [walkOptExpr_idem _ hwfA hwfR _ _ h3]
  dsimp only
  rw [mapMExcept_idem _ (walkExpr_idem _ hwfA hwfR) _ _ h4]
  dsimp only
  rw [walkOptExpr_idem _ hwfA hwfR _ _ h5]
  dsimp only
  rw [mapMExcept_idem _ (walkExpr_idem _ hwfA hwfR) _ _ h6]

theorem walkExpr_foldl_and_err (ctx : ColumnCtx) :
    ∀ (cs : List Expr) (c : Expr),
      walkExpr ctx c = .error .SQL_PARAMETER_NOT_ALLOWED →
      walkExpr ctx (cs.foldl andExpr c) = .error .SQL_PARAMETER_NOT_ALLOWED := by
  intro cs
  induction cs with
  | nil => intro c h; exact h
  | cons x xs ih =>
    intro c h
    rw [List.foldl_cons]
    exact ih _ (walkExpr_and_left_err ctx c x h)

/-- `walkFromItem` fixes an item exactly when its `ON` walk fixes its
condition. -/
theorem walkFromItem_ok_self (ctx : ColumnCtx) (f : FromItem)
    (h : walkFromItem ctx f = .ok f) :
    walkOptExpr ctx f.onCond = .ok f.onCond := by
  rw [walkFromItem] at h
  cases ho : walkOptExpr ctx f.onCond with
  | error e => rw [ho] at h; cases h
  | ok on' =>
    rw [ho] at h
    dsimp only at h
    injection h with h
    exact congrArg Except.ok (congrArg FromItem.onCond h)

theorem walkFromItem_err_on (ctx : ColumnCtx) (f : FromItem)
    (h : walkFromItem ctx f = .error .SQL_PARAMETER_NOT_ALLOWED) :
    walkOptExpr ctx f.onCond = .error .SQL_PARAMETER_NOT_ALLOWED := by
  rw [walkFromItem] at h
  cases ho : walkOptExpr ctx f.onCond with
  | error e =>
    rw [ho] at h
    dsimp only at h
    injection h with h
    exact congrArg Except.error h
  | ok on' => rw [ho] at h; cases h

/-- Attaching a tenant predicate to one join keeps every item either stable
under the walk or failing with the parameter error, and makes the touched
item fail. -/
theorem attach_inv (ctx : ColumnCtx) (items : List FromItem) (i : Nat)
    (cond : Expr) (hlt : i < items.length)
    (hcond : walkExpr ctx cond = .error .SQL_PARAMETER_NOT_ALLOWED)
    (hall : ∀ f ∈ items,
      walkFromItem ctx f = .ok f ∨
      walkFromItem ctx f = .error .SQL_PARAMETER_NOT_ALLOWED) :
    (∀ f ∈ attachToJoinOnAt items i cond,
      walkFromItem ctx f = .ok f ∨
      walkFromItem ctx f = .error .SQL_PARAMETER_NOT_ALLOWED) ∧
    (∃ f ∈ attachToJoinOnAt items i cond,
      walkFromItem ctx f = .error .SQL_PARAMETER_NOT_ALLOWED) := by
  rw [attachToJoinOnAt]
  cases hg : items.get? i with
  | none =>
    rw [List.get?_eq_none] at hg
    omega
  | some f0 =>
    dsimp only
    have hf0mem : f0 ∈ items := List.get?_mem hg
    have hbad : walkFromItem ctx
        { f0 with onCond := match f0.onCond with
          | some existing => some (andExpr existing cond)
          | none => some cond } = .error .SQL_PARAMETER_NOT_ALLOWED := by
      cases ho : f0.onCond with
      | none =>
        rw [walkFromItem]
        dsimp only
        rw [show walkOptExpr ctx (some cond)
          = (match walkExpr ctx cond with
             | .error er => .error er
             | .ok e' => .ok (some e')) from rfl, hcond]
      | some ex =>
        have hex : walkExpr ctx ex = .ok ex ∨
            walkExpr ctx ex = .error .SQL_PARAMETER_NOT_ALLOWED := by
          rcases hall f0 hf0mem with hst | hbd
          · have := walkFromItem_ok_self ctx f0 hst
            rw [ho, walkOptExpr] at this
            cases hxe : walkExpr ctx ex with
            | error e => rw [hxe] at this; cases this
            | ok e' =>
              rw [hxe] at this
              dsimp only at this
              injection this with this
              injection this with this
              exact Or.inl (congrArg Except.ok this)
          · have := walkFromItem_err_on ctx f0 hbd
            rw [ho, walkOptExpr] at this
            cases hxe : walkExpr ctx ex with
            | error e =>
              rw [hxe] at this
              dsimp only at this
              injection this with this
              exact Or.inr (congrArg Except.error this)
            | ok e' => rw [hxe] at this; cases this
        rw [walkFromItem]
        dsimp only
        have hand : walkExpr ctx (andExpr ex cond)
            = .error .SQL_PARAMETER_NOT_ALLOWED := by
          rcases hex with hok | herr
          · exact walkExpr_and_right_err ctx ex ex cond hok hcond
          · exact walkExpr_and_left_err ctx ex cond herr
        rw [show walkOptExpr ctx (some (andExpr ex cond))
          = (match walkExpr ctx (andExpr ex cond) with
             | .error er => .error er
             | .ok e' => .ok (some e')) from rfl, hand]
    constructor
    · intro f hf
      rcases List.mem_or_eq_of_mem_set hf with hf' | rfl
      · exact hall f hf'
      · exact Or.inr hbad
    · refine ⟨_, @List.get?_mem _ _ i _ ?_, hbad⟩
      rw [List.get?_eq_getElem?]
      exact List.getElem?_set_eq_of_lt _ (by simpa using hlt)

theorem attachToJoinOnAt_length (items : List FromItem) (i : Nat) (c : Expr) :
    (attachToJoinOnAt items i c).length = items.length := by
  rw [attachToJoinOnAt]
  cases hg : items.get? i with
  | none => rfl
  | some f => exact List.length_set _ _ _

theorem tenantStep_inv (ctx : ColumnCtx) (byAlias : List (String × Nat)) (n : Nat)
    (hb : ∀ k i, mapGet byAlias k = some i → i < n)
    (acc : List FromItem × List Expr) (t : TenantTarget)
    (hlen : acc.1.length = n)
    (hitems : ∀ f ∈ acc.1,
      walkFromItem ctx f = .ok f ∨
      walkFromItem ctx f = .error .SQL_PARAMETER_NOT_ALLOWED)
    (hwcs : ∀ wc ∈ acc.2, walkExpr ctx wc = .error .SQL_PARAMETER_NOT_ALLOWED)
    (hgood : walkExpr ctx (tenantPredicate t 1) = .error .SQL_PARAMETER_NOT_ALLOWED) :
    (tenantStep byAlias 1 acc t).1.length = n ∧
    (∀ f ∈ (tenantStep byAlias 1 acc t).1,
      walkFromItem ctx f = .ok f ∨
      walkFromItem ctx f = .error .SQL_PARAMETER_NOT_ALLOWED) ∧
    (∀ wc ∈ (tenantStep byAlias 1 acc t).2,
      walkExpr ctx wc = .error .SQL_PARAMETER_NOT_ALLOWED) ∧
    ((tenantStep byAlias 1 acc t).2 ≠ [] ∨
     ∃ f ∈ (tenantStep byAlias 1 acc t).1,
       walkFromItem ctx f = .error .SQL_PARAMETER_NOT_ALLOWED) := by
  have hgood' : walkExpr ctx (eqExpr (tenantColumnRef t.aliasName t.columnName)
      (orgParamExpression 1)) = .error .SQL_PARAMETER_NOT_ALLOWED := hgood
  rw [tenantStep]
  cases t.joinType with
  | none =>
    dsimp only
    refine ⟨hlen, hitems, ?_, Or.inl (by simp)⟩
    intro wc hwc
    rcases List.mem_append.mp hwc with h | h
    · exact hwcs wc h
    · rcases List.mem_singleton.mp h with rfl
      exact hgood'
  | some j =>
    dsimp only
    cases hma : mapGet byAlias (normalize t.aliasName) with
    | none =>
      dsimp only
      refine ⟨hlen, hitems, ?_, Or.inl (by simp)⟩
      intro wc hwc
      rcases List.mem_append.mp hwc with h | h
      · exact hwcs wc h
      · rcases List.mem_singleton.mp h with rfl
        exact hgood'
    | some i =>
      dsimp only
      have hlt : i < acc.1.length := by
        rw [hlen]
        exact hb _ i hma
      obtain ⟨hall', hex⟩ := attach_inv ctx acc.1 i _ hlt hgood' hitems
      exact ⟨by rw [attachToJoinOnAt_length, hlen], hall', hwcs, Or.inr hex⟩

theorem tenantFold_inv (ctx : ColumnCtx) (byAlias : List (String × Nat)) (n : Nat)
    (hb : ∀ k i, mapGet byAlias k = some i → i < n) :
    ∀ (l : List TenantTarget) (acc : List FromItem × List Expr),
      (∀ t ∈ l, walkExpr ctx (tenantPredicate t 1) = .error .SQL_PARAMETER_NOT_ALLOWED) →
      acc.1.length = n →
      (∀ f ∈ acc.1,
        walkFromItem ctx f = .ok f ∨
        walkFromItem ctx f = .error .SQL_PARAMETER_NOT_ALLOWED) →
      (∀ wc ∈ acc.2, walkExpr ctx wc = .error .SQL_PARAMETER_NOT_ALLOWED) →
      ((l.foldl (tenantStep byAlias 1) acc).1.length = n ∧
       (∀ f ∈ (l.foldl (tenantStep byAlias 1) acc).1,
         walkFromItem ctx f = .ok f ∨
         walkFromItem ctx f = .error .SQL_PARAMETER_NOT_ALLOWED) ∧
       (∀ wc ∈ (l.foldl (tenantStep byAlias 1) acc).2,
         walkExpr ctx wc = .error .SQL_PARAMETER_NOT_ALLOWED) ∧
       (l ≠ [] →
         (l.foldl (tenantStep byAlias 1) acc).2 ≠ [] ∨
         ∃ f ∈ (l.foldl (tenantStep byAlias 1) acc).1,
           walkFromItem ctx f = .error .SQL_PARAMETER_NOT_ALLOWED)) := by
  intro l
  induction l with
  | nil =>
    intro acc _ hlen hitems hwcs
    exact ⟨hlen, hitems, hwcs, fun h => absurd rfl h⟩
  | cons t ts ih =>
    intro acc hgood hlen hitems hwcs
    obtain ⟨hlen', hitems', hwcs', hp'⟩ :=
      tenantStep_inv ctx byAlias n hb acc t hlen hitems hwcs
        (hgood t (List.mem_cons_self _ _))
    rw [List.foldl_cons]
    obtain ⟨hlenr, hitemsr, hwcsr, hpr⟩ :=
      ih (tenantStep byAlias 1 acc t)
        (fun u hu => hgood u (List.mem_cons_of_mem _ hu)) hlen' hitems' hwcs'
    refine ⟨hlenr, hitemsr, hwcsr, fun _ => ?_⟩
    cases ts with
    | nil => exact hp'
    | cons u us => exact hpr (List.cons_ne_nil _ _)

/-- Re-validating the tenant-filtered statement always fails with the
parameter error: the injected `$1` placeholder is a `var` node, and the walk
reaches it (either inside a join `ON` condition or inside `WHERE`). -/
theorem validateColumns_tenant_err (ast0 ast2 : SelectAst)
    (refs : List ReferencedTable) (ts : List TenantTarget) (L : Option LimitNode)
    (hR : ∀ r ∈ refs, tableWF r.meta = true)
    (hvc : validateColumns ast0 refs = .ok ast2)
    (hne : ts.isEmpty = false)
    (hgood : ∀ t ∈ dedupeTargets ts,
      walkExpr (buildColumnCtx ast0 refs) (tenantPredicate t 1)
        = .error .SQL_PARAMETER_NOT_ALLOWED) :
    validateColumns { applyTenantFilter ast2 ts 1 with limit := L } refs
      = .error .SQL_PARAMETER_NOT_ALLOWED := by
  have hwfA := ctx_aliasToTable_wf ast0 refs hR
  have hwfR : ∀ r ∈ (buildColumnCtx ast0 refs).referencedTables,
      tableWF r.meta = true := hR
  have htsne : ts ≠ [] := by
    cases ts with
    | nil => cases hne
    | cons a b => exact List.cons_ne_nil _ _
  have hdedne := dedupeTargets_ne_nil ts htsne
  unfold validateColumns at hvc
  dsimp only at hvc
  cases h1 : mapMExcept (walkSelectColumn (buildColumnCtx ast0 refs)) ast0.columns with
  | error e => rw [h1] at hvc; cases hvc
  | ok columns =>
  rw [h1] at hvc
  dsimp only at hvc
  cases h2 : walkFromClause (buildColumnCtx ast0 refs) ast0.fromItems with
  | error e => rw [h2] at hvc; cases hvc
  | ok fromItems =>
  rw [h2] at hvc
  dsimp only at hvc
  cases h3 : walkOptExpr (buildColumnCtx ast0 refs) ast0.whereCond with
  | error e => rw [h3] at hvc; cases hvc
  | ok whereCond =>
  rw [h3] at hvc
  dsimp only at hvc
  cases h4 : mapMExcept (walkExpr (buildColumnCtx ast0 refs)) ast0.groupBy with
  | error e => rw [h4] at hvc; cases hvc
  | ok groupBy =>
  rw [h4] at hvc
  dsimp only at hvc
  cases h5 : walkOptExpr (buildColumnCtx ast0 refs) ast0.having with
  | error e => rw [h5] at hvc; cases hvc
  | ok having =>
  rw [h5] at hvc
  dsimp only at hvc
  cases h6 : mapMExcept (walkExpr (buildColumnCtx ast0 refs)) ast0.orderBy with
  | error e => rw [h6] at hvc; cases hvc
  | ok orderBy =>
  rw [h6] at hvc
  dsimp only at hvc
  injection hvc with hvc
  subst hvc
  obtain ⟨fn, wcs, hfold, heq⟩ := applyTenantFilter_fields_spec
    ast0.withCte ast0.intoPosition columns fromItems whereCond groupBy having
    orderBy ast0.limit ts 1 hne
  rw [heq]
  dsimp only
  have hctx : buildColumnCtx
      (⟨ast0.withCte, ast0.intoPosition, columns, tenantFromItems fromItems fn,
        tenantWhere whereCond wcs, groupBy, having, orderBy, L⟩ : SelectAst) refs
      = buildColumnCtx ast0 refs :=
    buildColumnCtx_congr ast0 _ refs (mapMExcept_walk_asName _ _ _ h1)
  unfold validateColumns
  dsimp only
  rw [hctx]
  rw [mapMExcept_idem _ (walkSelectColumn_idem _ hwfA hwfR) _ _ h1]
  dsimp only
  cases hfi : ast0.fromItems with
  | none =>
    rw [hfi, walkFromClause] at h2
    injection h2 with h2
    subst h2
    simp only [Option.getD_none] at hfold
    rw [show buildFromByAlias ([] : List FromItem) = [] from rfl] at hfold
    obtain ⟨hlenr, _hitemsr, hwcsr, hpr⟩ :=
      tenantFold_inv (buildColumnCtx ast0 refs) [] 0
        (fun k i h => by cases h) (dedupeTargets ts) ([], [])
        hgood rfl (fun f hf => absurd hf (List.not_mem_nil f))
        (fun wc hwc => absurd hwc (List.not_mem_nil wc))
    rw [hfold] at hlenr hwcsr hpr
    dsimp only at hlenr hwcsr hpr
    have hwcsne : wcs ≠ [] := by
      rcases hpr hdedne with h | ⟨f, hf, _⟩
      · exact h
      · rw [List.length_eq_zero] at hlenr
        subst hlenr
        exact absurd hf (List.not_mem_nil f)
    rw [tenantFromItems_none,
      show walkFromClause (buildColumnCtx ast0 refs) none = .ok none from rfl]
    dsimp only
    cases wcs with
    | nil => exact absurd rfl hwcsne
    | cons c cs =>
      have hcombined : walkExpr (buildColumnCtx ast0 refs) (cs.foldl andExpr c)
          = .error .SQL_PARAMETER_NOT_ALLOWED :=
        walkExpr_foldl_and_err _ cs c (hwcsr c (List.mem_cons_self _ _))
      cases whereCond with
      | none =>
        rw [tenantWhere_cons_none]
        rw [show walkOptExpr (buildColumnCtx ast0 refs) (some (cs.foldl andExpr c))
          = (match walkExpr (buildColumnCtx ast0 refs) (cs.foldl andExpr c) with
             | .error er => .error er
             | .ok e' => .ok (some e')) from rfl, hcombined]
      | some ex =>
        rw [tenantWhere_cons_some]
        have hidem := walkOptExpr_idem _ hwfA hwfR _ _ h3
        rw [walkOptExpr] at hidem
        cases hxe : walkExpr (buildColumnCtx ast0 refs) ex with
        | error er => rw [hxe] at hidem; cases hidem
        | ok e' =>
          have hand := walkExpr_and_right_err _ ex e' (cs.foldl andExpr c)
            hxe hcombined
          rw [show walkOptExpr (buildColumnCtx ast0 refs)
              (some (andExpr ex (cs.foldl andExpr c)))
            = (match walkExpr (buildColumnCtx ast0 refs)
                (andExpr ex (cs.foldl andExpr c)) with
               | .error er => .error er
               | .ok e' => .ok (some e')) from rfl, hand]
  | some items0 =>
    rw [hfi, walkFromClause] at h2
    cases hm : mapMExcept (walkFromItem (buildColumnCtx ast0 refs)) items0 with
    | error e => rw [hm] at h2; cases h2
    | ok items2 =>
      rw [hm] at h2
      dsimp only at h2
      injection h2 with h2
      subst h2
      simp only [Option.getD_some] at hfold
      have hinit : ∀ f ∈ items2,
          walkFromItem (buildColumnCtx ast0 refs) f = .ok f ∨
          walkFromItem (buildColumnCtx ast0 refs) f
            = .error .SQL_PARAMETER_NOT_ALLOWED := by
        intro f hf
        obtain ⟨a, _, ha⟩ := mapMExcept_ok_mem _ _ _ hm f hf
        exact Or.inl (walkFromItem_idem _ hwfA hwfR a f ha)
      obtain ⟨hlenr, hitemsr, hwcsr, hpr⟩ :=
        tenantFold_inv (buildColumnCtx ast0 refs)
          (buildFromByAlias items2) items2.length
          (fun k i h => buildFromByAlias_lt items2 k i h)
          (dedupeTargets ts) (items2, []) hgood rfl hinit
          (fun wc hwc => absurd hwc (List.not_mem_nil wc))
      rw [hfold] at hlenr hitemsr hwcsr hpr
      rcases mapMExcept_stable (walkFromItem (buildColumnCtx ast0 refs))
          .SQL_PARAMETER_NOT_ALLOWED fn hitemsr with hok | herr
      · have hwcsne : wcs ≠ [] := by
          rcases hpr hdedne with h | ⟨f, hf, hbad⟩
          · exact h
          · obtain ⟨b, hb⟩ := mapMExcept_ok_forall _ _ _ hok f hf
            rw [hb] at hbad
            cases hbad
        rw [tenantFromItems_some,
          show walkFromClause (buildColumnCtx ast0 refs) (some fn)
          = (match mapMExcept (walkFromItem (buildColumnCtx ast0 refs)) fn with
             | .error e => .error e
             | .ok items' => .ok (some items')) from rfl, hok]
        dsimp only
        cases wcs with
        | nil => exact absurd rfl hwcsne
        | cons c cs =>
          have hcombined : walkExpr (buildColumnCtx ast0 refs) (cs.foldl andExpr c)
              = .error .SQL_PARAMETER_NOT_ALLOWED :=
            walkExpr_foldl_and_err _ cs c (hwcsr c (List.mem_cons_self _ _))
          cases whereCond with
          | none =>
            rw [tenantWhere_cons_none]
            rw [show walkOptExpr (buildColumnCtx ast0 refs)
                (some (cs.foldl andExpr c))
              = (match walkExpr (buildColumnCtx ast0 refs) (cs.foldl andExpr c) with
                 | .error er => .error er
                 | .ok e' => .ok (some e')) from rfl, hcombined]
          | some ex =>
            rw [tenantWhere_cons_some]
            have hidem := walkOptExpr_idem _ hwfA hwfR _ _ h3
            rw [walkOptExpr] at hidem
            cases hxe : walkExpr (buildColumnCtx ast0 refs) ex with
            | error er => rw [hxe] at hidem; cases hidem
            | ok e' =>
              have hand := walkExpr_and_right_err _ ex e' (cs.foldl andExpr c)
                hxe hcombined
              rw [show walkOptExpr (buildColumnCtx ast0 refs)
                  (some (andExpr ex (cs.foldl andExpr c)))
                = (match walkExpr (buildColumnCtx ast0 refs)
                    (andExpr ex (cs.foldl andExpr c)) with
                   | .error er => .error er
                   | .ok e' => .ok (some e')) from rfl, hand]
      · rw [tenantFromItems_some,
          show walkFromClause (buildColumnCtx ast0 refs) (some fn)
          = (match mapMExcept (walkFromItem (buildColumnCtx ast0 refs)) fn with
             | .error e => .error e
             | .ok items' => .ok (some items')) from rfl, herr]

def optShape (o : Option (List FromItem)) : Option (List (Bool × Option String ×
    Option String × Option String × Option String)) :=
  o.map (List.map fromShape)

theorem resolveReferencedTables_optShape (a b : SelectAst) (snap : SchemaSnapshot)
    (h : optShape b.fromItems = optShape a.fromItems) :
    resolveReferencedTables b snap = resolveReferencedTables a snap := by
  unfold resolveReferencedTables
  cases ha : a.fromItems with
  | none =>
    rw [ha] at h
    cases hb : b.fromItems with
    | none => rfl
    | some ys => rw [hb] at h; cases h
  | some xs =>
    rw [ha] at h
    cases hb : b.fromItems with
    | none => rw [hb] at h; cases h
    | some ys =>
      rw [hb] at h
      rw [optShape, optShape, Option.map_some', Option.map_some'] at h
      injection h with h
      exact mapMExcept_resolve_congr snap xs ys h

theorem validateColumns_shape (ast ast' : SelectAst) (refs : List ReferencedTable)
    (h : validateColumns ast refs = .ok ast') :
    optShape ast'.fromItems = optShape ast.fromItems := by
  unfold validateColumns at h
  dsimp only at h
  cases h1 : mapMExcept (walkSelectColumn (buildColumnCtx ast refs)) ast.columns with
  | error e => rw [h1] at h; cases h
  | ok columns =>
  rw [h1] at h
  dsimp only at h
  cases h2 : walkFromClause (buildColumnCtx ast refs) ast.fromItems with
  | error e => rw [h2] at h; cases h
  | ok fromItems =>
  rw [h2] at h
  dsimp only at h
  cases h3 : walkOptExpr (buildColumnCtx ast refs) ast.whereCond with
  | error e => rw [h3] at h; cases h
  | ok whereCond =>
  rw [h3] at h
  dsimp only at h
  cases h4 : mapMExcept (walkExpr (buildColumnCtx ast refs)) ast.groupBy with
  | error e => rw [h4] at h; cases h
  | ok groupBy =>
  rw [h4] at h
  dsimp only at h
  cases h5 : walkOptExpr (buildColumnCtx ast refs) ast.having with
  | error e => rw [h5] at h; cases h
  | ok having =>
  rw [h5] at h
  dsimp only at h
  cases h6 : mapMExcept (walkExpr (buildColumnCtx ast refs)) ast.orderBy with
  | error e => rw [h6] at h; cases h
  | ok orderBy =>
  rw [h6] at h
  dsimp only at h
  injection h with h
  subst h
  show optShape fromItems = optShape ast.fromItems
  cases hfi : ast.fromItems with
  | none =>
    rw [hfi, walkFromClause] at h2
    injection h2 with h2
    subst h2
    rfl
  | some items0 =>
    rw [hfi, walkFromClause] at h2
    cases hm : mapMExcept (walkFromItem (buildColumnCtx ast refs)) items0 with
    | error e => rw [hm] at h2; cases h2
    | ok items2 =>
      rw [hm] at h2
      dsimp only at h2
      injection h2 with h2
      subst h2
      rw [optShape, optShape, Option.map_some', Option.map_some',
        mapMExcept_walkFromItem_shape _ items0 items2 hm]

theorem applyTenantFilter_shape (ast : SelectAst) (ts : List TenantTarget)
    (p : Int) : optShape (applyTenantFilter ast ts p).fromItems
      = optShape ast.fromItems := by
  cases hts : ts.isEmpty with
  | true =>
    rw [applyTenantFilter, if_pos hts]
  | false =>
    obtain ⟨fn, wcs, hfold, heq⟩ := applyTenantFilter_fields_spec
      ast.withCte ast.intoPosition ast.columns ast.fromItems ast.whereCond
      ast.groupBy ast.having ast.orderBy ast.limit ts p hts
    have hast : ast = ⟨ast.withCte, ast.intoPosition, ast.columns, ast.fromItems,
        ast.whereCond, ast.groupBy, ast.having, ast.orderBy, ast.limit⟩ := rfl
    rw [hast] at heq ⊢
    rw [heq]
    show optShape (tenantFromItems ast.fromItems fn) = optShape ast.fromItems
    cases hfi : ast.fromItems with
    | none => rfl
    | some xs =>
      rw [tenantFromItems_some, optShape, optShape, Option.map_some',
        Option.map_some']
      rw [hfi] at hfold
      rw [Option.getD_some] at hfold
      have hsh := tenantFold_shape (buildFromByAlias xs) p (dedupeTargets ts) (xs, [])
      rw [hfold] at hsh
      rw [hsh]

/-- Every tenant target built from a well-formed, alias-unique reference list
yields a predicate the walk rejects with the parameter error. -/
theorem tenantTargets_good (ast0 : SelectAst) (refs : List ReferencedTable)
    (hR : ∀ r ∈ refs, tableWF r.meta = true)
    (hnd : (refs.map (fun r => normalize r.aliasName)).Nodup) :
    ∀ t ∈ tenantTargetsOf refs,
      walkExpr (buildColumnCtx ast0 refs) (tenantPredicate t 1)
        = .error .SQL_PARAMETER_NOT_ALLOWED := by
  intro t ht
  rw [tenantTargetsOf] at ht
  obtain ⟨r, hrf, hrt⟩ := List.mem_map.mp ht
  have hrmem : r ∈ refs := List.mem_of_mem_filter hrf
  have hOrg : r.meta.hasOrganizationId = true := by
    have := List.of_mem_filter hrf
    simpa using this
  have hwfr := hR r hrmem
  obtain ⟨hcanon, hisSome, hhas⟩ := tableWF_parts r.meta hwfr
  have hcontains : r.meta.columnsLower.contains "organizationid" = true := by
    rw [← hhas]
    exact hOrg
  have hmemcol : "organizationid" ∈ r.meta.columnsLower := by
    simpa using hcontains
  obtain ⟨v, hv⟩ := Option.isSome_iff_exists.mp (hisSome _ hmemcol)
  have hnormv : normalize v = "organizationid" := hcanon _ _ hv
  have hcol : t.columnName = v := by
    rw [← hrt]
    show (canonicalColumnName r.meta "organizationid").getD "organizationId" = v
    rw [canonicalColumnName, hv, Option.getD_some]
  have hali : t.aliasName = r.aliasName := by
    rw [← hrt]
  have hlk : mapGet (buildColumnCtx ast0 refs).aliasToTable (normalize t.aliasName)
      = some r.meta := by
    rw [hali]
    exact mapGet_foldl_mapSet_nodup (fun x => normalize x.aliasName)
      (fun x => x.meta) refs [] r hnd hrmem
  refine walkExpr_tenantPred _ t r.meta hlk ?_ ?_
  · rw [hcol, hnormv]
    decide
  · rw [hcol, hnormv]
    exact hcontains

/-- Feeding the AST produced by an accepted run back through the AST stages
always fails: with the parameter error when a tenant filter was injected,
else with the offset error from the injected `LIMIT ... OFFSET`. -/
theorem validateAndRewriteAst_second (ast0 : SelectAst) (snapshot : SchemaSnapshot)
    (orgId : String) (page pageSize hardCap : Int) (refs : List ReferencedTable)
    (core : CoreOutput)
    (hwf : snapshotWF snapshot = true)
    (href : resolveReferencedTables ast0 snapshot = .ok refs)
    (hnd : (refs.map (fun r => normalize r.aliasName)).Nodup)
    (hcore : validateAndRewriteAst ast0 snapshot orgId page pageSize hardCap
      = .ok core) :
    validateAndRewriteAst core.ast snapshot orgId page pageSize hardCap
      = .error (if core.params.isEmpty then SqlErrorCode.SQL_OFFSET_NOT_ALLOWED
        else SqlErrorCode.SQL_PARAMETER_NOT_ALLOWED) := by
  have hR := refs_wf ast0 snapshot refs hwf href
  unfold validateAndRewriteAst at hcore
  dsimp only at hcore
  rw [href] at hcore
  dsimp only at hcore
  cases hvc : validateColumns ast0 refs with
  | error e => rw [hvc] at hcore; cases hcore
  | ok ast2 =>
  rw [hvc] at hcore
  dsimp only at hcore
  by_cases hlen : (tenantTargetsOf refs).length > 0
  · rw [if_pos hlen] at hcore
    dsimp only at hcore
    cases hpg : applyPagination (applyTenantFilter ast2 (tenantTargetsOf refs) 1)
        page pageSize hardCap with
    | error e => rw [hpg] at hcore; cases hcore
    | ok pr =>
    obtain ⟨pg, ast4⟩ := pr
    rw [hpg] at hcore
    dsimp only at hcore
    injection hcore with hcore
    subst hcore
    dsimp only
    rw [if_neg (by simp)]
    have hast4 := applyPagination_ok_shape _ _ _ _ _ _ hpg
    have hshape : optShape ast4.fromItems = optShape ast0.fromItems := by
      rw [hast4]
      dsimp only
      rw [applyTenantFilter_shape]
      exact validateColumns_shape ast0 ast2 refs hvc
    have hres4 : resolveReferencedTables ast4 snapshot = .ok refs := by
      rw [resolveReferencedTables_optShape ast0 ast4 snapshot hshape]
      exact href
    have hne : (tenantTargetsOf refs).isEmpty = false := by
      cases hts : tenantTargetsOf refs with
      | nil => rw [hts] at hlen; simp at hlen
      | cons a b => rfl
    have hvc4 : validateColumns ast4 refs = .error .SQL_PARAMETER_NOT_ALLOWED := by
      rw [hast4]
      exact validateColumns_tenant_err ast0 ast2 refs (tenantTargetsOf refs) _
        hR hvc hne
        (fun t ht => tenantTargets_good ast0 refs hR hnd t
          (dedupeTargets_sub _ t ht))
    unfold validateAndRewriteAst
    dsimp only
    rw [hres4]
    dsimp only
    rw [hvc4]
  · rw [if_neg hlen] at hcore
    dsimp only at hcore
    cases hpg : applyPagination ast2 page pageSize hardCap with
    | error e => rw [hpg] at hcore; cases hcore
    | ok pr =>
    obtain ⟨pg, ast4⟩ := pr
    rw [hpg] at hcore
    dsimp only at hcore
    injection hcore with hcore
    subst hcore
    dsimp only
    rw [if_pos (show (List.isEmpty ([] : List String)) = true from rfl)]
    have hast4 := applyPagination_ok_shape _ _ _ _ _ _ hpg
    have hshape : optShape ast4.fromItems = optShape ast0.fromItems := by
      rw [hast4]
      dsimp only
      exact validateColumns_shape ast0 ast2 refs hvc
    have hres4 : resolveReferencedTables ast4 snapshot = .ok refs := by
      rw [resolveReferencedTables_optShape ast0 ast4 snapshot hshape]
      exact href
    have hvc4 : validateColumns ast4 refs = .ok ast4 := by
      rw [hast4]
      exact validateColumns_limit ast0 ast2 refs _ hR hvc
    have hlimit : ast4.limit = some (LimitNode.mk "offset"
        [LimitEntry.mk "number" pg.fetchLimit,
         LimitEntry.mk "number" ((page - 1) * pg.displayLimit)]) := by
      rw [hast4]
    unfold validateAndRewriteAst
    dsimp only
    rw [hres4]
    dsimp only
    rw [hvc4]
    dsimp only
    rw [if_neg hlen]
    dsimp only
    rw [applyPagination_offset_err ast4 page pageSize hardCap _ hlimit rfl
      (by show 1 < 2; decide)]

theorem parseSelectAst_flags (astify : String → Option RawAst) (sql : String)
    (ast : SelectAst) (h : parseSelectAst astify sql = .ok ast) :
    ast.withCte = false ∧ ast.intoPosition = false := by
  unfold parseSelectAst at h
  cases ha : astify sql with
  | none => rw [ha] at h; cases h
  | some raw =>
    rw [ha] at h
    cases raw with
    | multi => cases h
    | nonSelect => cases h
    | one sel =>
      dsimp only at h
      by_cases hc : sel.withCte = true
      · rw [if_pos hc] at h; cases h
      · rw [if_neg hc] at h
        by_cases hi : sel.intoPosition = true
        · rw [if_pos hi] at h; cases h
        · rw [if_neg hi] at h
          injection h with h
          subst h
          rw [Bool.not_eq_true] at hc hi
          exact ⟨hc, hi⟩

theorem validateColumns_flags (ast ast' : SelectAst) (refs : List ReferencedTable)
    (h : validateColumns ast refs = .ok ast') :
    ast'.withCte = ast.withCte ∧ ast'.intoPosition = ast.intoPosition := by
  unfold validateColumns at h
  dsimp only at h
  cases h1 : mapMExcept (walkSelectColumn (buildColumnCtx ast refs)) ast.columns with
  | error e => rw [h1] at h; cases h
  | ok columns =>
  rw [h1] at h
  dsimp only at h
  cases h2 : walkFromClause (buildColumnCtx ast refs) ast.fromItems with
  | error e => rw [h2] at h; cases h
  | ok fromItems =>
  rw [h2] at h
  dsimp only at h
  cases h3 : walkOptExpr (buildColumnCtx ast refs) ast.whereCond with
  | error e => rw [h3] at h; cases h
  | ok whereCond =>
  rw [h3] at h
  dsimp only at h
  cases h4 : mapMExcept (walkExpr (buildColumnCtx ast refs)) ast.groupBy with
  | error e => rw [h4] at h; cases h
  | ok groupBy =>
  rw [h4] at h
  dsimp only at h
  cases h5 : walkOptExpr (buildColumnCtx ast refs) ast.having with
  | error e => rw [h5] at h; cases h
  | ok having =>
  rw [h5] at h
  dsimp only at h
  cases h6 : mapMExcept (walkExpr (buildColumnCtx ast refs)) ast.orderBy with
  | error e => rw [h6] at h; cases h
  | ok orderBy =>
  rw [h6] at h
  dsimp only at h
  injection h with h
  subst h
  exact ⟨rfl, rfl⟩

theorem applyTenantFilter_flags (ast : SelectAst) (ts : List TenantTarget)
    (p : Int) : (applyTenantFilter ast ts p).withCte = ast.withCte ∧
      (applyTenantFilter ast ts p).intoPosition = ast.intoPosition := by
  cases hts : ts.isEmpty with
  | true => rw [applyTenantFilter, if_pos hts]; exact ⟨rfl, rfl⟩
  | false =>
    obtain ⟨fn, wcs, hfold, heq⟩ := applyTenantFilter_fields_spec
      ast.withCte ast.intoPosition ast.columns ast.fromItems ast.whereCond
      ast.groupBy ast.having ast.orderBy ast.limit ts p hts
    have hast : ast = ⟨ast.withCte, ast.intoPosition, ast.columns, ast.fromItems,
        ast.whereCond, ast.groupBy, ast.having, ast.orderBy, ast.limit⟩ := rfl
    rw [hast] at heq ⊢
    rw [heq]
    exact ⟨rfl, rfl⟩

theorem validateAndRewriteAst_flags (ast0 : SelectAst) (snapshot : SchemaSnapshot)
    (orgId : String) (page pageSize hardCap : Int) (core : CoreOutput)
    (hcore : validateAndRewriteAst ast0 snapshot orgId page pageSize hardCap
      = .ok core) :
    core.ast.withCte = ast0.withCte ∧ core.ast.intoPosition = ast0.intoPosition := by
  unfold validateAndRewriteAst at hcore
  dsimp only at hcore
  cases hre : resolveReferencedTables ast0 snapshot with
  | error e => rw [hre] at hcore; cases hcore
  | ok refs =>
  rw [hre] at hcore
  dsimp only at hcore
  cases hvc : validateColumns ast0 refs with
  | error e => rw [hvc] at hcore; cases hcore
  | ok ast2 =>
  rw [hvc] at hcore
  dsimp only at hcore
  obtain ⟨hvw, hvi⟩ := validateColumns_flags ast0 ast2 refs hvc
  by_cases hlen : (tenantTargetsOf refs).length > 0
  · rw [if_pos hlen] at hcore
    dsimp only at hcore
    cases hpg : applyPagination (applyTenantFilter ast2 (tenantTargetsOf refs) 1)
        page pageSize hardCap with
    | error e => rw [hpg] at hcore; cases hcore
    | ok pr =>
    obtain ⟨pg, ast4⟩ := pr
    rw [hpg] at hcore
    dsimp only at hcore
    injection hcore with hcore
    subst hcore
    dsimp only
    have hast4 := applyPagination_ok_shape _ _ _ _ _ _ hpg
    obtain ⟨htw, hti⟩ := applyTenantFilter_flags ast2 (tenantTargetsOf refs) 1
    rw [hast4]
    dsimp only
    rw [htw, hti, hvw, hvi]
    exact ⟨rfl, rfl⟩
  · rw [if_neg hlen] at hcore
    dsimp only at hcore
    cases hpg : applyPagination ast2 page pageSize hardCap with
    | error e => rw [hpg] at hcore; cases hcore
    | ok pr =>
    obtain ⟨pg, ast4⟩ := pr
    rw [hpg] at hcore
    dsimp only at hcore
    injection hcore with hcore
    subst hcore
    dsimp only
    have hast4 := applyPagination_ok_shape _ _ _ _ _ _ hpg
    rw [hast4]
    dsimp only
    rw [hvw, hvi]
    exact ⟨rfl, rfl⟩

/-! ## C4: idempotence of the rewrite -/

/-- The reference list the pipeline resolves for the demo query. -/
def demoRefs : List ReferencedTable :=
  match resolveReferencedTables astUsers snap0 with
  | .ok rs => rs
  | .error _ => []

/-- The core output of the demo run. -/
def demoCore : CoreOutput :=
  match validateAndRewriteAst astUsers snap0 "org_1" 1 2 100 with
  | .ok c => c
  | .error _ => ⟨astUsers, [], 0, 0, []⟩

/-- C4 counterexample. The spec says the second run either re-emits the same
string or rejects with the OFFSET error; on the demo scenario the second run
rejects with `SQL_PARAMETER_NOT_ALLOWED` instead (the injected `$1` tenant
placeholder is a `var` node, which the column walk rejects before pagination
ever sees the injected `OFFSET`). -/
theorem C4_idempotence_counterexample :
    validateAndRewriteSql demoAstify demoSqlify demoInput snap0 = .ok demoOut ∧
    validateAndRewriteSql demoAstify demoSqlify
      { demoInput with sql := demoOut.sql } snap0
      = .error .SQL_PARAMETER_NOT_ALLOWED ∧
    validateAndRewriteSql demoAstify demoSqlify
      { demoInput with sql := demoOut.sql } snap0
      ≠ .error .SQL_OFFSET_NOT_ALLOWED := by decide

/-- C4 (amended). Re-running `validateAndRewriteSql` on the emitted SQL with
the same snapshot, tenant id, page, pageSize and hardCap never re-emits the
same string: it always rejects, with `SQL_PARAMETER_NOT_ALLOWED` when the
first run injected a tenant parameter and `SQL_OFFSET_NOT_ALLOWED` otherwise
(from the injected `LIMIT ... OFFSET`). Hypotheses: the first run accepted
(unrolled into its parse and AST stages), the snapshot is well formed, the
normalized aliases of the resolved references are distinct, the emitted SQL
is trim-stable, and the external parser round-trips the emitted SQL back to
the rewritten AST. -/
theorem C4_idempotence_amended
    (astify : String → Option RawAst) (sqlify : SelectAst → String)
    (input : RewriteInput) (snapshot : SchemaSnapshot) (out : RewriteOutput)
    (ast0 : SelectAst) (refs : List ReferencedTable) (core : CoreOutput)
    (h1 : validateAndRewriteSql astify sqlify input snapshot = .ok out)
    (hp : parseSelectAst astify (trimString input.sql) = .ok ast0)
    (href : resolveReferencedTables ast0 snapshot = .ok refs)
    (hcore : validateAndRewriteAst ast0 snapshot input.orgId input.page
      input.pageSize input.hardCap = .ok core)
    (hwf : snapshotWF snapshot = true)
    (hnd : (refs.map (fun r => normalize r.aliasName)).Nodup)
    (htrim : trimString out.sql = out.sql)
    (hround : astify out.sql = some (.one core.ast)) :
    validateAndRewriteSql astify sqlify { input with sql := out.sql } snapshot
      = .error (if core.params.isEmpty then SqlErrorCode.SQL_OFFSET_NOT_ALLOWED
        else SqlErrorCode.SQL_PARAMETER_NOT_ALLOWED) := by
  unfold validateAndRewriteSql at h1
  dsimp only at h1
  cases hck : checkReadOnlySqlTokens (trimString input.sql) with
  | error e => rw [hck] at h1; cases h1
  | ok u =>
  rw [hck] at h1
  dsimp only at h1
  rw [hp] at h1
  dsimp only at h1
  rw [hcore] at h1
  dsimp only at h1
  cases hck2 : checkReadOnlySqlTokens (sqlify core.ast) with
  | error e => rw [hck2] at h1; cases h1
  | ok u2 =>
  rw [hck2] at h1
  dsimp only at h1
  injection h1 with h1
  subst h1
  dsimp only at htrim hround
  obtain ⟨hwc0, hip0⟩ := parseSelectAst_flags astify (trimString input.sql) ast0 hp
  obtain ⟨hwcc, hipc⟩ := validateAndRewriteAst_flags ast0 snapshot input.orgId
    input.page input.pageSize input.hardCap core hcore
  have hp2 : parseSelectAst astify (sqlify core.ast) = .ok core.ast := by
    rw [parseSelectAst, hround]
    dsimp only
    rw [if_neg (by rw [hwcc, hwc0]; exact Bool.false_ne_true),
      if_neg (by rw [hipc, hip0]; exact Bool.false_ne_true)]
  have hsecond := validateAndRewriteAst_second ast0 snapshot input.orgId
    input.page input.pageSize input.hardCap refs core hwf href hnd hcore
  unfold validateAndRewriteSql
  dsimp only
  rw [htrim, hck2]
  dsimp only
  rw [hp2]
  dsimp only
  rw [hsecond]

/-- Closed witness for the amended C4 theorem on the demo scenario: all
hypotheses hold and the second run rejects with the parameter error. -/
theorem C4_idempotence_amended_witness :
    snapshotWF snap0 = true ∧
    validateAndRewriteSql demoAstify demoSqlify
      { demoInput with sql := demoOut.sql } snap0
      = .error (if demoCore.params.isEmpty then SqlErrorCode.SQL_OFFSET_NOT_ALLOWED
        else SqlErrorCode.SQL_PARAMETER_NOT_ALLOWED) :=
  ⟨by decide,
   C4_idempotence_amended demoAstify demoSqlify demoInput snap0 demoOut astUsers
     demoRefs demoCore (by decide) (by decide) (by decide) (by decide) (by decide)
     (by decide) (by decide) (by decide)⟩

end OrgDb
